import Mathlib

/-!
# GMailToPDF — verification development for `gmail_pdf_drive.js`

A shallow embedding of the Apps Script pipeline that exports labelled Gmail
messages to PDF files on Drive, followed by theorems about it.

JavaScript strings are sequences of UTF-16 code units; regular expressions
without the `u` flag work on code units too, so a string is modelled as a
list of code units (natural numbers).
-/

namespace GMailToPDF

/-! ## Strings -/

/-- One UTF-16 code unit. -/
abbrev CodeUnit := Nat

/-- A JavaScript string: its sequence of UTF-16 code units. -/
abbrev JsString := List CodeUnit

/-- The code units of a literal (all literals used here are in the Basic Multilingual Plane). -/
def js (s : String) : JsString := s.toList.map Char.toNat

/-- Truthiness of a string: a string is truthy iff it is not empty. -/
def estVrai (s : JsString) : Bool := !s.isEmpty

/-- The regular-expression class `\s`, which is also what `String.prototype.trim`
strips: WhiteSpace and LineTerminator code units of ECMAScript. -/
def estEspace (c : CodeUnit) : Bool :=
  c = 9 || c = 10 || c = 11 || c = 12 || c = 13 || c = 32 || c = 160 || c = 5760 ||
  (8192 ≤ c && c ≤ 8202) || c = 8232 || c = 8233 || c = 8239 || c = 8287 ||
  c = 12288 || c = 65279

/-- The character class `[\\/:*?"<>|]` of `nettoyerNomFichier_`. -/
def estInterdit (c : CodeUnit) : Bool :=
  c = 92 || c = 47 || c = 58 || c = 42 || c = 63 || c = 34 || c = 60 || c = 62 || c = 124

/-- The call `s.replace(/[class]+/g, r)` with a one-character replacement `r`: every
maximal run of characters of the class becomes one `r`. The flag tells whether
the previous character belonged to a run already replaced. -/
def remplacerSuitesAux (p : CodeUnit → Bool) (r : CodeUnit) : Bool → JsString → JsString
  | _, [] => []
  | dansSuite, c :: t =>
    if p c then
      if dansSuite then remplacerSuitesAux p r true t
      else r :: remplacerSuitesAux p r true t
    else c :: remplacerSuitesAux p r false t

/-- The call `s.replace(/[class]+/g, r)`. -/
def remplacerSuites (p : CodeUnit → Bool) (r : CodeUnit) (s : JsString) : JsString :=
  remplacerSuitesAux p r false s

/-- The call `s.replace(/x/g, par)` for a one-character pattern `x`. -/
def remplacerCar (x : CodeUnit) (par : JsString) (s : JsString) : JsString :=
  s.flatMap (fun c => if c = x then par else [c])

/-- The method `String.prototype.trim`. -/
def trim (s : JsString) : JsString :=
  ((s.dropWhile estEspace).reverse.dropWhile estEspace).reverse

/-- The call `s.substring(0, n)`. -/
def substring0 (n : Nat) (s : JsString) : JsString := s.take n

/-- Source lines 247-252:
`nom.replace(/[\\/:*?"<>|]+/g, '_').replace(/\s+/g, ' ').trim().substring(0, 150)`. -/
def nettoyerNomFichier_ (nom : JsString) : JsString :=
  substring0 150 (trim (remplacerSuites estEspace 32 (remplacerSuites estInterdit 95 nom)))

/-- Source line 254: the label name in double quotes, each `"` written `\"`. -/
def mettreEntreGuillemets_ (texte : JsString) : JsString :=
  [34] ++ remplacerCar 34 [92, 34] texte ++ [34]

/-- Source lines 256-262, for a string argument (`String(str || '')` is then `str`):
the four global replacements, in the order of the source. -/
def echapperHtml_ (str : JsString) : JsString :=
  remplacerCar 34 (js "&quot;")
    (remplacerCar 62 (js "&gt;")
      (remplacerCar 60 (js "&lt;")
        (remplacerCar 38 (js "&amp;") str)))

/-! ## Inline images (`cid:` references) -/

/-- The accessors of a `GmailMessage` the script calls. -/
inductive AccesMessage
  | getId | isUnread | getBody | getSubject | getFrom | getTo | getCc | getDate
  | getAttachments
  deriving DecidableEq

/-- The calls the script makes to its host (Gmail, Drive, the property store, the
utilities), each with the arguments that identify it. -/
inductive Op
  | getUserLabelByName (nom : JsString)
  | createLabel (nom : JsString)
  | getUserProperties
  | formatDate (format : JsString)
  | search (requete : JsString)
  | getFolderById (id : Nat)
  | getRootFolder
  | getFoldersByName (parent : Nat) (nom : JsString)
  | createFolder (parent : Nat) (nom : JsString)
  | getMessages (fil : Nat)
  | message (acces : AccesMessage) (id : JsString)
  | getProperty (cle : JsString)
  | rendrePdf (id : JsString)
  | createFile (dossier : Nat) (nom : JsString) (octets : List Nat)
  | setDescription (fichier : Nat) (texte : JsString)
  | copyBlob (nom : JsString)
  | addLabel (fil : Nat) (libelle : JsString)
  | removeLabel (fil : Nat) (libelle : JsString)
  | moveToArchive (fil : Nat)
  | setProperty (cle : JsString) (valeur : JsString)
  deriving DecidableEq

/-- The calls that change the mailbox, the file store or the property store. -/
def Op.mutante : Op → Bool
  | Op.createLabel _ => true
  | Op.createFolder _ _ => true
  | Op.createFile _ _ _ => true
  | Op.setDescription _ _ => true
  | Op.addLabel _ _ => true
  | Op.removeLabel _ _ => true
  | Op.moveToArchive _ => true
  | Op.setProperty _ _ => true
  | _ => false

/-- Errors a run can raise. -/
inductive Erreur
  /-- A `TypeError`: a value that is not a function was called. -/
  | pasUneFonction
  /-- The host call `op` failed (quota, service error, missing object). -/
  | panne (op : Op)
  deriving DecidableEq

/-- An attachment part of a message (a `GmailAttachment`). -/
structure Piece where
  /-- The result of `getName()`. -/
  nom : JsString
  /-- Whether the part is an inline image (else a regular attachment). -/
  enLigne : Bool
  /-- The header `Content-Id` of `getAllHeaders()`, when present. -/
  enteteContentId : Option JsString
  /-- The header `Content-ID` of `getAllHeaders()`, when present. -/
  enteteContentID : Option JsString
  /-- The result of `getContentType()` (`none` for `null`). -/
  typeContenu : Option JsString
  /-- The result of `getBytes()`, each byte taken modulo 256. -/
  octets : List Nat
  deriving DecidableEq

/-- The value `a || b` of two optional strings (absent and empty are falsy), `''` at the end. -/
def ouChaine (a b : Option JsString) : JsString :=
  if estVrai (a.getD []) then a.getD [] else if estVrai (b.getD []) then b.getD [] else []

/-- Source line 204: the content ID of a part, `<` and `>` removed, trimmed. -/
def cidNormalise (piece : Piece) : JsString :=
  trim ((ouChaine piece.enteteContentId piece.enteteContentID).filter
    (fun c => !(c = 60 || c = 62)))

/-- The object `indexCid` of `insererImagesCid_`: an ordinary JavaScript object, created
by `{}`. Its own properties are the parts stored so far, the most recent first; its
prototype is `Object.prototype` (`none`) until an assignment to `__proto__` replaces it
by a part. -/
structure Index where
  propres : List (JsString × Piece)
  proto : Option Piece
  deriving DecidableEq

/-- What reading `indexCid[cid]` yields. -/
inductive Valeur
  /-- The value `undefined`: no property of that name on the object or its prototypes. -/
  | indefini
  /-- A part stored by `indexCid[cid] = piece`. -/
  | piece (p : Piece)
  /-- Another truthy value, inherited through the prototype chain (a method of
  `Object.prototype`, `Object.prototype` itself, a method of a host object). -/
  | autre
  deriving DecidableEq

/-- The names every ordinary object inherits from `Object.prototype`
(`__proto__` is handled apart). -/
def membresObjectPrototype : List JsString :=
  [js "constructor", js "hasOwnProperty", js "isPrototypeOf", js "propertyIsEnumerable",
   js "toLocaleString", js "toString", js "valueOf", js "__defineGetter__",
   js "__defineSetter__", js "__lookupGetter__", js "__lookupSetter__"]

/-- The object `{}`. -/
def Index.vide : Index := ⟨[], none⟩

/-- The assignment `indexCid[cid] = piece`: an own property, except for the name
`__proto__`, whose setter replaces the prototype. -/
def Index.affecter (idx : Index) (cid : JsString) (piece : Piece) : Index :=
  if cid = js "__proto__" then { idx with proto := some piece }
  else { idx with propres := (cid, piece) :: idx.propres }

/-- The read `indexCid[cid]`: own properties first, then the prototype chain.
`proprieteHote` tells which names are properties of a host attachment object. -/
def Index.lire (proprieteHote : JsString → Bool) (idx : Index) (cid : JsString) : Valeur :=
  match idx.propres.lookup cid with
  | some p => Valeur.piece p
  | none =>
    if cid = js "__proto__" then
      match idx.proto with
      | some p => Valeur.piece p
      | none => Valeur.autre
    else if idx.proto.isSome && proprieteHote cid then Valeur.autre
    else if cid ∈ membresObjectPrototype then Valeur.autre
    else Valeur.indefini

/-- Source lines 201-206: the loop that fills `indexCid`. -/
def construireIndex : List Piece → Index → Index
  | [], idx => idx
  | piece :: reste, idx =>
    let cid := cidNormalise piece
    construireIndex reste (if estVrai cid then idx.affecter cid piece else idx)

/-- One of the 64 characters of the base64 alphabet. -/
def car64 (n : Nat) : CodeUnit :=
  (js "ABCDEFGHIJKLMNOPQRSTUVWXYZabcdefghijklmnopqrstuvwxyz0123456789+/").getD n 61

/-- The host function `Utilities.base64Encode` (RFC 4648, with padding). -/
def base64Encode : List Nat → JsString
  | [] => []
  | [a] => [car64 (a % 256 / 4), car64 (a % 4 * 16), 61, 61]
  | [a, b] =>
    [car64 (a % 256 / 4), car64 (a % 4 * 16 + b % 256 / 16), car64 (b % 16 * 4), 61]
  | a :: b :: c :: t =>
    car64 (a % 256 / 4) :: car64 (a % 4 * 16 + b % 256 / 16) ::
      car64 (b % 16 * 4 + c % 256 / 64) :: car64 (c % 64) :: base64Encode t

/-- The class `["']`. -/
def estGuillemet (c : CodeUnit) : Bool := c = 34 || c = 39

/-- A letter of the pattern under the flag `i` (without `u`): the given lower-case
ASCII letter or its upper-case form. -/
def lettreSansCasse (minuscule c : CodeUnit) : Bool := c = minuscule || c + 32 = minuscule

/-- The start `src=["']cid:` of the pattern at the head of the text; what follows it. -/
def debutSrcCid : JsString → Option JsString
  | c1 :: c2 :: c3 :: c4 :: c5 :: c6 :: c7 :: c8 :: c9 :: reste =>
    if lettreSansCasse 115 c1 && lettreSansCasse 114 c2 && lettreSansCasse 99 c3 && c4 = 61 &&
        estGuillemet c5 && lettreSansCasse 99 c6 && lettreSansCasse 105 c7 &&
        lettreSansCasse 100 c8 && c9 = 58 then some reste
    else none
  | _ => none

/-- A match of `/src=["']cid:([^"']+)["']/i` at the head of the text: the captured
group and the length of the match. The group is the longest run of characters other
than quotes; it must not be empty and a quote must follow it. -/
def correspondance (s : JsString) : Option (JsString × Nat) :=
  match debutSrcCid s with
  | none => none
  | some reste =>
    let cid := reste.takeWhile (fun c => !estGuillemet c)
    if cid.isEmpty then none
    else
      match reste.drop cid.length with
      | [] => none
      | _ :: _ => some (cid, 9 + cid.length + 1)

/-- The call `html.replace(/src=["']cid:([^"']+)["']/gi, f)`: the matches are found from
left to right and do not overlap; `f` receives the matched text and the group, and an
error it raises ends the call. The counter is the number of characters still covered
by the previous match. -/
def remplacerCid (f : JsString → JsString → Except Erreur JsString) :
    Nat → JsString → Except Erreur JsString
  | _, [] => Except.ok []
  | k + 1, _ :: t => remplacerCid f k t
  | 0, c :: t =>
    match correspondance (c :: t) with
    | some (cid, n) =>
      match f ((c :: t).take n) cid with
      | Except.error e => Except.error e
      | Except.ok r =>
        match remplacerCid f (n - 1) t with
        | Except.error e => Except.error e
        | Except.ok reste => Except.ok (r ++ reste)
    | none =>
      match remplacerCid f 0 t with
      | Except.error e => Except.error e
      | Except.ok reste => Except.ok (c :: reste)

/-- Source lines 208-214: the replacement function. A truthy value that is not an
attachment has no method `getContentType`, and calling it raises a `TypeError`. -/
def remplacement (proprieteHote : JsString → Bool) (indexCid : Index)
    (texte cid : JsString) : Except Erreur JsString :=
  match indexCid.lire proprieteHote cid with
  | Valeur.indefini => Except.ok texte
  | Valeur.autre => Except.error Erreur.pasUneFonction
  | Valeur.piece att =>
    let type := if estVrai (att.typeContenu.getD []) then att.typeContenu.getD []
      else js "image/png"
    let base64 := base64Encode att.octets
    Except.ok (js "src=\"data:" ++ type ++ js ";base64," ++ base64 ++ js "\"")

/-- Source lines 197-215, given the inline parts `pieces` that
`message.getAttachments` returned with `includeInlineImages: true,
includeAttachments: false`. -/
def insererImagesCid_ (proprieteHote : JsString → Bool) (html : JsString)
    (pieces : List Piece) : Except Erreur JsString :=
  let indexCid := construireIndex pieces Index.vide
  remplacerCid (remplacement proprieteHote indexCid) 0 html


/-! ## The mailbox, the file store, the property store -/

/-- A message of a conversation (a `GmailMessage`), by what its accessors return. -/
structure Message where
  id : JsString
  sujet : JsString
  corps : JsString
  expediteur : JsString
  destinataire : JsString
  copie : JsString
  date : Int
  nonLu : Bool
  pieces : List Piece
  deriving DecidableEq

/-- A conversation (a `GmailThread`): its labels, whether it is archived, its messages. -/
structure Fil where
  id : Nat
  libelles : List JsString
  archive : Bool
  messages : List Message
  deriving DecidableEq

/-- A Drive folder. The root folder has the identifier 0 and is not listed. -/
structure Dossier where
  id : Nat
  parent : Nat
  nom : JsString
  deriving DecidableEq

/-- A Drive file. -/
structure Fichier where
  id : Nat
  dossier : Nat
  nom : JsString
  description : JsString
  contenu : List Nat
  deriving DecidableEq

/-- A blob: a name and bytes. -/
structure Blob where
  nom : JsString
  octets : List Nat
  deriving DecidableEq

/-- A line written to the console. -/
inductive Ligne
  /-- Line 77: the search that is about to run. -/
  | recherche (nomLibelle requete : JsString)
  /-- Line 81: no conversation matched. -/
  | aucune
  /-- Line 130: a message was exported. -/
  | succes (nomBase : JsString)
  /-- Line 132: simulation mode, nothing was written. -/
  | simulation (nomBase : JsString)
  /-- Line 136: the error caught for one message. -/
  | erreurMessage (idMessage : JsString) (erreur : Erreur)
  /-- Line 30: the error caught by `executer`. -/
  | erreurCritique (erreur : Erreur)
  deriving DecidableEq

/-- Everything the script reads and writes: the user labels of the mailbox, its
conversations, the folders and files of the file store, the user properties, and two
records of the run, the host calls that returned (`journal`) and the console. -/
structure Monde where
  libelles : List JsString
  fils : List Fil
  dossiers : List Dossier
  fichiers : List Fichier
  proprietes : List (JsString × JsString)
  prochainId : Nat
  journal : List Op
  console : List Ligne
  deriving DecidableEq

/-- The object `CONFIG` (lines 8-17). -/
structure Config where
  libellesATraiter : List JsString
  /-- The value `null` (or an empty identifier) is `none`. -/
  idDossierRacine : Option Nat
  sauvegarderPiecesJointes : Bool
  /-- The value `null` is `none`. -/
  sousLibelleTraite : Option JsString
  archiverConversation : Bool
  seulementNonLus : Bool
  joursDeRecherche : Int
  modeSimulation : Bool

/-- The host: what the script cannot decide itself. -/
structure Hote where
  /-- Whether the call `op`, issued in the given world, throws. A call that throws
  leaves the world as it was. -/
  panne : Monde → Op → Bool
  /-- The value of `new Date()`. -/
  maintenant : Int
  /-- The method `Date.prototype.getDate`. -/
  getDate : Int → Int
  /-- The method `Date.prototype.setDate`, as a function of the date and the day. -/
  setDate : Int → Int → Int
  /-- The call `Utilities.formatDate(date, Session.getScriptTimeZone(), format)`. -/
  formatDate : Int → JsString → JsString
  /-- The conversations `GmailApp.search(requete)` returns in a mailbox. -/
  recherche : Monde → JsString → List Fil
  /-- The bytes of `Utilities.newBlob(html, 'text/html', nom).getAs(MimeType.PDF)`. -/
  rendre : JsString → List Nat
  /-- The names that are properties of a host attachment object. -/
  proprieteHote : JsString → Bool

/-- How a computation ends: with a value, or with a thrown error; in both cases the
world it leaves. -/
inductive Res (α : Type)
  | ok (a : α) (w : Monde)
  | err (e : Erreur) (w : Monde)
  deriving DecidableEq

/-- The world a computation leaves. -/
def Res.monde {α : Type} : Res α → Monde
  | Res.ok _ w => w
  | Res.err _ w => w

/-- A computation of the script: it starts in a world and ends as `Res` says. -/
def M (α : Type) : Type := Monde → Res α

/-- The statement `return a`. -/
def M.pur {α : Type} (a : α) : M α := fun w => Res.ok a w

/-- Sequencing: a thrown error skips what follows. -/
def M.lier {α β : Type} (m : M α) (f : α → M β) : M β := fun w =>
  match m w with
  | Res.ok a w1 => f a w1
  | Res.err e w1 => Res.err e w1

instance : Monad M where
  pure := M.pur
  bind := M.lier

/-- The block `try { corps } catch (e) { rattraper(e) }`. -/
def essayer {α : Type} (corps : M α) (rattraper : Erreur → M α) : M α := fun w =>
  match corps w with
  | Res.ok a w1 => Res.ok a w1
  | Res.err e w1 => rattraper e w1

/-- The statement `throw e`. -/
def lever {α : Type} (e : Erreur) : M α := fun w => Res.err e w

/-- A result computed outside the host: its value, or its error thrown. -/
def deResultat {α : Type} : Except Erreur α → M α
  | Except.ok a => pure a
  | Except.error e => lever e

/-- The current world. -/
def lireMonde : M Monde := fun w => Res.ok w w

/-- A change of one conversation of the mailbox. -/
def modifierFil (id : Nat) (f : Fil → Fil) (w : Monde) : Monde :=
  { w with fils := w.fils.map (fun fil => if fil.id = id then f fil else fil) }

/-- What a host call that returns does to the mailbox, the file store and the
property store. A new folder or file takes the next free identifier; a property that
is set replaces the one of the same key. -/
def Op.effet : Op → Monde → Monde
  | Op.createLabel nom, w => { w with libelles := w.libelles ++ [nom] }
  | Op.createFolder parent nom, w =>
    { w with dossiers := w.dossiers ++ [⟨w.prochainId, parent, nom⟩],
             prochainId := w.prochainId + 1 }
  | Op.createFile dossier nom octets, w =>
    { w with fichiers := w.fichiers ++ [⟨w.prochainId, dossier, nom, [], octets⟩],
             prochainId := w.prochainId + 1 }
  | Op.setDescription fichier texte, w =>
    { w with fichiers := w.fichiers.map (fun f =>
        if f.id = fichier then { f with description := texte } else f) }
  | Op.addLabel fil libelle, w =>
    modifierFil fil (fun f => { f with
      libelles := if libelle ∈ f.libelles then f.libelles else f.libelles ++ [libelle] }) w
  | Op.removeLabel fil libelle, w =>
    modifierFil fil (fun f => { f with libelles := f.libelles.filter (fun l => l ≠ libelle) }) w
  | Op.moveToArchive fil, w => modifierFil fil (fun f => { f with archive := true }) w
  | Op.setProperty cle valeur, w =>
    { w with proprietes := (cle, valeur) :: w.proprietes.filter (fun e => e.1 ≠ cle) }
  | _, w => w

/-- A host call: it throws when the host says so and then changes nothing; else it is
recorded in the journal and has its effect. -/
def appel (h : Hote) (op : Op) : M Unit := fun w =>
  if h.panne w op then Res.err (Erreur.panne op) w
  else Res.ok () (op.effet { w with journal := w.journal ++ [op] })

/-- The calls `console.log`, `console.error`. -/
def ecrire (l : Ligne) : M Unit := fun w =>
  Res.ok () { w with console := w.console ++ [l] }

/-- The method `Array.prototype.forEach`: an error thrown by the callback ends the loop. -/
def pourChaque {α : Type} (f : α → M Unit) : List α → M Unit
  | [] => pure ()
  | a :: t => do f a; pourChaque f t

/-! ### Host calls -/

/-- The call `GmailApp.getUserLabelByName(nom)`: the label, or `null`. -/
def getUserLabelByName (h : Hote) (nom : JsString) : M (Option JsString) := do
  appel h (Op.getUserLabelByName nom)
  let w ← lireMonde
  pure (if nom ∈ w.libelles then some nom else none)

/-- The call `GmailApp.createLabel(nom)`. -/
def createLabel (h : Hote) (nom : JsString) : M JsString := do
  appel h (Op.createLabel nom)
  pure nom

/-- The call `GmailApp.search(requete)`. -/
def search (h : Hote) (requete : JsString) : M (List Fil) := do
  appel h (Op.search requete)
  let w ← lireMonde
  pure (h.recherche w requete)

/-- The call `DriveApp.getFolderById(id)`: it throws when there is no such folder. -/
def getFolderById (h : Hote) (id : Nat) : M Nat := do
  let w ← lireMonde
  if id = 0 ∨ id ∈ w.dossiers.map Dossier.id then do
    appel h (Op.getFolderById id)
    pure id
  else lever (Erreur.panne (Op.getFolderById id))

/-- The call `DriveApp.getRootFolder()`. -/
def getRootFolder (h : Hote) : M Nat := do
  appel h Op.getRootFolder
  pure 0

/-- The call `parent.getFoldersByName(nom)`: the folders of that name under `parent`. -/
def getFoldersByName (h : Hote) (parent : Nat) (nom : JsString) : M (List Dossier) := do
  appel h (Op.getFoldersByName parent nom)
  let w ← lireMonde
  pure (w.dossiers.filter (fun d => d.parent = parent ∧ d.nom = nom))

/-- The call `parent.createFolder(nom)`: the identifier of the new folder. -/
def createFolder (h : Hote) (parent : Nat) (nom : JsString) : M Nat := do
  let w ← lireMonde
  appel h (Op.createFolder parent nom)
  pure w.prochainId

/-- The call `dossier.createFile(blob)`: the identifier of the new file. -/
def createFile (h : Hote) (dossier : Nat) (blob : Blob) : M Nat := do
  let w ← lireMonde
  appel h (Op.createFile dossier blob.nom blob.octets)
  pure w.prochainId

/-- The call `fichier.setDescription(texte)`. -/
def setDescription (h : Hote) (fichier : Nat) (texte : JsString) : M Unit :=
  appel h (Op.setDescription fichier texte)

/-- The call `fil.getMessages()`. -/
def getMessages (h : Hote) (fil : Fil) : M (List Message) := do
  appel h (Op.getMessages fil.id)
  pure fil.messages

/-- An accessor of a message. -/
def accesMessage {α : Type} (h : Hote) (acces : AccesMessage) (message : Message) (valeur : α) :
    M α := do
  appel h (Op.message acces message.id)
  pure valeur

/-- The call `stockage.getProperty(cle)`: the value, or `null`. -/
def getProperty (h : Hote) (cle : JsString) : M (Option JsString) := do
  appel h (Op.getProperty cle)
  let w ← lireMonde
  pure (w.proprietes.lookup cle)

/-- The call `stockage.setProperty(cle, valeur)`. -/
def setProperty (h : Hote) (cle valeur : JsString) : M Unit :=
  appel h (Op.setProperty cle valeur)

/-- The call `fil.addLabel(libelle)`. -/
def addLabel (h : Hote) (fil : Fil) (libelle : JsString) : M Unit :=
  appel h (Op.addLabel fil.id libelle)

/-- The call `fil.removeLabel(libelle)`. -/
def removeLabel (h : Hote) (fil : Fil) (libelle : JsString) : M Unit :=
  appel h (Op.removeLabel fil.id libelle)

/-- The call `fil.moveToArchive()`. -/
def moveToArchive (h : Hote) (fil : Fil) : M Unit :=
  appel h (Op.moveToArchive fil.id)

/-! ## The script -/

/-- Source lines 264-268. -/
def ajouterJours_ (h : Hote) (date jours : Int) : Int :=
  h.setDate date (h.getDate date + jours)

/-- Source lines 270-272. -/
def formaterDate_ (h : Hote) (date : Int) : M JsString := do
  appel h (Op.formatDate (js "yyyy/MM/dd"))
  pure (h.formatDate date (js "yyyy/MM/dd"))

/-- Source lines 242-245: the first folder of that name under `parent`, created when
there is none. -/
def obtenirOuCreerSousDossier_ (h : Hote) (parent : Nat) (nom : JsString) : M Nat := do
  let iterateur ← getFoldersByName h parent nom
  match iterateur with
  | d :: _ => pure d.id
  | [] => createFolder h parent nom

/-- The expression `GmailApp.getUserLabelByName(nom) || GmailApp.createLabel(nom)` of
lines 62 and 66. -/
def libelleOuCreation (h : Hote) (nom : JsString) : M JsString := do
  let libelle ← getUserLabelByName h nom
  match libelle with
  | some l => pure l
  | none => createLabel h nom

/-- Source lines 157-166: the style sheet. -/
def styleHtml : JsString :=
  js "\n" ++
    js "    <style>\n" ++
    js "      body \x7b font-family: 'Helvetica', sans-serif; font-size: 11pt; color: #333; line-height: 1.4; \x7d\n" ++
    js "      .entete \x7b background-color: #f8f9fa; padding: 15px; border-bottom: 2px solid #e9ecef; margin-bottom: 20px; \x7d\n" ++
    js "      .entete div \x7b margin-bottom: 5px; font-size: 0.95em; \x7d\n" ++
    js "      strong \x7b color: #495057; \x7d\n" ++
    js "      img \x7b max-width: 100%; height: auto; \x7d\n" ++
    js "      hr \x7b border: 0; border-top: 1px solid #ddd; margin: 20px 0; \x7d\n" ++
    js "    </style>\n" ++
    js "  "

/-- Source lines 171-185: the document handed to the rendering backend. -/
def contenuComplet (sujet expediteur destinataire copie date corpsHtml : JsString) : JsString :=
  js "\n    <html>\n    <head><meta charset=\"UTF-8\">" ++ styleHtml ++
  js "</head>\n    <body>\n      <div class=\"entete\">\n        <div><strong>Objet :</strong> " ++
  echapperHtml_ sujet ++
  js "</div>\n        <div><strong>De :</strong> " ++ echapperHtml_ expediteur ++
  js "</div>\n        <div><strong>À :</strong> " ++ echapperHtml_ destinataire ++
  js "</div>\n        " ++
  (if estVrai copie then js "<div><strong>Cc :</strong> " ++ echapperHtml_ copie ++ js "</div>"
    else []) ++
  js "\n        <div><strong>Date :</strong> " ++ date ++
  js "</div>\n      </div>\n      " ++ corpsHtml ++ js "\n    </body>\n    </html>\n  "

/-- Source lines 148-188. -/
def convertirEmailEnPdf_ (h : Hote) (message : Message) : M Blob := do
  let corps ← accesMessage h AccesMessage.getBody message message.corps
  let sujetLu ← accesMessage h AccesMessage.getSubject message message.sujet
  let sujet := if estVrai sujetLu then sujetLu else js "Sans sujet"
  let expediteur ← accesMessage h AccesMessage.getFrom message message.expediteur
  let destinataire ← accesMessage h AccesMessage.getTo message message.destinataire
  let copie ← accesMessage h AccesMessage.getCc message message.copie
  let dateMessage ← accesMessage h AccesMessage.getDate message message.date
  appel h (Op.formatDate (js "yyyy-MM-dd HH:mm"))
  let date := h.formatDate dateMessage (js "yyyy-MM-dd HH:mm")
  let pieces ← accesMessage h AccesMessage.getAttachments message
    (message.pieces.filter (fun p => p.enLigne))
  let corpsHtml ← deResultat (insererImagesCid_ h.proprieteHote corps pieces)
  appel h (Op.rendrePdf message.id)
  pure ⟨sujet, h.rendre (contenuComplet sujet expediteur destinataire copie date corpsHtml)⟩

/-- Source lines 228-235: the callback of the loop over the regular attachments. -/
def enregistrerPiece (h : Hote) (dossierCourant : Nat) (piece : Piece) : M Unit := do
  appel h (Op.copyBlob piece.nom)
  let blob : Blob := ⟨piece.nom, piece.octets⟩
  if blob.octets.length > 0 then do
    let nomNettoye := nettoyerNomFichier_ piece.nom
    let _ ← createFile h dossierCourant { blob with nom := nomNettoye }
    pure ()
  else pure ()

/-- Source lines 221-236. -/
def enregistrerPiecesJointes_ (h : Hote) (message : Message) (dossierLibelle : Nat)
    (nomBase : JsString) : M Unit := do
  let pieces ← accesMessage h AccesMessage.getAttachments message
    (message.pieces.filter (fun p => !p.enLigne))
  if pieces.length = 0 then pure ()
  else do
    let dossierAttachements ← obtenirOuCreerSousDossier_ h dossierLibelle (js "PiecesJointes")
    let dossierCourant ← obtenirOuCreerSousDossier_ h dossierAttachements nomBase
    pourChaque (enregistrerPiece h dossierCourant) pieces

/-- Source line 70 and line 96: the key of the ProcessedRecord of a message. -/
def cleMessageDe (nomLibelle idMessage : JsString) : JsString :=
  (js "traite:" ++ nomLibelle) ++ js ":" ++ idMessage

/-- Source lines 120-123: the marker label replaces the label on the conversation. -/
def marquer (h : Hote) (libelle : JsString) (libelleTraite : Option JsString) (fil : Fil) :
    M Unit :=
  match libelleTraite with
  | some marque => do
    addLabel h fil marque
    removeLabel h fil libelle
  | none => pure ()

/-- Source line 112: the description of the PDF file. -/
def descriptionDe (nomLibelle idMessage : JsString) : JsString :=
  js "Exporté depuis Gmail (libellé : " ++ nomLibelle ++ js ") | ID: " ++ idMessage

/-- Source lines 110-126: the PDF file, the attachments, the marker label, the archive. -/
def sauvegarderEtMarquer (cfg : Config) (h : Hote) (nomLibelle libelle : JsString)
    (libelleTraite : Option JsString) (dossierLibelle : Nat) (fil : Fil) (message : Message)
    (idMessage nomBase : JsString) (pdf : Blob) : M Unit := do
  let fichierPdf ← createFile h dossierLibelle { pdf with nom := nomBase ++ js ".pdf" }
  setDescription h fichierPdf (descriptionDe nomLibelle idMessage)
  (if cfg.sauvegarderPiecesJointes then
    enregistrerPiecesJointes_ h message dossierLibelle nomBase
  else pure ())
  marquer h libelle libelleTraite fil
  (if cfg.archiverConversation then moveToArchive h fil else pure ())

/-- Source lines 110-130: what is done for a message when simulation mode is off. -/
def enregistrerExport (cfg : Config) (h : Hote) (nomLibelle libelle : JsString)
    (libelleTraite : Option JsString) (dossierLibelle : Nat) (fil : Fil) (message : Message)
    (idMessage cleMessage nomBase : JsString) (pdf : Blob) : M Unit := do
  sauvegarderEtMarquer cfg h nomLibelle libelle libelleTraite dossierLibelle fil message
    idMessage nomBase pdf
  setProperty h cleMessage (js "1")
  ecrire (Ligne.succes nomBase)

/-- Source lines 103-133: the body of the `try` block. -/
def exporterMessage (cfg : Config) (h : Hote) (nomLibelle libelle : JsString)
    (libelleTraite : Option JsString) (dossierLibelle : Nat) (fil : Fil) (message : Message)
    (idMessage cleMessage : JsString) : M Unit := do
  let pdf ← convertirEmailEnPdf_ h message
  let sujetLu ← accesMessage h AccesMessage.getSubject message message.sujet
  let sujetSain := nettoyerNomFichier_ (if estVrai sujetLu then sujetLu else js "Sans sujet")
  let dateMessage ← accesMessage h AccesMessage.getDate message message.date
  appel h (Op.formatDate (js "yyyy-MM-dd_HH-mm"))
  let dateTexte := h.formatDate dateMessage (js "yyyy-MM-dd_HH-mm")
  let nomBase := dateTexte ++ js " - " ++ sujetSain ++ js " - " ++ substring0 8 idMessage
  if !cfg.modeSimulation then
    enregistrerExport cfg h nomLibelle libelle libelleTraite dossierLibelle fil message
      idMessage cleMessage nomBase pdf
  else ecrire (Ligne.simulation nomBase)

/-- Source line 100: the condition `CONFIG.seulementNonLus && !message.isUnread()`; the
message is asked only in unread-only mode. -/
def estLu (cfg : Config) (h : Hote) (message : Message) : M Bool :=
  if cfg.seulementNonLus then do
    let nonLu ← accesMessage h AccesMessage.isUnread message message.nonLu
    pure (!nonLu)
  else pure false

/-- Source lines 94-138: the callback of the loop over the messages of a conversation. -/
def traiterMessage (cfg : Config) (h : Hote) (nomLibelle libelle : JsString)
    (libelleTraite : Option JsString) (dossierLibelle : Nat) (fil : Fil) (message : Message) :
    M Unit := do
  let idMessage ← accesMessage h AccesMessage.getId message message.id
  let cleMessage := cleMessageDe nomLibelle idMessage
  let valeur ← getProperty h cleMessage
  if estVrai (valeur.getD []) then pure ()
  else do
    let lu ← estLu cfg h message
    if lu then pure ()
    else
      essayer
        (exporterMessage cfg h nomLibelle libelle libelleTraite dossierLibelle fil message
          idMessage cleMessage)
        (fun erreur => ecrire (Ligne.erreurMessage idMessage erreur))

/-- Source lines 90-139: the callback of the loop over the conversations. -/
def traiterFil (cfg : Config) (h : Hote) (nomLibelle libelle : JsString)
    (libelleTraite : Option JsString) (dossierLibelle : Nat) (fil : Fil) : M Unit := do
  let messages ← getMessages h fil
  pourChaque (traiterMessage cfg h nomLibelle libelle libelleTraite dossierLibelle fil) messages

/-- Source lines 73-75: the search query. -/
def requeteDe (cfg : Config) (nomLibelle dateDebut : JsString) : JsString :=
  (js "label:" ++ mettreEntreGuillemets_ nomLibelle ++ js " after:" ++ dateDebut) ++
    (if cfg.seulementNonLus then js " is:unread" else [])

/-- Source lines 65-67: the marker label, when a sub-label is configured and not blank. -/
def libelleTraiteDe (cfg : Config) (h : Hote) (nomLibelle : JsString) : M (Option JsString) :=
  match cfg.sousLibelleTraite with
  | some sous =>
    if estVrai (trim sous) then do
      let marque ← libelleOuCreation h (nomLibelle ++ js "/" ++ sous)
      pure (some marque)
    else pure none
  | none => pure none

/-- Source line 86: the root of the destination. -/
def dossierRacineDe (cfg : Config) (h : Hote) : M Nat :=
  match cfg.idDossierRacine with
  | some id => getFolderById h id
  | none => getRootFolder h

/-- Source lines 61-140. -/
def traiterLibelle_ (cfg : Config) (h : Hote) (nomLibelle : JsString) : M Unit := do
  let libelle ← libelleOuCreation h nomLibelle
  let libelleTraite ← libelleTraiteDe cfg h nomLibelle
  appel h Op.getUserProperties
  let dateDebut ← formaterDate_ h (ajouterJours_ h h.maintenant (-cfg.joursDeRecherche))
  let requete := requeteDe cfg nomLibelle dateDebut
  ecrire (Ligne.recherche nomLibelle requete)
  let fils ← search h requete
  if fils.length = 0 then ecrire Ligne.aucune
  else do
    let dossierRacine ← dossierRacineDe cfg h
    let dossierLibelle ← obtenirOuCreerSousDossier_ h dossierRacine nomLibelle
    pourChaque (traiterFil cfg h nomLibelle libelle libelleTraite dossierLibelle) fils

/-- Source lines 23-33 (the console timer apart). -/
def executer (cfg : Config) (h : Hote) : M Unit :=
  essayer (pourChaque (traiterLibelle_ cfg h) cfg.libellesATraiter)
    (fun e => ecrire (Ligne.erreurCritique e))

/-- The entity that `echapperHtml_` writes for one character. -/
def entiteDe (c : CodeUnit) : JsString :=
  if c = 38 then js "&amp;" else if c = 60 then js "&lt;"
  else if c = 62 then js "&gt;" else if c = 34 then js "&quot;" else [c]

/-- The shape of a text at whose head the pattern matches with group `cid`. -/
def FormeAttribut (s cid reste : JsString) : Prop :=
  ∃ c1 c2 c3 c5 c6 c7 c8 q : CodeUnit,
    s = [c1, c2, c3, 61, c5, c6, c7, c8, 58] ++ (cid ++ q :: reste) ∧
    lettreSansCasse 115 c1 = true ∧ lettreSansCasse 114 c2 = true ∧
    lettreSansCasse 99 c3 = true ∧ estGuillemet c5 = true ∧
    lettreSansCasse 99 c6 = true ∧ lettreSansCasse 105 c7 = true ∧
    lettreSansCasse 100 c8 = true ∧ cid ≠ [] ∧ (∀ x ∈ cid, estGuillemet x = false) ∧
    estGuillemet q = true

/-- Sequencing of two results of `remplacerCid`. -/
def joindre (a b : Except Erreur JsString) : Except Erreur JsString :=
  match a with
  | Except.error e => Except.error e
  | Except.ok x =>
    match b with
    | Except.error e => Except.error e
    | Except.ok y => Except.ok (x ++ y)

/-! ## Example data -/

/-- A host whose attachment objects have no property the examples ask for. -/
def sansPropriete : JsString → Bool := fun _ => false

/-- An inline GIF with the header `Content-Id: <logo>`. -/
def pieceGif : Piece :=
  ⟨js "a.gif", true, some (js "<logo>"), none, some (js "image/gif"), [1, 2, 3]⟩

/-- An inline JPEG with the header `Content-ID:  <logo> `. -/
def pieceJpeg : Piece :=
  ⟨js "b.jpg", true, none, some (js " <logo> "), some (js "image/jpeg"), [4, 5, 6]⟩

/-- An inline part with the header `Content-Id: <logo>` and an empty content type. -/
def pieceSansType : Piece :=
  ⟨js "logo", true, some (js "<logo>"), none, some [], [1, 2, 3, 4]⟩

/-! ## Reasoning about runs -/

/-- The effects of the calls `tr`, in order. -/
def rejouer (tr : List Op) (w : Monde) : Monde := tr.foldl (fun w op => op.effet w) w

/-- The two worlds have the same mailbox, file store and property store. -/
def memeEtat (w w' : Monde) : Prop :=
  w'.libelles = w.libelles ∧ w'.fils = w.fils ∧ w'.dossiers = w.dossiers ∧
    w'.fichiers = w.fichiers ∧ w'.proprietes = w.proprietes ∧ w'.prochainId = w.prochainId

/-- The world `w'` comes after `w` in a run: its journal is that of `w` followed by
host calls that all satisfy `S`, and its mailbox, file store and property store are
those of `w` after the effects of these calls. -/
def Suit (S : Op → Prop) (w w' : Monde) : Prop :=
  ∃ tr, w'.journal = w.journal ++ tr ∧ (∀ op ∈ tr, S op) ∧ memeEtat (rejouer tr w) w'

/-- The computation `m` takes every world to a world related to it by `R`. -/
def Garde {α : Type} (R : Monde → Monde → Prop) (m : M α) : Prop := ∀ w, R w (m w).monde

/-- The host calls that the pipeline of one message of one conversation may make
(lines 94-138). -/
def opsMessage (nomLibelle : JsString) (fil : Fil) (message : Message) : Op → Bool
  | Op.message _ id => id = message.id
  | Op.getProperty cle => cle = cleMessageDe nomLibelle message.id
  | Op.formatDate _ => true
  | Op.rendrePdf id => id = message.id
  | Op.createFile _ _ _ => true
  | Op.setDescription _ _ => true
  | Op.getFoldersByName _ _ => true
  | Op.createFolder _ _ => true
  | Op.copyBlob _ => true
  | Op.addLabel id _ => id = fil.id
  | Op.removeLabel id _ => id = fil.id
  | Op.moveToArchive id => id = fil.id
  | Op.setProperty cle valeur => cle = cleMessageDe nomLibelle message.id ∧ valeur = js "1"
  | _ => false

/-- A host none of whose calls fails. Dates are counted in days; the search returns the
conversations that carry a label whose quoted name the query starts with. -/
def hoteSimple : Hote where
  panne := fun _ _ => false
  maintenant := 19800
  getDate := fun d => d
  setDate := fun _ j => j
  formatDate := fun _ _ => js "2024-03-01"
  recherche := fun w requete => w.fils.filter (fun f => f.libelles.any (fun l =>
    (js "label:" ++ mettreEntreGuillemets_ l ++ js " ").isPrefixOf requete))
  rendre := fun _ => [37, 80, 68, 70]
  proprieteHote := fun _ => false

/-- The configuration of the source (lines 8-17). -/
def configSource : Config :=
  ⟨[js "PDF"], none, true, some (js "Traité"), true, false, 30, false⟩

/-- Two labels to process. -/
def configAB : Config := { configSource with libellesATraiter := [js "A", js "B"] }

/-- A host whose call `getUserLabelByName('A')` fails, and no other. -/
def hotePanneA : Hote :=
  { hoteSimple with panne := fun _ op => op = Op.getUserLabelByName (js "A") }

/-- A mailbox with the labels `A` and `B` and no conversation; nothing else. -/
def mondeAB : Monde := ⟨[js "A", js "B"], [], [], [], [], 1, [], []⟩

/-- An unread message. -/
def messageNonLu : Message :=
  ⟨js "18c1a2b3c4d5e6f7", js "Invoice #1", js "<p>Hello</p>", js "a@x.org", js "b@y.org", [],
    19790, true, []⟩

/-- A read message. -/
def messageLu : Message :=
  ⟨js "18c1a2b3c4d5e6f8", js "Re: Invoice #1", js "<p>Thanks</p>", js "b@y.org", js "a@x.org",
    [], 19791, false, []⟩

/-- A mailbox with the labels `PDF` and `PDF/Traité` and one conversation labelled `PDF`,
of an unread and a read message; an empty file store and an empty property store. -/
def mondePdf : Monde :=
  ⟨[js "PDF", js "PDF/Traité"], [⟨1, [js "PDF"], false, [messageNonLu, messageLu]⟩], [], [], [],
    1, [], []⟩

/-- The same mailbox without the label `PDF/Traité`. -/
def mondeSansMarque : Monde := { mondePdf with libelles := [js "PDF"] }

/-- The configuration of the source in simulation mode. -/
def configSimulation : Config := { configSource with modeSimulation := true }

/-- The configuration of the source in unread-only mode. -/
def configNonLus : Config := { configSource with seulementNonLus := true }

/-- A host on which reading a property fails, and nothing else. -/
def hotePanneLecture : Hote :=
  { hoteSimple with panne := fun _ op =>
      match op with
      | Op.getProperty _ => true
      | _ => false }

/-- A host on which rendering to PDF fails, and nothing else. -/
def hotePanneRendu : Hote :=
  { hoteSimple with panne := fun _ op =>
      match op with
      | Op.rendrePdf _ => true
      | _ => false }

/-- The host calls `traiterLibelle_` may make before its loop (lines 62-87). -/
def opsPrelude : Op → Bool
  | Op.getUserLabelByName _ => true
  | Op.createLabel _ => true
  | Op.getUserProperties => true
  | Op.formatDate _ => true
  | Op.search _ => true
  | Op.getFolderById _ => true
  | Op.getRootFolder => true
  | Op.getFoldersByName _ _ => true
  | Op.createFolder _ _ => true
  | _ => false

/-- The call writes to the conversation `id`. -/
def Op.surFil (id : Nat) : Op → Bool
  | Op.addLabel fil _ => fil = id
  | Op.removeLabel fil _ => fil = id
  | Op.moveToArchive fil => fil = id
  | _ => false

/-- A mailbox with two conversations labelled `PDF`: one of an unread message, one of
a read message. -/
def mondeDeux : Monde :=
  ⟨[js "PDF", js "PDF/Traité"],
    [⟨1, [js "PDF"], false, [messageNonLu]⟩, ⟨2, [js "PDF"], false, [messageLu]⟩], [], [], [],
    1, [], []⟩

/-- Whenever the computation `m` throws, the world it leaves is related by `R` to the
world it started in. -/
def GardeErreur {α : Type} (R : Monde → Monde → Prop) (m : M α) : Prop :=
  ∀ w e w', m w = Res.err e w' → R w w'

/-- The call is not a write to the property store. -/
def Op.sansEcriture : Op → Bool
  | Op.setProperty _ _ => false
  | _ => true

/-- The host calls of lines 120-123 when they all return. -/
def journalMarquer (libelle : JsString) (libelleTraite : Option JsString) (fil : Fil) :
    List Op :=
  match libelleTraite with
  | some marque => [Op.addLabel fil.id marque, Op.removeLabel fil.id libelle]
  | none => []

/-- The host call of lines 124-126 when it returns. -/
def journalArchiver (cfg : Config) (fil : Fil) : List Op :=
  if cfg.archiverConversation then [Op.moveToArchive fil.id] else []

/-- A mailbox with the labels `PDF` and `PDF/Traité` and one conversation labelled `PDF`,
of one unread message. -/
def mondeUn : Monde :=
  ⟨[js "PDF", js "PDF/Traité"], [⟨1, [js "PDF"], false, [messageNonLu]⟩], [], [], [], 1, [], []⟩

/-- The configuration of the source with the marker label of `PDF` among the labels to
process, before `PDF`. -/
def configMarque : Config :=
  { configSource with libellesATraiter := [js "PDF/Traité", js "PDF"] }

/-! ## Two runs in succession -/

/-- The marker label of a label: the value of lines 65-67, when a sub-label is
configured and not blank. -/
def marqueDe (cfg : Config) (nomLibelle : JsString) : Option JsString :=
  match cfg.sousLibelleTraite with
  | some sous => if estVrai (trim sous) then some (nomLibelle ++ js "/" ++ sous) else none
  | none => none

/-- The property store holds a ProcessedRecord under the key: the test of line 99. -/
def enregistre (w : Monde) (cle : JsString) : Bool :=
  estVrai ((w.proprietes.lookup cle).getD [])

/-- The pipeline has nothing left to do for the message under the label: its
ProcessedRecord is there, or unread-only mode is on and the message is read. -/
def Fini (cfg : Config) (w : Monde) (nomLibelle : JsString) (message : Message) : Prop :=
  enregistre w (cleMessageDe nomLibelle message.id) = true ∨
    (cfg.seulementNonLus = true ∧ message.nonLu = false)

/-- The call writes the property of that key. -/
def Op.ecritCle (cle : JsString) : Op → Bool
  | Op.setProperty k _ => k = cle
  | _ => false

/-- The call sets that description on a file. -/
def Op.decrit (texte : JsString) : Op → Bool
  | Op.setDescription _ t => t = texte
  | _ => false

/-- What the calls of a run over the labels `libelles` have in common: a property is
set to `1`, a label added to a conversation is the marker label of one of the labels,
a label removed from a conversation is one of the labels. -/
def opsCours (cfg : Config) (libelles : List JsString) : Op → Prop
  | Op.setProperty _ v => v = js "1"
  | Op.addLabel _ l => ∃ nom ∈ libelles, marqueDe cfg nom = some l
  | Op.removeLabel _ l => l ∈ libelles
  | _ => True

/-- Every file of the store has an identifier below the next free one. -/
def Range (w : Monde) : Prop := ∀ x ∈ w.fichiers, x.id < w.prochainId

/-- The number of files of the store that have the description. -/
def nombreDe (texte : JsString) (w : Monde) : Nat :=
  w.fichiers.countP (fun x => x.description = texte)

/-- The call sets no description. -/
def Op.sansDescription : Op → Bool
  | Op.setDescription _ _ => false
  | _ => true

/-- A run over the labels `libelles` leads from `w` to `w'`, and in it the PDF of the
description `texte` is saved as often as the record of the key `cle` is written: at most
once, and not at all when the record was there at the start; each time, one file of
that description is added to the store. -/
def Cours (cfg : Config) (libelles : List JsString) (cle texte : JsString) (w w' : Monde) :
    Prop :=
  ∃ tr, w'.journal = w.journal ++ tr ∧ memeEtat (rejouer tr w) w' ∧
    (∀ op ∈ tr, opsCours cfg libelles op) ∧
    tr.countP (Op.decrit texte) = tr.countP (Op.ecritCle cle) ∧
    (enregistre w cle = true → tr.countP (Op.ecritCle cle) = 0) ∧
    tr.countP (Op.ecritCle cle) ≤ 1 ∧
    (texte ≠ [] → Range w →
      Range w' ∧ nombreDe texte w' = nombreDe texte w + tr.countP (Op.decrit texte))

/-- A message the pipeline can export: resolving its inline images raises no error,
and its identifier has neither a colon nor a space (Gmail identifiers are hexadecimal). -/
def Sain (h : Hote) (message : Message) : Prop :=
  (∃ html, insererImagesCid_ h.proprieteHote message.corps
      (message.pieces.filter (fun p => p.enLigne)) = Except.ok html) ∧
    58 ∉ message.id ∧ 32 ∉ message.id

/-- The identifier of the root of the destination (line 86). -/
def racineDe (cfg : Config) : Nat := cfg.idDossierRacine.getD 0

/-- The computation `m` returns a value from every world. -/
def Total {α : Type} (m : M α) : Prop := ∀ w, ∃ a w', m w = Res.ok a w'

/-- The calls of the attachment save (lines 221-236). -/
def Op.dePieces : Op → Bool
  | Op.message _ _ => true
  | Op.getFoldersByName _ _ => true
  | Op.createFolder _ _ => true
  | Op.copyBlob _ => true
  | Op.createFile _ _ _ => true
  | _ => false

/-- The conversations that carry the label and meet the other criteria of the search
(the date, and unread messages in unread-only mode), which depend on the messages only. -/
def filsDe (critere : List Message → Bool) (w : Monde) (nomLibelle : JsString) : List Fil :=
  w.fils.filter (fun f => decide (nomLibelle ∈ f.libelles) && critere f.messages)

/-- Nothing is left to do for the label: the label and its marker label exist, the
folder of the label exists when a conversation matches, and every message of a matching
conversation is done with. -/
def Acheve (cfg : Config) (critere : List Message → Bool) (w : Monde)
    (nomLibelle : JsString) : Prop :=
  nomLibelle ∈ w.libelles ∧ (∀ l, marqueDe cfg nomLibelle = some l → l ∈ w.libelles) ∧
    (filsDe critere w nomLibelle ≠ [] →
      ∃ dd ∈ w.dossiers, dd.parent = racineDe cfg ∧ dd.nom = nomLibelle) ∧
    ∀ f ∈ filsDe critere w nomLibelle, ∀ m ∈ f.messages, Fini cfg w nomLibelle m

/-- What a run needs of the world: the configured root folder exists, and every message
of the mailbox can be exported. -/
def Pret (cfg : Config) (h : Hote) (w : Monde) : Prop :=
  (∀ id, cfg.idDossierRacine = some id → id = 0 ∨ id ∈ w.dossiers.map Dossier.id) ∧
    ∀ f ∈ w.fils, ∀ m ∈ f.messages, Sain h m

/-- The calls of the prelude of `traiterLibelle_`, none of them a mutation when `C` holds. -/
def opsCalme (C : Prop) (op : Op) : Prop := opsPrelude op = true ∧ (C → op.mutante = false)

/-- Every conversation that matched the label in the world `w0` still matches it in `w`,
with the same messages. -/
def Intact (critere : List Message → Bool) (w0 w : Monde) (nomLibelle : JsString) : Prop :=
  ∀ f0 ∈ filsDe critere w0 nomLibelle, ∃ f ∈ filsDe critere w nomLibelle,
    f.messages = f0.messages

/-- Every message of a conversation that matched the label in the world `w0` is done
with in `w`. -/
def Abouti (cfg : Config) (critere : List Message → Bool) (w0 w : Monde)
    (nomLibelle : JsString) : Prop :=
  ∀ f0 ∈ filsDe critere w0 nomLibelle, ∀ m ∈ f0.messages, Fini cfg w nomLibelle m

/-- The invariant of the loop over the labels in a run that started in `w0`. -/
def Invariant (cfg : Config) (h : Hote) (critere : List Message → Bool) (w0 w : Monde) :
    Prop :=
  Pret cfg h w ∧ ∀ l ∈ cfg.libellesATraiter,
    Intact critere w0 w l ∨ Abouti cfg critere w0 w l

/-- A host none of whose calls fails; its search returns the conversations labelled `PDF`
when asked for this label, and nothing else. -/
def hotePdf : Hote :=
  { hoteSimple with
    recherche := fun w requete =>
      if requete = requeteDe configSource (js "PDF") (js "2024-03-01") then
        filsDe (fun _ => true) w (js "PDF")
      else [] }

/-- The world `w'` comes later than `w` in a run: its journal is that of `w` followed by
host calls, its mailbox, file store and property store are those of `w` after the effects
of these calls, and its console starts with that of `w`. -/
def Croit (w w' : Monde) : Prop := Suit (fun _ => True) w w' ∧ w.console <+: w'.console

/-! ## Theorems -/

theorem mem_remplacerSuitesAux (p : CodeUnit → Bool) (r : CodeUnit) (b : Bool) (s : JsString)
    (x : CodeUnit) (hx : x ∈ remplacerSuitesAux p r b s) : x = r ∨ (x ∈ s ∧ p x = false) := by
  induction s generalizing b with
  | nil => simp [remplacerSuitesAux] at hx
  | cons c t ih =>
    simp only [remplacerSuitesAux] at hx
    by_cases hc : p c = true
    · simp only [hc, if_true] at hx
      cases b with
      | true =>
        simp only [if_true] at hx
        rcases ih _ hx with h | h
        · exact Or.inl h
        · exact Or.inr ⟨List.mem_cons_of_mem _ h.1, h.2⟩
      | false =>
        simp only [Bool.false_eq_true, if_false, List.mem_cons] at hx
        rcases hx with h | h
        · exact Or.inl h
        · rcases ih _ h with h | h
          · exact Or.inl h
          · exact Or.inr ⟨List.mem_cons_of_mem _ h.1, h.2⟩
    · simp only [hc, if_false, List.mem_cons, Bool.false_eq_true] at hx
      rcases hx with h | h
      · subst h
        exact Or.inr ⟨List.mem_cons_self _ _, by simpa using hc⟩
      · rcases ih _ h with h | h
        · exact Or.inl h
        · exact Or.inr ⟨List.mem_cons_of_mem _ h.1, h.2⟩

theorem mem_trim (s : JsString) (x : CodeUnit) (hx : x ∈ trim s) : x ∈ s := by
  unfold trim at hx
  rw [List.mem_reverse] at hx
  have h1 := (List.dropWhile_sublist estEspace).subset hx
  rw [List.mem_reverse] at h1
  exact (List.dropWhile_sublist estEspace).subset h1

theorem mem_nettoyer (nom : JsString) (x : CodeUnit) (hx : x ∈ nettoyerNomFichier_ nom) :
    estInterdit x = false := by
  unfold nettoyerNomFichier_ substring0 at hx
  have h1 := mem_trim _ _ (List.mem_of_mem_take hx)
  rcases mem_remplacerSuitesAux _ _ _ _ _ h1 with h | ⟨h, _⟩
  · subst h; decide
  · rcases mem_remplacerSuitesAux _ _ _ _ _ h with h | ⟨_, h⟩
    · subst h; decide
    · exact h

/-- C6: for every input string, the output of `nettoyerNomFichier_` contains none of
the characters `\ / : * ? " < > |` and has length at most 150 (in UTF-16 code units). -/
theorem nettoyerNomFichier_sur (nom : JsString) :
    (∀ c ∈ nettoyerNomFichier_ nom, c ∉ js "\\/:*?\"<>|") ∧
      (nettoyerNomFichier_ nom).length ≤ 150 := by
  refine ⟨?_, ?_⟩
  · intro c hc hmem
    have h := mem_nettoyer nom c hc
    have hjs : js "\\/:*?\"<>|" = [92, 47, 58, 42, 63, 34, 60, 62, 124] := by decide
    rw [hjs] at hmem
    simp only [List.mem_cons, List.mem_singleton, List.not_mem_nil, or_false] at hmem
    rcases hmem with h' | h' | h' | h' | h' | h' | h' | h' | h' <;> subst h' <;>
      simp [estInterdit] at h
  · unfold nettoyerNomFichier_ substring0
    exact List.length_take_le _ _

theorem js_amp : js "&amp;" = [38, 97, 109, 112, 59] := by decide
theorem js_lt : js "&lt;" = [38, 108, 116, 59] := by decide
theorem js_gt : js "&gt;" = [38, 103, 116, 59] := by decide
theorem js_quot : js "&quot;" = [38, 113, 117, 111, 116, 59] := by decide

theorem remplacerCar_flatMap (x : CodeUnit) (par : JsString) (f : CodeUnit → JsString)
    (s : JsString) :
    remplacerCar x par (s.flatMap f) = s.flatMap (fun c => remplacerCar x par (f c)) := by
  unfold remplacerCar
  induction s with
  | nil => rfl
  | cons c t ih => simp [List.flatMap_cons, List.flatMap_append, ih]

theorem echapperHtml_eq_flatMap (s : JsString) : echapperHtml_ s = s.flatMap entiteDe := by
  unfold echapperHtml_
  rw [show remplacerCar 38 (js "&amp;") s = s.flatMap (fun c => if c = 38 then js "&amp;" else [c])
    from rfl]
  rw [remplacerCar_flatMap, remplacerCar_flatMap, remplacerCar_flatMap]
  congr 1
  funext c
  simp only [js_amp, js_lt, js_gt, js_quot, entiteDe, remplacerCar]
  by_cases h1 : c = 38
  · subst h1; simp
  · by_cases h2 : c = 60
    · subst h2; simp
    · by_cases h3 : c = 62
      · subst h3; simp
      · by_cases h4 : c = 34
        · subst h4; simp
        · simp [h1, h2, h3, h4]

theorem append_eq_of_not_mem (x : CodeUnit) (e l pre post : JsString) (hx : x ∉ e)
    (h : e ++ l = pre ++ x :: post) : ∃ q, pre = e ++ q ∧ l = q ++ x :: post := by
  induction e generalizing pre with
  | nil => exact ⟨pre, rfl, h⟩
  | cons a e ih =>
    cases pre with
    | nil =>
      simp only [List.cons_append, List.nil_append, List.cons.injEq] at h
      exact absurd h.1.symm (fun hh => hx (hh ▸ List.mem_cons_self _ _))
    | cons p pre =>
      simp only [List.cons_append, List.cons.injEq] at h
      obtain ⟨q, hq, hl⟩ := ih pre (fun hh => hx (List.mem_cons_of_mem _ hh)) h.2
      exact ⟨q, by rw [h.1, hq]; rfl, hl⟩

theorem entiteDe_cases (c : CodeUnit) :
    (entiteDe c = [c] ∧ c ≠ 38 ∧ c ≠ 60 ∧ c ≠ 62 ∧ c ≠ 34) ∨
      (∃ e, entiteDe c = 38 :: e ∧ 38 ∉ e ∧ 60 ∉ e ∧ 62 ∉ e ∧ 34 ∉ e ∧
        38 :: e ∈ [js "&amp;", js "&lt;", js "&gt;", js "&quot;"]) := by
  simp only [js_amp, js_lt, js_gt, js_quot, entiteDe]
  by_cases h1 : c = 38
  · right; subst h1; exact ⟨[97, 109, 112, 59], by simp, by decide⟩
  · by_cases h2 : c = 60
    · right; subst h2; exact ⟨[108, 116, 59], by simp, by decide⟩
    · by_cases h3 : c = 62
      · right; subst h3; exact ⟨[103, 116, 59], by simp, by decide⟩
      · by_cases h4 : c = 34
        · right; subst h4; exact ⟨[113, 117, 111, 116, 59], by simp, by decide⟩
        · left; simp [h1, h2, h3, h4]

theorem flatMap_entite_esperluette (s pre post : JsString)
    (h : s.flatMap entiteDe = pre ++ 38 :: post) :
    ∃ e ∈ [js "&amp;", js "&lt;", js "&gt;", js "&quot;"], e <+: 38 :: post := by
  induction s generalizing pre with
  | nil => simp at h
  | cons c t ih =>
    rw [List.flatMap_cons] at h
    rcases entiteDe_cases c with ⟨hc, h38, -⟩ | ⟨e, hc, he, -, -, -, hmem⟩
    · rw [hc] at h
      obtain ⟨q, -, hl⟩ := append_eq_of_not_mem 38 [c] _ pre post (by simpa using Ne.symm h38) h
      exact ih q hl
    · rw [hc] at h
      cases pre with
      | nil =>
        refine ⟨38 :: e, hmem, ?_⟩
        simp only [List.nil_append] at h
        rw [← h]
        exact List.prefix_append _ _
      | cons p pre =>
        simp only [List.cons_append, List.cons.injEq] at h
        obtain ⟨q, -, hl⟩ := append_eq_of_not_mem 38 e _ pre post he h.2
        exact ih q hl

theorem mem_flatMap_entite (s : JsString) (x : CodeUnit) (hx : x ∈ s.flatMap entiteDe) :
    x ≠ 60 ∧ x ≠ 62 ∧ x ≠ 34 := by
  rw [List.mem_flatMap] at hx
  obtain ⟨c, -, hxc⟩ := hx
  rcases entiteDe_cases c with ⟨hc, -, h60, h62, h34⟩ | ⟨e, hc, -, h60, h62, h34, -⟩
  · rw [hc, List.mem_singleton] at hxc
    subst hxc; exact ⟨h60, h62, h34⟩
  · rw [hc, List.mem_cons] at hxc
    rcases hxc with h | h
    · subst h; decide
    · refine ⟨?_, ?_, ?_⟩ <;> rintro rfl <;> contradiction

/-- C9: for every input string, the output of `echapperHtml_` contains no literal
`<`, `>` or `"`, and wherever the output has an `&`, one of the entities `&amp;`,
`&lt;`, `&gt;`, `&quot;` starts at that `&`. -/
theorem echapperHtml_sur (str : JsString) :
    (∀ c ∈ echapperHtml_ str, c ∉ js "<>\"") ∧
      ∀ pre post : JsString, echapperHtml_ str = pre ++ js "&" ++ post →
        ∃ e ∈ [js "&amp;", js "&lt;", js "&gt;", js "&quot;"], e <+: js "&" ++ post := by
  rw [echapperHtml_eq_flatMap]
  refine ⟨?_, ?_⟩
  · intro c hc hmem
    have h := mem_flatMap_entite str c hc
    have hjs : js "<>\"" = [60, 62, 34] := by decide
    rw [hjs] at hmem
    simp only [List.mem_cons, List.mem_singleton, List.not_mem_nil, or_false] at hmem
    rcases hmem with h' | h' | h'
    · exact h.1 h'
    · exact h.2.1 h'
    · exact h.2.2 h'
  · intro pre post h
    have hjs : js "&" = [38] := by decide
    rw [hjs] at h ⊢
    simp only [List.append_assoc, List.singleton_append] at h ⊢
    exact flatMap_entite_esperluette str pre post h

/-- C9, the subject of the specification: `<script>&"` is escaped to
`&lt;script&gt;&amp;&quot;`. -/
theorem echapperHtml_script :
    echapperHtml_ (js "<script>&\"") = js "&lt;script&gt;&amp;&quot;" := by decide

theorem debutSrcCid_some (s reste : JsString) (h : debutSrcCid s = some reste) :
    ∃ c1 c2 c3 c5 c6 c7 c8 : CodeUnit,
      s = [c1, c2, c3, 61, c5, c6, c7, c8, 58] ++ reste ∧
      lettreSansCasse 115 c1 = true ∧ lettreSansCasse 114 c2 = true ∧
      lettreSansCasse 99 c3 = true ∧ estGuillemet c5 = true ∧
      lettreSansCasse 99 c6 = true ∧ lettreSansCasse 105 c7 = true ∧
      lettreSansCasse 100 c8 = true := by
  unfold debutSrcCid at h
  split at h
  · rename_i c1 c2 c3 c4 c5 c6 c7 c8 c9 r
    split at h
    · rename_i hc
      simp only [Bool.and_eq_true, decide_eq_true_eq] at hc
      obtain ⟨⟨⟨⟨⟨⟨⟨⟨h1, h2⟩, h3⟩, h4⟩, h5⟩, h6⟩, h7⟩, h8⟩, h9⟩ := hc
      simp only [Option.some.injEq] at h
      subst h h4 h9
      exact ⟨c1, c2, c3, c5, c6, c7, c8, rfl, h1, h2, h3, h5, h6, h7, h8⟩
    · simp at h
  · simp at h

theorem debutSrcCid_forme (c1 c2 c3 c5 c6 c7 c8 : CodeUnit) (reste : JsString)
    (h1 : lettreSansCasse 115 c1 = true) (h2 : lettreSansCasse 114 c2 = true)
    (h3 : lettreSansCasse 99 c3 = true) (h5 : estGuillemet c5 = true)
    (h6 : lettreSansCasse 99 c6 = true) (h7 : lettreSansCasse 105 c7 = true)
    (h8 : lettreSansCasse 100 c8 = true) :
    debutSrcCid ([c1, c2, c3, 61, c5, c6, c7, c8, 58] ++ reste) = some reste := by
  simp [debutSrcCid, h1, h2, h3, h5, h6, h7, h8]

theorem takeWhile_append_cons {α : Type} (p : α → Bool) (l1 l2 : List α) (a : α)
    (h1 : ∀ x ∈ l1, p x = true) (ha : p a = false) :
    (l1 ++ a :: l2).takeWhile p = l1 := by
  induction l1 with
  | nil => simp [List.takeWhile_cons, ha]
  | cons x l ih =>
    simp only [List.cons_append, List.takeWhile_cons, h1 x (List.mem_cons_self _ _), if_true]
    rw [ih (fun y hy => h1 y (List.mem_cons_of_mem _ hy))]

theorem correspondance_forme (s cid reste : JsString) (h : FormeAttribut s cid reste) :
    correspondance s = some (cid, 9 + cid.length + 1) := by
  obtain ⟨c1, c2, c3, c5, c6, c7, c8, q, hs, h1, h2, h3, h5, h6, h7, h8, hne, hcid, hq⟩ := h
  subst hs
  unfold correspondance
  rw [debutSrcCid_forme c1 c2 c3 c5 c6 c7 c8 _ h1 h2 h3 h5 h6 h7 h8]
  have htw : (cid ++ q :: reste).takeWhile (fun c => !estGuillemet c) = cid :=
    takeWhile_append_cons _ cid reste q (fun x hx => by simp [hcid x hx]) (by simp [hq])
  simp only [htw]
  have hemp : cid.isEmpty = false := by
    cases cid with
    | nil => exact absurd rfl hne
    | cons a l => rfl
  simp [hemp]

theorem drop_length_takeWhile {α : Type} (p : α → Bool) (l : List α) :
    l.drop (l.takeWhile p).length = l.dropWhile p := by
  induction l with
  | nil => rfl
  | cons a t ih =>
    by_cases ha : p a = true
    · simp [List.takeWhile_cons, List.dropWhile_cons, ha, ih]
    · simp [List.takeWhile_cons, List.dropWhile_cons, ha]

theorem dropWhile_tete {α : Type} (p : α → Bool) (l r : List α) (q : α)
    (h : l.dropWhile p = q :: r) : p q = false := by
  induction l with
  | nil => simp at h
  | cons a t ih =>
    by_cases ha : p a = true
    · rw [List.dropWhile_cons, if_pos ha] at h
      exact ih h
    · rw [List.dropWhile_cons, if_neg ha] at h
      simp only [List.cons.injEq] at h
      rw [← h.1]
      simpa using ha

theorem mem_takeWhile_vrai {α : Type} (p : α → Bool) (l : List α) (x : α)
    (h : x ∈ l.takeWhile p) : p x = true := by
  induction l with
  | nil => simp at h
  | cons a t ih =>
    by_cases ha : p a = true
    · rw [List.takeWhile_cons, if_pos ha, List.mem_cons] at h
      rcases h with h | h
      · rw [h]; exact ha
      · exact ih h
    · rw [List.takeWhile_cons, if_neg ha] at h
      simp at h

theorem correspondance_some (s cid : JsString) (n : Nat)
    (h : correspondance s = some (cid, n)) :
    n = 9 + cid.length + 1 ∧ ∃ reste, FormeAttribut s cid reste := by
  unfold correspondance at h
  split at h
  · simp at h
  · rename_i reste hd
    obtain ⟨c1, c2, c3, c5, c6, c7, c8, hs, h1, h2, h3, h5, h6, h7, h8⟩ :=
      debutSrcCid_some s reste hd
    simp only at h
    split at h
    · simp at h
    · rename_i hemp
      split at h
      · simp at h
      · rename_i q r hdrop
        simp only [Option.some.injEq, Prod.mk.injEq] at h
        obtain ⟨hcid, hn⟩ := h
        refine ⟨by rw [← hn, ← hcid], r, c1, c2, c3, c5, c6, c7, c8, q, ?_, h1, h2, h3, h5, h6, h7,
          h8, ?_, ?_, ?_⟩
        · rw [hs, ← hcid, ← hdrop, drop_length_takeWhile, List.takeWhile_append_dropWhile]
        · rw [← hcid]
          intro hnil
          exact hemp (by rw [hnil]; rfl)
        · intro x hx
          rw [← hcid] at hx
          simpa using mem_takeWhile_vrai _ _ _ hx
        · rw [drop_length_takeWhile] at hdrop
          simpa using dropWhile_tete _ _ _ _ hdrop

theorem formeAttribut_append (s cid reste t : JsString) (h : FormeAttribut s cid reste) :
    FormeAttribut (s ++ t) cid (reste ++ t) := by
  obtain ⟨c1, c2, c3, c5, c6, c7, c8, q, hs, hrest⟩ := h
  exact ⟨c1, c2, c3, c5, c6, c7, c8, q, by rw [hs]; simp, hrest⟩

theorem formeAttribut_tronque (s t cid reste : JsString)
    (h : FormeAttribut (s ++ t) cid reste) (hn : 9 + cid.length + 1 ≤ s.length) :
    ∃ r, FormeAttribut s cid r ∧ reste = r ++ t := by
  obtain ⟨c1, c2, c3, c5, c6, c7, c8, q, hs, hrest⟩ := h
  have hs2 : s ++ t = ([c1, c2, c3, 61, c5, c6, c7, c8, 58] ++ cid ++ [q]) ++ reste := by
    rw [hs]; simp
  rcases List.append_eq_append_iff.mp hs2 with ⟨a, ha, hb⟩ | ⟨c, hc, hd⟩
  · have hlen := congrArg List.length ha
    simp only [List.length_append, List.length_cons, List.length_nil] at hlen
    have ha0 : a = [] := List.eq_nil_of_length_eq_zero (by omega)
    subst ha0
    refine ⟨[], ⟨c1, c2, c3, c5, c6, c7, c8, q, ?_, hrest⟩, ?_⟩
    · have := ha; simp only [List.append_nil] at this; rw [← this]; simp
    · simpa using hb.symm
  · exact ⟨c, ⟨c1, c2, c3, c5, c6, c7, c8, q, by rw [hc]; simp, hrest⟩, hd⟩

theorem correspondance_append (s t cid : JsString) (n : Nat)
    (h : correspondance s = some (cid, n)) : correspondance (s ++ t) = some (cid, n) := by
  obtain ⟨hn, r, hf⟩ := correspondance_some s cid n h
  rw [hn]
  exact correspondance_forme _ _ _ (formeAttribut_append s cid r t hf)

theorem correspondance_tronque (s t cid : JsString) (n : Nat)
    (h : correspondance (s ++ t) = some (cid, n)) (hle : n ≤ s.length) :
    correspondance s = some (cid, n) := by
  obtain ⟨hn, r, hf⟩ := correspondance_some _ cid n h
  obtain ⟨r2, hf2, -⟩ := formeAttribut_tronque s t cid r hf (by omega)
  rw [hn]
  exact correspondance_forme _ _ _ hf2

theorem correspondance_none_tronque (s t : JsString)
    (h : correspondance (s ++ t) = none) : correspondance s = none := by
  cases hc : correspondance s with
  | none => rfl
  | some p =>
    obtain ⟨cid, n⟩ := p
    rw [correspondance_append s t cid n hc] at h
    simp at h

theorem correspondance_longueur (s cid : JsString) (n : Nat)
    (h : correspondance s = some (cid, n)) : 1 ≤ n ∧ n ≤ s.length := by
  obtain ⟨hn, r, c1, c2, c3, c5, c6, c7, c8, q, hs, -⟩ := correspondance_some s cid n h
  rw [hs, hn]
  simp only [List.length_append, List.length_cons, List.length_nil]
  omega

theorem remplacerCid_saut (f : JsString → JsString → Except Erreur JsString) (k : Nat)
    (s : JsString) : remplacerCid f k s = remplacerCid f 0 (s.drop k) := by
  induction s generalizing k with
  | nil => cases k <;> simp [remplacerCid]
  | cons c t ih =>
    cases k with
    | zero => rfl
    | succ k => simp only [remplacerCid, List.drop_succ_cons]; exact ih k

theorem remplacerCid_append (f : JsString → JsString → Except Erreur JsString) :
    ∀ (m : Nat) (pre reste : JsString), pre.length = m →
      (∀ i cid n, i < pre.length → correspondance ((pre ++ reste).drop i) = some (cid, n) →
        i + n ≤ pre.length) →
      remplacerCid f 0 (pre ++ reste) =
        joindre (remplacerCid f 0 pre) (remplacerCid f 0 reste) := by
  intro m
  induction m using Nat.strong_induction_on with
  | _ m ih =>
    intro pre reste hm h
    cases pre with
    | nil =>
      simp only [List.nil_append, remplacerCid, joindre]
      cases remplacerCid f 0 reste <;> rfl
    | cons c t =>
      have hc0 := h 0
      simp only [List.drop_zero, List.length_cons, Nat.zero_add] at hc0
      simp only [List.cons_append, remplacerCid, List.append_eq]
      cases hcor : correspondance (c :: (t ++ reste)) with
      | none =>
        have hcor2 : correspondance (c :: t) = none :=
          correspondance_none_tronque (c :: t) reste (by simpa using hcor)
        simp only [hcor2]
        have hih := ih t.length (by simp at hm; omega) t reste rfl (by
          intro i cid n hi hcn
          have := h (i + 1) cid n (by simp; omega) (by simpa using hcn)
          simp at this; omega)
        rw [hih]
        cases remplacerCid f 0 t <;> cases remplacerCid f 0 reste <;> simp [joindre]
      | some p =>
        obtain ⟨cid, n⟩ := p
        have hn := hc0 cid n (by omega) hcor
        have hcor2 : correspondance (c :: t) = some (cid, n) :=
          correspondance_tronque (c :: t) reste cid n (by simpa using hcor) (by simpa using hn)
        have hn1 := (correspondance_longueur _ _ _ hcor2).1
        simp only [hcor2]
        have htake : List.take n (c :: (t ++ reste)) = List.take n (c :: t) := by
          rw [← List.cons_append, List.take_append_of_le_length (by simpa using hn)]
        rw [htake]
        cases f (List.take n (c :: t)) cid with
        | error e => simp [joindre]
        | ok r =>
          simp only
          rw [remplacerCid_saut f (n - 1) (t ++ reste), remplacerCid_saut f (n - 1) t]
          have hdrop : List.drop (n - 1) (t ++ reste) = List.drop (n - 1) t ++ reste := by
            rw [List.drop_append_of_le_length (by omega)]
          rw [hdrop]
          have hih := ih (List.drop (n - 1) t).length (by simp at hm ⊢; omega)
            (List.drop (n - 1) t) reste rfl (by
              intro i cid2 n2 hi hcn
              have hi2 : i < t.length - (n - 1) := by simpa using hi
              have := h (i + n) cid2 n2 (by simp; omega) (by
                have e1 : List.drop (i + n) (c :: t ++ reste) =
                    List.drop i (List.drop (n - 1) t ++ reste) := by
                  rw [← hdrop, List.drop_drop]
                  have : i + n = (n - 1 + i) + 1 := by omega
                  rw [this]; rfl
                rw [e1]; exact hcn)
              simp at this ⊢; omega)
          rw [hih]
          cases remplacerCid f 0 (List.drop (n - 1) t) <;> cases remplacerCid f 0 reste <;>
            simp [joindre, List.append_assoc]

theorem construireIndex_append (l1 l2 : List Piece) (idx : Index) :
    construireIndex (l1 ++ l2) idx = construireIndex l2 (construireIndex l1 idx) := by
  induction l1 generalizing idx with
  | nil => rfl
  | cons p l ih => simp only [List.cons_append, construireIndex, List.append_eq, ih]

theorem affecter_sans_proto (idx : Index) (cid : JsString) (p : Piece)
    (h : idx.propres.lookup (js "__proto__") = none) :
    (idx.affecter cid p).propres.lookup (js "__proto__") = none := by
  unfold Index.affecter
  by_cases hc : cid = js "__proto__"
  · simp only [hc, if_true]; exact h
  · simp only [hc, if_false, List.lookup_cons]
    have : (js "__proto__" == cid) = false := by
      rw [beq_eq_false_iff_ne]; exact fun e => hc e.symm
    rw [this]; exact h

theorem construireIndex_sans_proto (l : List Piece) (idx : Index)
    (h : idx.propres.lookup (js "__proto__") = none) :
    (construireIndex l idx).propres.lookup (js "__proto__") = none := by
  induction l generalizing idx with
  | nil => exact h
  | cons p l ih =>
    simp only [construireIndex]
    apply ih
    split
    · exact affecter_sans_proto idx _ p h
    · exact h

theorem lire_affecter_meme (ph : JsString → Bool) (idx : Index) (cid : JsString) (p : Piece)
    (h : idx.propres.lookup (js "__proto__") = none) :
    (idx.affecter cid p).lire ph cid = Valeur.piece p := by
  unfold Index.affecter Index.lire
  by_cases hc : cid = js "__proto__"
  · simp only [hc, if_true, h]
  · simp only [hc, if_false, List.lookup_cons, beq_self_eq_true]

theorem lire_affecter_autre (ph : JsString → Bool) (idx : Index) (cid X : JsString)
    (p q : Piece) (hne : cid ≠ X) (h : idx.lire ph X = Valeur.piece p) :
    (idx.affecter cid q).lire ph X = Valeur.piece p := by
  unfold Index.affecter
  unfold Index.lire at h ⊢
  by_cases hc : cid = js "__proto__"
  · simp only [hc, if_true]
    have hX : ¬ X = js "__proto__" := fun e => hne (hc.trans e.symm)
    simp only [hX, if_false] at h ⊢
    cases hl : idx.propres.lookup X with
    | some v => simp only [hl] at h ⊢; exact h
    | none =>
      simp only [hl] at h
      split at h
      · simp at h
      · split at h <;> simp at h
  · simp only [hc, if_false, List.lookup_cons]
    have : (X == cid) = false := by
      rw [beq_eq_false_iff_ne]; exact fun e => hne e.symm
    rw [this]; exact h

theorem lire_construireIndex (ph : JsString → Bool) (X : JsString) (p : Piece)
    (l : List Piece) (idx : Index) (h : idx.lire ph X = Valeur.piece p)
    (hl : ∀ q ∈ l, cidNormalise q ≠ X) :
    (construireIndex l idx).lire ph X = Valeur.piece p := by
  induction l generalizing idx with
  | nil => exact h
  | cons q l ih =>
    simp only [construireIndex]
    apply ih _ _ (fun r hr => hl r (List.mem_cons_of_mem _ hr))
    split
    · exact lire_affecter_autre ph idx _ X p q (hl q (List.mem_cons_self _ _)) h
    · exact h

theorem lire_derniere (ph : JsString → Bool) (avant apres : List Piece) (p : Piece)
    (X : JsString) (hX : cidNormalise p = X) (hne : X ≠ [])
    (hapres : ∀ q ∈ apres, cidNormalise q ≠ X) :
    (construireIndex (avant ++ p :: apres) Index.vide).lire ph X = Valeur.piece p := by
  rw [construireIndex_append]
  simp only [construireIndex]
  apply lire_construireIndex ph X p apres _ _ hapres
  have hv : estVrai (cidNormalise p) = true := by
    rw [hX]; cases X with
    | nil => exact absurd rfl hne
    | cons a l => rfl
  rw [hX] at hv
  simp only [hv, if_true, hX]
  exact lire_affecter_meme ph _ X p (construireIndex_sans_proto avant Index.vide rfl)

theorem remplacerCid_sans_reference (f : JsString → JsString → Except Erreur JsString)
    (t : JsString) (h : ∀ i, correspondance (t.drop i) = none) :
    remplacerCid f 0 t = Except.ok t := by
  induction t with
  | nil => rfl
  | cons c t ih =>
    have h0 := h 0
    simp only [List.drop_zero] at h0
    simp only [remplacerCid, h0]
    rw [ih (fun i => by simpa using h (i + 1))]

/-- C8 (amended): an attribute `src="cid:X"` (either quote on either side, `src=` and
`cid:` in any case) that no earlier match runs into, when `p` is the last inline part
whose normalized content ID is `X`, is replaced by `src="data:<type>;base64,<b64>"`,
where `<type>` is the content type of `p`, or `image/png` when it has none, and
`<b64>` the base64 encoding of its bytes; around it stand the results for the text
before and the text after; a text in which the pattern matches nowhere is returned as
it is. -/
theorem insererImagesCid_remplace (ph : JsString → Bool) (avant apres : List Piece)
    (p : Piece) (pre attribut post X a b : JsString)
    (hX : cidNormalise p = X)
    (hapres : ∀ q ∈ apres, cidNormalise q ≠ X)
    (hattr : FormeAttribut attribut X [])
    (hpre : ∀ i cid n, i < pre.length →
      correspondance ((pre ++ (attribut ++ post)).drop i) = some (cid, n) →
      i + n ≤ pre.length)
    (ha : insererImagesCid_ ph pre (avant ++ p :: apres) = Except.ok a)
    (hb : insererImagesCid_ ph post (avant ++ p :: apres) = Except.ok b) :
    insererImagesCid_ ph (pre ++ attribut ++ post) (avant ++ p :: apres) =
        Except.ok (a ++ (js "src=\"data:" ++
          (if estVrai (p.typeContenu.getD []) then p.typeContenu.getD [] else js "image/png") ++
          js ";base64," ++ base64Encode p.octets ++ js "\"") ++ b) ∧
      ∀ t : JsString, (∀ i, correspondance (t.drop i) = none) →
        insererImagesCid_ ph t (avant ++ p :: apres) = Except.ok t := by
  refine ⟨?_, fun t ht => remplacerCid_sans_reference _ t ht⟩
  unfold insererImagesCid_ at ha hb ⊢
  simp only at ha hb ⊢
  have hne : X ≠ [] := by
    obtain ⟨c1, c2, c3, c5, c6, c7, c8, q, -, -, -, -, -, -, -, -, hne, -⟩ := hattr
    exact hne
  have hlire := lire_derniere ph avant apres p X hX hne hapres
  have hcor : correspondance (attribut ++ post) = some (X, 9 + X.length + 1) := by
    have := correspondance_forme _ _ _ (formeAttribut_append attribut X [] post hattr)
    simpa using this
  have hlen : attribut.length = 9 + X.length + 1 := by
    obtain ⟨c1, c2, c3, c5, c6, c7, c8, q, hs, -⟩ := hattr
    rw [hs]; simp; omega
  rw [List.append_assoc, remplacerCid_append _ pre.length pre (attribut ++ post) rfl hpre, ha]
  have hsuite : remplacerCid
      (remplacement ph (construireIndex (avant ++ p :: apres) Index.vide)) 0
      (attribut ++ post) =
      Except.ok ((js "src=\"data:" ++
          (if estVrai (p.typeContenu.getD []) then p.typeContenu.getD [] else js "image/png") ++
          js ";base64," ++ base64Encode p.octets ++ js "\"") ++ b) := by
    cases hat : attribut with
    | nil => rw [hat] at hlen; simp at hlen
    | cons c t =>
      rw [hat] at hcor hlen
      simp only [List.cons_append, remplacerCid, List.append_eq]
      rw [show c :: (t ++ post) = c :: t ++ post from rfl, hcor]
      simp only
      have htake : List.take (9 + X.length + 1) (c :: t ++ post) = c :: t := by
        rw [← hlen, List.take_left']
        rfl
      rw [htake]
      simp only [remplacement, hlire]
      rw [remplacerCid_saut]
      have hdrop : List.drop (9 + X.length + 1 - 1) (t ++ post) = post := by
        have : 9 + X.length + 1 - 1 = t.length := by simp at hlen; omega
        rw [this, List.drop_left']
        rfl
      rw [hdrop, hb]
  rw [hsuite]
  simp [joindre, List.append_assoc]

/-- C8, witness: `<img SRC='cid:logo">` with the inline GIF whose content ID is `logo`. -/
theorem insererImagesCid_remplace_witness :
    insererImagesCid_ sansPropriete (js "<img " ++ js "SRC='cid:logo\"" ++ js ">")
        ([] ++ pieceGif :: []) =
      Except.ok (js "<img " ++ (js "src=\"data:" ++
        (if estVrai (pieceGif.typeContenu.getD []) then pieceGif.typeContenu.getD []
          else js "image/png") ++
        js ";base64," ++ base64Encode pieceGif.octets ++ js "\"") ++ js ">") ∧
      ∀ t : JsString, (∀ i, correspondance (t.drop i) = none) →
        insererImagesCid_ sansPropriete t ([] ++ pieceGif :: []) = Except.ok t :=
  insererImagesCid_remplace sansPropriete [] [] pieceGif (js "<img ") (js "SRC='cid:logo\"")
    (js ">") (js "logo") (js "<img ") (js ">") (by decide) (by simp)
    ⟨83, 82, 67, 39, 99, 105, 100, 34, by decide⟩
    (by
      intro i cid n hi h
      have hnone : ∀ j, j < 5 →
          correspondance ((js "<img " ++ (js "SRC='cid:logo\"" ++ js ">")).drop j) = none := by
        decide
      rw [hnone i hi] at h
      simp at h)
    (by rfl) (by rfl)

/-- C8, counterexample: three bodies on which the claim fails. With two inline parts
of content ID `logo`, the data of the last one (the JPEG) is inserted, not those of
the GIF; a part whose content type is empty is inserted as `image/png`; an attribute
`src="cid:logo"` that an earlier match runs into is left as it is. -/
theorem insererImagesCid_contre_exemple :
    (pieceGif ∈ [pieceGif, pieceJpeg] ∧ cidNormalise pieceGif = js "logo" ∧
      insererImagesCid_ sansPropriete (js "<img src=\"cid:logo\">") [pieceGif, pieceJpeg] =
        Except.ok (js "<img src=\"data:image/jpeg;base64,BAUG\">")) ∧
    (cidNormalise pieceSansType = js "logo" ∧ pieceSansType.typeContenu = some [] ∧
      insererImagesCid_ sansPropriete (js "<img src=\"cid:logo\">") [pieceSansType] =
        Except.ok (js "<img src=\"data:image/png;base64,AQIDBA==\">")) ∧
    (js "<img src=\"cid:a src=\"cid:logo\">" = js "<img src=\"cid:a " ++ js "src=\"cid:logo\"" ++ js ">" ∧
      insererImagesCid_ sansPropriete (js "<img src=\"cid:a src=\"cid:logo\">") [pieceGif] =
        Except.ok (js "<img src=\"cid:a src=\"cid:logo\">")) := by
  refine ⟨⟨by decide, by decide, by rfl⟩, ⟨by decide, by decide, by rfl⟩, ⟨by decide, by rfl⟩⟩

/-- C7: on the body `<img src="cid:constructor">` and a message without inline part,
`insererImagesCid_` raises a `TypeError` instead of returning the body: the lookup
`indexCid['constructor']` finds the member inherited from `Object.prototype`. -/
theorem insererImagesCid_constructor (proprieteHote : JsString → Bool) :
    insererImagesCid_ proprieteHote (js "<img src=\"cid:constructor\">") [] =
      Except.error Erreur.pasUneFonction := by
  rfl

@[simp] theorem pure_apply {α : Type} (a : α) (w : Monde) : (pure a : M α) w = Res.ok a w := rfl

@[simp] theorem bind_apply {α β : Type} (m : M α) (f : α → M β) (w : Monde) :
    (m >>= f) w = match m w with
      | Res.ok a w1 => f a w1
      | Res.err e w1 => Res.err e w1 := rfl

theorem memeEtat_refl (w : Monde) : memeEtat w w := ⟨rfl, rfl, rfl, rfl, rfl, rfl⟩

theorem memeEtat_trans (a b c : Monde) (h1 : memeEtat a b) (h2 : memeEtat b c) :
    memeEtat a c := by
  obtain ⟨a1, a2, a3, a4, a5, a6⟩ := h1
  obtain ⟨b1, b2, b3, b4, b5, b6⟩ := h2
  exact ⟨b1.trans a1, b2.trans a2, b3.trans a3, b4.trans a4, b5.trans a5, b6.trans a6⟩

theorem effet_memeEtat (op : Op) (a b : Monde) (h : memeEtat a b) :
    memeEtat (op.effet a) (op.effet b) := by
  obtain ⟨h1, h2, h3, h4, h5, h6⟩ := h
  cases op <;> simp [Op.effet, memeEtat, modifierFil, h1, h2, h3, h4, h5, h6]

theorem rejouer_memeEtat (tr : List Op) (a b : Monde) (h : memeEtat a b) :
    memeEtat (rejouer tr a) (rejouer tr b) := by
  induction tr generalizing a b with
  | nil => exact h
  | cons op t ih => exact ih _ _ (effet_memeEtat op a b h)

theorem rejouer_append (t1 t2 : List Op) (w : Monde) :
    rejouer (t1 ++ t2) w = rejouer t2 (rejouer t1 w) := by
  simp [rejouer, List.foldl_append]

theorem rejouer_lecture (tr : List Op) (w : Monde) (h : ∀ op ∈ tr, op.mutante = false) :
    rejouer tr w = w := by
  induction tr with
  | nil => rfl
  | cons op t ih =>
    simp only [rejouer, List.foldl_cons]
    have hop := h op (List.mem_cons_self _ _)
    have he : op.effet w = w := by
      cases op <;> simp [Op.mutante] at hop <;> rfl
    rw [he]
    exact ih (fun o ho => h o (List.mem_cons_of_mem _ ho))

theorem suit_refl (S : Op → Prop) (w : Monde) : Suit S w w :=
  ⟨[], by simp, by simp, memeEtat_refl w⟩

theorem suit_trans (S : Op → Prop) (a b c : Monde) (h1 : Suit S a b) (h2 : Suit S b c) :
    Suit S a c := by
  obtain ⟨t1, hj1, hs1, he1⟩ := h1
  obtain ⟨t2, hj2, hs2, he2⟩ := h2
  refine ⟨t1 ++ t2, by rw [hj2, hj1, List.append_assoc], ?_, ?_⟩
  · intro op hop
    rcases List.mem_append.mp hop with h | h
    · exact hs1 op h
    · exact hs2 op h
  · rw [rejouer_append]
    exact memeEtat_trans _ _ _ (rejouer_memeEtat t2 _ _ he1) he2

theorem suit_mono (S T : Op → Prop) (hst : ∀ op, S op → T op) (a b : Monde)
    (h : Suit S a b) : Suit T a b := by
  obtain ⟨t, hj, hs, he⟩ := h
  exact ⟨t, hj, fun op hop => hst op (hs op hop), he⟩

theorem garde_pur {α : Type} (S : Op → Prop) (a : α) : Garde (Suit S) (pure a : M α) :=
  fun w => suit_refl S w

theorem garde_lier {α β : Type} (S : Op → Prop) (m : M α) (f : α → M β)
    (hm : Garde (Suit S) m) (hf : ∀ a, Garde (Suit S) (f a)) : Garde (Suit S) (m >>= f) := by
  intro w
  have h1 := hm w
  simp only [bind_apply]
  cases hmw : m w with
  | ok a w1 =>
    rw [hmw] at h1
    exact suit_trans S _ _ _ h1 (hf a w1)
  | err e w1 =>
    rw [hmw] at h1
    exact h1

theorem garde_essayer {α : Type} (S : Op → Prop) (c : M α) (r : Erreur → M α)
    (hc : Garde (Suit S) c) (hr : ∀ e, Garde (Suit S) (r e)) : Garde (Suit S) (essayer c r) := by
  intro w
  have h1 := hc w
  unfold essayer
  cases hcw : c w with
  | ok a w1 =>
    rw [hcw] at h1
    exact h1
  | err e w1 =>
    rw [hcw] at h1
    exact suit_trans S _ _ _ h1 (hr e w1)

theorem garde_pourChaque {α : Type} (S : Op → Prop) (f : α → M Unit) (l : List α)
    (hf : ∀ a ∈ l, Garde (Suit S) (f a)) : Garde (Suit S) (pourChaque f l) := by
  induction l with
  | nil => exact garde_pur S ()
  | cons a t ih =>
    unfold pourChaque
    exact garde_lier S _ _ (hf a (List.mem_cons_self _ _))
      (fun _ => ih (fun b hb => hf b (List.mem_cons_of_mem _ hb)))

theorem garde_lever {α : Type} (S : Op → Prop) (e : Erreur) : Garde (Suit S) (lever e : M α) :=
  fun w => suit_refl S w

theorem garde_lireMonde (S : Op → Prop) : Garde (Suit S) lireMonde :=
  fun w => suit_refl S w

theorem garde_ecrire (S : Op → Prop) (l : Ligne) : Garde (Suit S) (ecrire l) :=
  fun w => ⟨[], by simp [ecrire, Res.monde], by simp, by simp [ecrire, Res.monde, rejouer, memeEtat]⟩

theorem effet_journal (op : Op) (w : Monde) : (op.effet w).journal = w.journal := by
  cases op <;> simp [Op.effet, modifierFil]

theorem effet_console (op : Op) (w : Monde) : (op.effet w).console = w.console := by
  cases op <;> simp [Op.effet, modifierFil]

theorem garde_appel (S : Op → Prop) (h : Hote) (op : Op) (hS : S op) :
    Garde (Suit S) (appel h op) := by
  intro w
  unfold appel
  split
  · exact suit_refl S w
  · refine ⟨[op], ?_, ?_, ?_⟩
    · simp [Res.monde, effet_journal]
    · simpa using hS
    · simp only [Res.monde, rejouer, List.foldl_cons, List.foldl_nil]
      exact effet_memeEtat op _ _ ⟨rfl, rfl, rfl, rfl, rfl, rfl⟩

theorem garde_accesMessage {α : Type} (S : Op → Prop) (h : Hote) (acces : AccesMessage)
    (message : Message) (valeur : α) (hS : S (Op.message acces message.id)) :
    Garde (Suit S) (accesMessage h acces message valeur) := by
  unfold accesMessage
  exact garde_lier S _ _ (garde_appel S h _ hS) (fun _ => garde_pur S _)

theorem garde_getProperty (S : Op → Prop) (h : Hote) (cle : JsString)
    (hS : S (Op.getProperty cle)) : Garde (Suit S) (getProperty h cle) := by
  unfold getProperty
  exact garde_lier S _ _ (garde_appel S h _ hS)
    (fun _ => garde_lier S _ _ (garde_lireMonde S) (fun _ => garde_pur S _))

theorem garde_createFile (S : Op → Prop) (h : Hote) (dossier : Nat) (blob : Blob)
    (hS : S (Op.createFile dossier blob.nom blob.octets)) :
    Garde (Suit S) (createFile h dossier blob) := by
  unfold createFile
  exact garde_lier S _ _ (garde_lireMonde S)
    (fun _ => garde_lier S _ _ (garde_appel S h _ hS) (fun _ => garde_pur S _))

theorem garde_obtenirOuCreerSousDossier_ (S : Op → Prop) (h : Hote) (parent : Nat)
    (nom : JsString) (hS1 : S (Op.getFoldersByName parent nom))
    (hS2 : S (Op.createFolder parent nom)) :
    Garde (Suit S) (obtenirOuCreerSousDossier_ h parent nom) := by
  unfold obtenirOuCreerSousDossier_ getFoldersByName createFolder
  refine garde_lier S _ _ (garde_lier S _ _ (garde_appel S h _ hS1)
    (fun _ => garde_lier S _ _ (garde_lireMonde S) (fun _ => garde_pur S _))) (fun l => ?_)
  cases l with
  | nil =>
    exact garde_lier S _ _ (garde_lireMonde S)
      (fun _ => garde_lier S _ _ (garde_appel S h _ hS2) (fun _ => garde_pur S _))
  | cons d t => exact garde_pur S _

theorem garde_convertirEmailEnPdf_ (S : Op → Prop) (h : Hote) (message : Message)
    (hS1 : ∀ acces, S (Op.message acces message.id)) (hS2 : ∀ f, S (Op.formatDate f))
    (hS3 : S (Op.rendrePdf message.id)) :
    Garde (Suit S) (convertirEmailEnPdf_ h message) := by
  unfold convertirEmailEnPdf_
  refine garde_lier S _ _ (garde_accesMessage S h _ _ _ (hS1 _)) (fun _ => ?_)
  refine garde_lier S _ _ (garde_accesMessage S h _ _ _ (hS1 _)) (fun _ => ?_)
  refine garde_lier S _ _ (garde_accesMessage S h _ _ _ (hS1 _)) (fun _ => ?_)
  refine garde_lier S _ _ (garde_accesMessage S h _ _ _ (hS1 _)) (fun _ => ?_)
  refine garde_lier S _ _ (garde_accesMessage S h _ _ _ (hS1 _)) (fun _ => ?_)
  refine garde_lier S _ _ (garde_accesMessage S h _ _ _ (hS1 _)) (fun _ => ?_)
  refine garde_lier S _ _ (garde_appel S h _ (hS2 _)) (fun _ => ?_)
  refine garde_lier S _ _ (garde_accesMessage S h _ _ _ (hS1 _)) (fun _ => ?_)
  refine garde_lier S _ _ ?_ (fun _ => ?_)
  · unfold deResultat
    split
    · exact garde_pur S _
    · exact garde_lever S _
  · exact garde_lier S _ _ (garde_appel S h _ hS3) (fun _ => garde_pur S _)

theorem garde_enregistrerPiecesJointes_ (S : Op → Prop) (h : Hote) (message : Message)
    (dossierLibelle : Nat) (nomBase : JsString)
    (hS1 : ∀ acces, S (Op.message acces message.id))
    (hS2 : ∀ p n, S (Op.getFoldersByName p n)) (hS3 : ∀ p n, S (Op.createFolder p n))
    (hS4 : ∀ n, S (Op.copyBlob n)) (hS5 : ∀ d n o, S (Op.createFile d n o)) :
    Garde (Suit S) (enregistrerPiecesJointes_ h message dossierLibelle nomBase) := by
  unfold enregistrerPiecesJointes_
  refine garde_lier S _ _ (garde_accesMessage S h _ _ _ (hS1 _)) (fun pieces => ?_)
  split
  · exact garde_pur S _
  · refine garde_lier S _ _ (garde_obtenirOuCreerSousDossier_ S h _ _ (hS2 _ _) (hS3 _ _))
      (fun _ => ?_)
    refine garde_lier S _ _ (garde_obtenirOuCreerSousDossier_ S h _ _ (hS2 _ _) (hS3 _ _))
      (fun d => ?_)
    refine garde_pourChaque S _ _ (fun piece _ => ?_)
    unfold enregistrerPiece
    refine garde_lier S _ _ (garde_appel S h _ (hS4 _)) (fun _ => ?_)
    dsimp only
    split
    · exact garde_lier S _ _ (garde_createFile S h _ _ (hS5 _ _ _)) (fun _ => garde_pur S _)
    · exact garde_pur S _

theorem garde_marquer (S : Op → Prop) (h : Hote) (libelle : JsString)
    (libelleTraite : Option JsString) (fil : Fil) (hS1 : ∀ l, S (Op.addLabel fil.id l))
    (hS2 : ∀ l, S (Op.removeLabel fil.id l)) :
    Garde (Suit S) (marquer h libelle libelleTraite fil) := by
  unfold marquer
  split
  · exact garde_lier S _ _ (garde_appel S h _ (hS1 _)) (fun _ => garde_appel S h _ (hS2 _))
  · exact garde_pur S _

theorem garde_exporterMessage (S : Op → Prop) (cfg : Config) (h : Hote)
    (nomLibelle libelle : JsString) (libelleTraite : Option JsString) (dossierLibelle : Nat)
    (fil : Fil) (message : Message)
    (hS : ∀ op, opsMessage nomLibelle fil message op = true → S op) :
    Garde (Suit S) (exporterMessage cfg h nomLibelle libelle libelleTraite dossierLibelle fil
      message message.id (cleMessageDe nomLibelle message.id)) := by
  have hm : ∀ acces, S (Op.message acces message.id) :=
    fun acces => hS _ (by simp [opsMessage])
  have hf : ∀ f, S (Op.formatDate f) := fun f => hS _ (by simp [opsMessage])
  have hc : ∀ d n o, S (Op.createFile d n o) := fun d n o => hS _ (by simp [opsMessage])
  unfold exporterMessage
  refine garde_lier S _ _ (garde_convertirEmailEnPdf_ S h message hm hf
    (hS _ (by simp [opsMessage]))) (fun pdf => ?_)
  refine garde_lier S _ _ (garde_accesMessage S h _ _ _ (hm _)) (fun _ => ?_)
  refine garde_lier S _ _ (garde_accesMessage S h _ _ _ (hm _)) (fun _ => ?_)
  refine garde_lier S _ _ (garde_appel S h _ (hf _)) (fun _ => ?_)
  dsimp only
  split
  · unfold enregistrerExport sauvegarderEtMarquer
    refine garde_lier S _ _ ?_ (fun _ => garde_lier S _ _
      (garde_appel S h _ (hS _ (by simp [opsMessage]))) (fun _ => garde_ecrire S _))
    refine garde_lier S _ _ (garde_createFile S h _ _ (hc _ _ _)) (fun _ => ?_)
    refine garde_lier S _ _ (garde_appel S h _ (hS _ (by simp [opsMessage]))) (fun _ => ?_)
    refine garde_lier S _ _ ?_ (fun _ => ?_)
    · split
      · exact garde_enregistrerPiecesJointes_ S h message _ _ hm
          (fun p n => hS _ (by simp [opsMessage])) (fun p n => hS _ (by simp [opsMessage]))
          (fun n => hS _ (by simp [opsMessage])) hc
      · exact garde_pur S _
    refine garde_lier S _ _ (garde_marquer S h _ _ fil
      (fun l => hS _ (by simp [opsMessage])) (fun l => hS _ (by simp [opsMessage])))
      (fun _ => ?_)
    split
    · exact garde_appel S h _ (hS _ (by simp [opsMessage]))
    · exact garde_pur S _
  · exact garde_ecrire S _

theorem garde_estLu (S : Op → Prop) (cfg : Config) (h : Hote) (message : Message)
    (hS : ∀ acces, S (Op.message acces message.id)) : Garde (Suit S) (estLu cfg h message) := by
  unfold estLu
  split
  · exact garde_lier S _ _ (garde_accesMessage S h _ _ _ (hS _)) (fun _ => garde_pur S _)
  · exact garde_pur S _

theorem garde_lier_acces {α β : Type} (S : Op → Prop) (h : Hote) (acces : AccesMessage)
    (message : Message) (valeur : α) (f : α → M β) (hS : S (Op.message acces message.id))
    (hf : Garde (Suit S) (f valeur)) :
    Garde (Suit S) (accesMessage h acces message valeur >>= f) := by
  intro w
  have h1 := garde_appel S h (Op.message acces message.id) hS w
  simp only [accesMessage, bind_apply, pure_apply]
  cases hw : appel h (Op.message acces message.id) w with
  | ok a w1 =>
    rw [hw] at h1
    exact suit_trans S _ _ _ h1 (hf w1)
  | err e w1 =>
    rw [hw] at h1
    exact h1

theorem garde_traiterMessage (S : Op → Prop) (cfg : Config) (h : Hote)
    (nomLibelle libelle : JsString) (libelleTraite : Option JsString) (dossierLibelle : Nat)
    (fil : Fil) (message : Message)
    (hS : ∀ op, opsMessage nomLibelle fil message op = true → S op) :
    Garde (Suit S) (traiterMessage cfg h nomLibelle libelle libelleTraite dossierLibelle fil
      message) := by
  have hm : ∀ acces, S (Op.message acces message.id) :=
    fun acces => hS _ (by simp [opsMessage])
  unfold traiterMessage
  refine garde_lier_acces S h _ _ _ _ (hm _) ?_
  dsimp only
  refine garde_lier S _ _ (garde_getProperty S h _ (hS _ (by simp [opsMessage]))) (fun _ => ?_)
  split
  · exact garde_pur S _
  · refine garde_lier S _ _ (garde_estLu S cfg h message hm) (fun lu => ?_)
    split
    · exact garde_pur S _
    · exact garde_essayer S _ _
        (garde_exporterMessage S cfg h nomLibelle libelle libelleTraite dossierLibelle fil
          message hS)
        (fun _ => garde_ecrire S _)

theorem garde_traiterFil (S : Op → Prop) (cfg : Config) (h : Hote)
    (nomLibelle libelle : JsString) (libelleTraite : Option JsString) (dossierLibelle : Nat)
    (fil : Fil) (hS1 : S (Op.getMessages fil.id))
    (hS : ∀ message ∈ fil.messages, ∀ op, opsMessage nomLibelle fil message op = true → S op) :
    Garde (Suit S) (traiterFil cfg h nomLibelle libelle libelleTraite dossierLibelle fil) := by
  intro w
  have h1 := garde_appel S h (Op.getMessages fil.id) hS1 w
  simp only [traiterFil, getMessages, bind_apply, pure_apply]
  cases hw : appel h (Op.getMessages fil.id) w with
  | ok a w1 =>
    rw [hw] at h1
    exact suit_trans S _ _ _ h1
      (garde_pourChaque S _ _ (fun m hmem =>
        garde_traiterMessage S cfg h nomLibelle libelle libelleTraite dossierLibelle fil m
          (hS m hmem)) w1)
  | err e w1 =>
    rw [hw] at h1
    exact h1

theorem pourChaque_append {α : Type} (f : α → M Unit) (l1 l2 : List α) (w : Monde) :
    pourChaque f (l1 ++ l2) w =
      match pourChaque f l1 w with
      | Res.ok _ w1 => pourChaque f l2 w1
      | Res.err e w1 => Res.err e w1 := by
  induction l1 generalizing w with
  | nil => rfl
  | cons a t ih =>
    simp only [List.cons_append, pourChaque, bind_apply]
    cases f a w with
    | ok _ w1 => exact ih w1
    | err e w1 => rfl

/-- C1 (amended): when `traiterLibelle_` throws on a label of the configured list, the
labels before it having been processed, `executer` catches the error and writes it to
the console, does not throw, and ends there: the world it leaves is the one in which
the label failed, with that one console line more. The failed label is not retried and
the labels after it are not processed in that run. -/
theorem executer_arret (cfg : Config) (h : Hote) (avant apres : List JsString)
    (nomLibelle : JsString) (w w1 w2 : Monde) (e : Erreur)
    (hliste : cfg.libellesATraiter = avant ++ nomLibelle :: apres)
    (havant : pourChaque (traiterLibelle_ cfg h) avant w = Res.ok () w1)
    (hechec : traiterLibelle_ cfg h nomLibelle w1 = Res.err e w2) :
    executer cfg h w =
      Res.ok () { w2 with console := w2.console ++ [Ligne.erreurCritique e] } := by
  unfold executer essayer
  rw [hliste, pourChaque_append, havant]
  simp only [pourChaque, bind_apply, hechec, ecrire]

/-- C1, witness: the labels `A` and `B`, the call `getUserLabelByName('A')` failing. -/
theorem executer_arret_witness :
    executer configAB hotePanneA mondeAB =
      Res.ok () { mondeAB with console := mondeAB.console ++
        [Ligne.erreurCritique (Erreur.panne (Op.getUserLabelByName (js "A")))] } :=
  executer_arret configAB hotePanneA [] [js "B"] (js "A") mondeAB mondeAB mondeAB
    (Erreur.panne (Op.getUserLabelByName (js "A"))) (by decide) (by rfl) (by decide!)

/-- C1, counterexample: with the labels `A` and `B` and a host on which only the call
`getUserLabelByName('A')` fails, `traiterLibelle_` throws on `A`, and `executer` ends
without a single host call in its journal, although `traiterLibelle_` on `B` would
have returned and left its calls there: `B` is not processed. -/
theorem executer_contre_exemple :
    configAB.libellesATraiter = [js "A", js "B"] ∧
    traiterLibelle_ configAB hotePanneA (js "A") mondeAB =
      Res.err (Erreur.panne (Op.getUserLabelByName (js "A"))) mondeAB ∧
    (executer configAB hotePanneA mondeAB).monde.journal = [] ∧
    (∃ w, traiterLibelle_ configAB hotePanneA (js "B") mondeAB = Res.ok () w ∧
      Op.getUserLabelByName (js "B") ∈ w.journal) := by
  refine ⟨by decide, by decide!, by decide!, ?_⟩
  refine ⟨(traiterLibelle_ configAB hotePanneA (js "B") mondeAB).monde, by decide!, by decide!⟩

/-- C2: in simulation mode, on a mailbox with one conversation labelled `PDF` and an
empty file store, `traiterLibelle_` creates the folder `PDF`; and where the label
`PDF/Traité` is missing it creates that label too. -/
theorem traiterLibelle_simulation_cree :
    configSimulation.modeSimulation = true ∧ mondePdf.dossiers = [] ∧
    (traiterLibelle_ configSimulation hoteSimple (js "PDF") mondePdf).monde.dossiers =
      [⟨1, 0, js "PDF"⟩] ∧
    Op.createFolder 0 (js "PDF") ∈
      (traiterLibelle_ configSimulation hoteSimple (js "PDF") mondePdf).monde.journal ∧
    (traiterLibelle_ configSimulation hoteSimple (js "PDF") mondeSansMarque).monde.libelles =
      [js "PDF", js "PDF/Traité"] := by
  refine ⟨by decide, by decide, by decide!, by decide!, by decide!⟩

/-- C4, counterexample: when the lookup of the ProcessedRecord of the first message
fails, the error leaves `traiterLibelle_`, and the second message of the conversation is
not processed. -/
theorem traiterLibelle_contre_exemple_lecture :
    (∃ w, traiterLibelle_ configSource hotePanneLecture (js "PDF") mondePdf =
        Res.err (Erreur.panne (Op.getProperty (cleMessageDe (js "PDF") messageNonLu.id))) w ∧
      Op.message AccesMessage.getId messageLu.id ∉ w.journal) ∧
    mondePdf.fils = [⟨1, [js "PDF"], false, [messageNonLu, messageLu]⟩] := by
  refine ⟨⟨(traiterLibelle_ configSource hotePanneLecture (js "PDF") mondePdf).monde,
    by decide!, by decide!⟩, by decide⟩

/-- C10, counterexample: in unread-only mode, the conversation of an unread and a read
message is archived, the read message with it. -/
theorem traiterLibelle_contre_exemple_archive :
    configNonLus.seulementNonLus = true ∧ messageLu.nonLu = false ∧
    mondePdf.fils = [⟨1, [js "PDF"], false, [messageNonLu, messageLu]⟩] ∧
    (traiterLibelle_ configNonLus hoteSimple (js "PDF") mondePdf).monde.fils =
      [⟨1, [js "PDF/Traité"], true, [messageNonLu, messageLu]⟩] := by
  refine ⟨by decide, by decide, by decide, by decide!⟩

theorem suit_journal (S : Op → Prop) (w w' : Monde) (h : Suit S w w') :
    ∃ tr, w'.journal = w.journal ++ tr ∧ ∀ op ∈ tr, S op := by
  obtain ⟨tr, hj, hs, -⟩ := h
  exact ⟨tr, hj, hs⟩

theorem appel_ok (h : Hote) (op : Op) (w : Monde) (hp : h.panne w op = false) :
    appel h op w = Res.ok () (op.effet { w with journal := w.journal ++ [op] }) := by
  simp [appel, hp]

theorem essayer_exporter_ok (cfg : Config) (h : Hote) (nomLibelle libelle : JsString)
    (libelleTraite : Option JsString) (dossierLibelle : Nat) (fil : Fil) (message : Message)
    (w : Monde) :
    ∃ w', essayer (exporterMessage cfg h nomLibelle libelle libelleTraite dossierLibelle fil
        message message.id (cleMessageDe nomLibelle message.id))
        (fun erreur => ecrire (Ligne.erreurMessage message.id erreur)) w = Res.ok () w' ∧
      ∃ tr, w'.journal = w.journal ++ tr := by
  have hg := garde_essayer (fun _ => True) _ _
    (garde_exporterMessage (fun _ => True) cfg h nomLibelle libelle libelleTraite
      dossierLibelle fil message (fun _ _ => trivial))
    (fun erreur => garde_ecrire (fun _ => True) (Ligne.erreurMessage message.id erreur)) w
  obtain ⟨tr, hj, -⟩ := suit_journal _ _ _ hg
  cases hr : essayer (exporterMessage cfg h nomLibelle libelle libelleTraite dossierLibelle fil
        message message.id (cleMessageDe nomLibelle message.id))
        (fun erreur => ecrire (Ligne.erreurMessage message.id erreur)) w with
  | ok a w' =>
    rw [hr] at hj
    exact ⟨w', rfl, tr, hj⟩
  | err e w' =>
    exfalso
    unfold essayer at hr
    split at hr
    · simp at hr
    · simp [ecrire] at hr

theorem traiterMessage_ok (cfg : Config) (h : Hote) (nomLibelle libelle : JsString)
    (libelleTraite : Option JsString) (dossierLibelle : Nat) (fil : Fil) (message : Message)
    (hab : ∀ w', h.panne w' (Op.message AccesMessage.getId message.id) = false ∧
      h.panne w' (Op.getProperty (cleMessageDe nomLibelle message.id)) = false ∧
      h.panne w' (Op.message AccesMessage.isUnread message.id) = false)
    (w : Monde) :
    ∃ w', traiterMessage cfg h nomLibelle libelle libelleTraite dossierLibelle fil message w =
        Res.ok () w' ∧
      ∃ tr, w'.journal = w.journal ++ tr ∧
        Op.getProperty (cleMessageDe nomLibelle message.id) ∈ tr := by
  simp only [traiterMessage, accesMessage, getProperty, lireMonde, bind_apply, pure_apply,
    appel_ok h _ _ (hab _).1, appel_ok h _ _ (hab _).2.1, Op.effet]
  split
  · exact ⟨_, rfl, [Op.message AccesMessage.getId message.id,
      Op.getProperty (cleMessageDe nomLibelle message.id)], by simp, by simp⟩
  · unfold estLu
    split
    · simp only [accesMessage, bind_apply, pure_apply, appel_ok h _ _ (hab _).2.2, Op.effet]
      split
      · exact ⟨_, rfl, [Op.message AccesMessage.getId message.id,
          Op.getProperty (cleMessageDe nomLibelle message.id),
          Op.message AccesMessage.isUnread message.id], by simp, by simp⟩
      · obtain ⟨w', hw', tr, htr⟩ := essayer_exporter_ok cfg h nomLibelle libelle libelleTraite
          dossierLibelle fil message _
        refine ⟨w', hw', [Op.message AccesMessage.getId message.id,
          Op.getProperty (cleMessageDe nomLibelle message.id),
          Op.message AccesMessage.isUnread message.id] ++ tr, ?_, by simp⟩
        rw [htr]; simp
    · simp only [bind_apply, pure_apply, Bool.false_eq_true, if_false]
      · obtain ⟨w', hw', tr, htr⟩ := essayer_exporter_ok cfg h nomLibelle libelle libelleTraite
          dossierLibelle fil message _
        refine ⟨w', hw', [Op.message AccesMessage.getId message.id,
          Op.getProperty (cleMessageDe nomLibelle message.id)] ++ tr, ?_, by simp⟩
        rw [htr]; simp

theorem pourChaque_total {α : Type} (f : α → M Unit) (ops : α → List Op) (l : List α)
    (hf : ∀ a ∈ l, ∀ w, ∃ w', f a w = Res.ok () w' ∧
      ∃ tr, w'.journal = w.journal ++ tr ∧ ∀ op ∈ ops a, op ∈ tr) :
    ∀ w, ∃ w', pourChaque f l w = Res.ok () w' ∧
      ∃ tr, w'.journal = w.journal ++ tr ∧ ∀ a ∈ l, ∀ op ∈ ops a, op ∈ tr := by
  induction l with
  | nil => intro w; exact ⟨w, rfl, [], by simp, by simp⟩
  | cons a t ih =>
    intro w
    obtain ⟨w1, h1, tr1, hj1, ho1⟩ := hf a (List.mem_cons_self _ _) w
    obtain ⟨w2, h2, tr2, hj2, ho2⟩ := ih (fun b hb => hf b (List.mem_cons_of_mem _ hb)) w1
    refine ⟨w2, by simp only [pourChaque, bind_apply, h1, h2], tr1 ++ tr2,
      by rw [hj2, hj1, List.append_assoc], ?_⟩
    intro b hb op hop
    rcases List.mem_cons.mp hb with rfl | hb
    · exact List.mem_append_left _ (ho1 op hop)
    · exact List.mem_append_right _ (ho2 b hb op hop)

theorem garde_libelleOuCreation (S : Op → Prop) (h : Hote) (nom : JsString)
    (hS : ∀ op, opsPrelude op = true → S op) : Garde (Suit S) (libelleOuCreation h nom) := by
  unfold libelleOuCreation getUserLabelByName createLabel
  refine garde_lier S _ _ (garde_lier S _ _ (garde_appel S h _ (hS _ rfl))
    (fun _ => garde_lier S _ _ (garde_lireMonde S) (fun _ => garde_pur S _))) (fun l => ?_)
  cases l with
  | none => exact garde_lier S _ _ (garde_appel S h _ (hS _ rfl)) (fun _ => garde_pur S _)
  | some l => exact garde_pur S _

theorem garde_libelleTraiteDe (S : Op → Prop) (cfg : Config) (h : Hote) (nom : JsString)
    (hS : ∀ op, opsPrelude op = true → S op) : Garde (Suit S) (libelleTraiteDe cfg h nom) := by
  unfold libelleTraiteDe
  split
  · split
    · exact garde_lier S _ _ (garde_libelleOuCreation S h _ hS) (fun _ => garde_pur S _)
    · exact garde_pur S _
  · exact garde_pur S _

theorem garde_dossierRacineDe (S : Op → Prop) (cfg : Config) (h : Hote)
    (hS : ∀ op, opsPrelude op = true → S op) : Garde (Suit S) (dossierRacineDe cfg h) := by
  unfold dossierRacineDe getFolderById getRootFolder
  split
  · refine garde_lier S _ _ (garde_lireMonde S) (fun _ => ?_)
    split
    · exact garde_lier S _ _ (garde_appel S h _ (hS _ rfl)) (fun _ => garde_pur S _)
    · exact garde_lever S _
  · exact garde_lier S _ _ (garde_appel S h _ (hS _ rfl)) (fun _ => garde_pur S _)

theorem garde_lier_search {β : Type} (S : Op → Prop) (h : Hote) (requete : JsString)
    (f : List Fil → M β) (hS : S (Op.search requete))
    (hf : ∀ w', Garde (Suit S) (f (h.recherche w' requete))) :
    Garde (Suit S) (search h requete >>= f) := by
  intro w
  have h1 := garde_appel S h (Op.search requete) hS w
  simp only [search, lireMonde, bind_apply, pure_apply]
  cases hw : appel h (Op.search requete) w with
  | ok a w1 =>
    rw [hw] at h1
    exact suit_trans S _ _ _ h1 (hf w1 w1)
  | err e w1 =>
    rw [hw] at h1
    exact h1

theorem garde_traiterLibelle_ (S : Op → Prop) (cfg : Config) (h : Hote)
    (nomLibelle : JsString) (hS : ∀ op, opsPrelude op = true → S op)
    (hboucle : ∀ w' requete libelle libelleTraite dossierLibelle,
      ∀ f ∈ h.recherche w' requete,
        Garde (Suit S) (traiterFil cfg h nomLibelle libelle libelleTraite dossierLibelle f)) :
    Garde (Suit S) (traiterLibelle_ cfg h nomLibelle) := by
  unfold traiterLibelle_
  refine garde_lier S _ _ (garde_libelleOuCreation S h _ hS) (fun libelle => ?_)
  refine garde_lier S _ _ (garde_libelleTraiteDe S cfg h _ hS) (fun libelleTraite => ?_)
  refine garde_lier S _ _ (garde_appel S h _ (hS _ rfl)) (fun _ => ?_)
  refine garde_lier S _ _ ?_ (fun dateDebut => ?_)
  · unfold formaterDate_
    exact garde_lier S _ _ (garde_appel S h _ (hS _ rfl)) (fun _ => garde_pur S _)
  dsimp only
  refine garde_lier S _ _ (garde_ecrire S _) (fun _ => ?_)
  refine garde_lier_search S h _ _ (hS _ rfl) (fun w' => ?_)
  split
  · exact garde_ecrire S _
  · refine garde_lier S _ _ (garde_dossierRacineDe S cfg h hS) (fun racine => ?_)
    refine garde_lier S _ _ (garde_obtenirOuCreerSousDossier_ S h _ _ (hS _ rfl) (hS _ rfl))
      (fun d => ?_)
    exact garde_pourChaque S _ _ (fun f hf => hboucle w' _ libelle libelleTraite d f hf)

theorem lookup_filter_ne (k k' : JsString) (l : List (JsString × JsString)) (hk : k ≠ k') :
    (l.filter (fun e => e.1 ≠ k')).lookup k = l.lookup k := by
  induction l with
  | nil => rfl
  | cons e t ih =>
    obtain ⟨a, b⟩ := e
    by_cases ha : a = k'
    · have hne : (k == a) = false := by rw [beq_eq_false_iff_ne, ha]; exact hk
      have hd : decide ((a, b).1 ≠ k') = false := by simp [ha]
      rw [List.filter_cons, hd, List.lookup_cons, hne]
      simpa using ih
    · have hd : decide ((a, b).1 ≠ k') = true := by simp [ha]
      rw [List.filter_cons, hd, if_pos rfl, List.lookup_cons, List.lookup_cons, ih]

theorem effet_lookup (op : Op) (k : JsString) (w : Monde)
    (h : ∀ v, op ≠ Op.setProperty k v) :
    (op.effet w).proprietes.lookup k = w.proprietes.lookup k := by
  cases op <;> try (simp [Op.effet, modifierFil]; done)
  rename_i cle valeur
  have hne : k ≠ cle := fun e => h valeur (by rw [e])
  have hb : (k == cle) = false := by rw [beq_eq_false_iff_ne]; exact hne
  simp only [Op.effet, List.lookup_cons, hb]
  exact lookup_filter_ne k cle _ hne

theorem rejouer_lookup (tr : List Op) (k : JsString) (w : Monde)
    (h : ∀ op ∈ tr, ∀ v, op ≠ Op.setProperty k v) :
    (rejouer tr w).proprietes.lookup k = w.proprietes.lookup k := by
  induction tr generalizing w with
  | nil => rfl
  | cons op t ih =>
    simp only [rejouer, List.foldl_cons]
    have := ih (op.effet w) (fun o ho => h o (List.mem_cons_of_mem _ ho))
    simp only [rejouer] at this
    rw [this]
    exact effet_lookup op k w (h op (List.mem_cons_self _ _))

theorem filter_modifierFil (id id' : Nat) (g : Fil → Fil) (l : List Fil) (hne : id' ≠ id)
    (hg : ∀ f, (g f).id = f.id) :
    (l.map (fun fil => if fil.id = id' then g fil else fil)).filter (fun f => f.id = id) =
      l.filter (fun f => f.id = id) := by
  induction l with
  | nil => rfl
  | cons f t ih =>
    by_cases hf : f.id = id'
    · subst hf
      have h2 : ¬ (g f).id = f.id → False := fun e => e (hg f)
      simp only [List.map_cons, if_true, List.filter_cons, ih, hg f, hne, decide_False,
        Bool.false_eq_true, if_false]
    · simp only [List.map_cons, hf, if_false, List.filter_cons, ih]

theorem effet_fils (op : Op) (id : Nat) (w : Monde) (h : op.surFil id = false) :
    (op.effet w).fils.filter (fun f => f.id = id) = w.fils.filter (fun f => f.id = id) := by
  cases op <;> try (simp [Op.effet]; done)
  all_goals
    simp only [Op.surFil, decide_eq_false_iff_not] at h
    simp only [Op.effet, modifierFil]
    exact filter_modifierFil id _ _ _ h (fun f => rfl)

theorem rejouer_fils (tr : List Op) (id : Nat) (w : Monde)
    (h : ∀ op ∈ tr, op.surFil id = false) :
    (rejouer tr w).fils.filter (fun f => f.id = id) = w.fils.filter (fun f => f.id = id) := by
  induction tr generalizing w with
  | nil => rfl
  | cons op t ih =>
    simp only [rejouer, List.foldl_cons]
    have := ih (op.effet w) (fun o ho => h o (List.mem_cons_of_mem _ ho))
    simp only [rejouer] at this
    rw [this]
    exact effet_fils op id w (h op (List.mem_cons_self _ _))

theorem effet_fils_prelude (op : Op) (w : Monde) (h : opsPrelude op = true) :
    (op.effet w).fils = w.fils := by
  cases op <;> simp [opsPrelude] at h <;> simp [Op.effet]

theorem rejouer_fils_prelude (tr : List Op) (w : Monde)
    (h : ∀ op ∈ tr, opsPrelude op = true) : (rejouer tr w).fils = w.fils := by
  induction tr generalizing w with
  | nil => rfl
  | cons op t ih =>
    simp only [rejouer, List.foldl_cons]
    have := ih (op.effet w) (fun o ho => h o (List.mem_cons_of_mem _ ho))
    simp only [rejouer] at this
    rw [this]
    exact effet_fils_prelude op w (h op (List.mem_cons_self _ _))

theorem suit_prelude_fils (w w' : Monde) (h : Suit (fun op => opsPrelude op = true) w w') :
    w'.fils = w.fils := by
  obtain ⟨tr, -, hs, he⟩ := h
  rw [he.2.1]
  exact rejouer_fils_prelude tr w hs

theorem garde_mono {α : Type} (S T : Op → Prop) (m : M α) (hst : ∀ op, S op → T op)
    (h : Garde (Suit S) m) : Garde (Suit T) m :=
  fun w => suit_mono S T hst _ _ (h w)

/-- The shape of a run of `traiterLibelle_`: either it ends before its loop, having
made calls of the first part only, or it reaches the loop over the conversations that
the search returned. -/
theorem traiterLibelle_forme (cfg : Config) (h : Hote) (nomLibelle : JsString) (w : Monde) :
    Suit (fun op => opsPrelude op = true) w (traiterLibelle_ cfg h nomLibelle w).monde ∨
    ∃ w0 w1 requete libelle libelleTraite dossierLibelle,
      Suit (fun op => opsPrelude op = true) w w0 ∧
      Suit (fun op => opsPrelude op = true) w0 w1 ∧
      traiterLibelle_ cfg h nomLibelle w =
        pourChaque (traiterFil cfg h nomLibelle libelle libelleTraite dossierLibelle)
          (h.recherche w0 requete) w1 := by
  have hS : ∀ op, opsPrelude op = true → (fun op => opsPrelude op = true) op := fun _ h => h
  have g1 := garde_libelleOuCreation _ h nomLibelle hS w
  unfold traiterLibelle_
  simp only [bind_apply]
  cases h1 : libelleOuCreation h nomLibelle w with
  | err e w1 => rw [h1] at g1; exact Or.inl g1
  | ok libelle w1 =>
    rw [h1] at g1
    have g2 := garde_libelleTraiteDe _ cfg h nomLibelle hS w1
    simp only
    cases h2 : libelleTraiteDe cfg h nomLibelle w1 with
    | err e w2 => rw [h2] at g2; exact Or.inl (suit_trans _ _ _ _ g1 g2)
    | ok libelleTraite w2 =>
      rw [h2] at g2
      have g12 := suit_trans _ _ _ _ g1 g2
      have g3 := garde_appel (fun op => opsPrelude op = true) h Op.getUserProperties rfl w2
      simp only
      cases h3 : appel h Op.getUserProperties w2 with
      | err e w3 => rw [h3] at g3; exact Or.inl (suit_trans _ _ _ _ g12 g3)
      | ok u w3 =>
        rw [h3] at g3
        have g13 := suit_trans _ _ _ _ g12 g3
        have g4 := garde_appel (fun op => opsPrelude op = true) h (Op.formatDate (js "yyyy/MM/dd")) rfl w3
        simp only [formaterDate_, bind_apply, pure_apply]
        cases h4 : appel h (Op.formatDate (js "yyyy/MM/dd")) w3 with
        | err e w4 => rw [h4] at g4; exact Or.inl (suit_trans _ _ _ _ g13 g4)
        | ok u4 w4 =>
          rw [h4] at g4
          have g14 := suit_trans _ _ _ _ g13 g4
          simp only [ecrire, search, lireMonde, bind_apply, pure_apply]
          have g5 := garde_ecrire (fun op => opsPrelude op = true)
            (Ligne.recherche nomLibelle (requeteDe cfg nomLibelle
              (h.formatDate (ajouterJours_ h h.maintenant (-cfg.joursDeRecherche))
                (js "yyyy/MM/dd")))) w4
          simp only [ecrire, Res.monde] at g5
          have g15 := suit_trans _ _ _ _ g14 g5
          have g6 := garde_appel (fun op => opsPrelude op = true) h
              (Op.search (requeteDe cfg nomLibelle
              (h.formatDate (ajouterJours_ h h.maintenant (-cfg.joursDeRecherche))
                (js "yyyy/MM/dd")))) rfl
              { w4 with console := w4.console ++ [Ligne.recherche nomLibelle
                (requeteDe cfg nomLibelle
                  (h.formatDate (ajouterJours_ h h.maintenant (-cfg.joursDeRecherche))
                    (js "yyyy/MM/dd")))] }
          cases h6 : appel h (Op.search (requeteDe cfg nomLibelle
              (h.formatDate (ajouterJours_ h h.maintenant (-cfg.joursDeRecherche))
                (js "yyyy/MM/dd"))))
              { w4 with console := w4.console ++ [Ligne.recherche nomLibelle
                (requeteDe cfg nomLibelle
                  (h.formatDate (ajouterJours_ h h.maintenant (-cfg.joursDeRecherche))
                    (js "yyyy/MM/dd")))] } with
          | err e w6 => rw [h6] at g6; exact Or.inl (suit_trans _ _ _ _ g15 g6)
          | ok u6 w6 =>
            rw [h6] at g6
            have g16 := suit_trans _ _ _ _ g15 g6
            simp only
            split
            · exact Or.inl (suit_trans _ _ _ _ g16
                (garde_ecrire (fun op => opsPrelude op = true) Ligne.aucune w6))
            · have g7 := garde_dossierRacineDe _ cfg h hS w6
              simp only [bind_apply]
              cases h7 : dossierRacineDe cfg h w6 with
              | err e w7 => rw [h7] at g7; exact Or.inl (suit_trans _ _ _ _ g16 g7)
              | ok racine w7 =>
                rw [h7] at g7
                have g8 := garde_obtenirOuCreerSousDossier_ (fun op => opsPrelude op = true) h
                  racine nomLibelle rfl rfl w7
                simp only
                cases h8 : obtenirOuCreerSousDossier_ h racine nomLibelle w7 with
                | err e w8 =>
                  rw [h8] at g8
                  exact Or.inl (suit_trans _ _ _ _ g16 (suit_trans _ _ _ _ g7 g8))
                | ok d w8 =>
                  rw [h8] at g8
                  exact Or.inr ⟨w6, w8, _, libelle, libelleTraite, d, g16,
                    suit_trans _ _ _ _ g7 g8, rfl⟩

theorem garde_traiterMessage_lu (S : Op → Prop) (cfg : Config) (h : Hote)
    (nomLibelle libelle : JsString) (libelleTraite : Option JsString) (dossierLibelle : Nat)
    (fil : Fil) (message : Message) (hcfg : cfg.seulementNonLus = true)
    (hlu : message.nonLu = false) (hS1 : ∀ acces, S (Op.message acces message.id))
    (hS2 : S (Op.getProperty (cleMessageDe nomLibelle message.id))) :
    Garde (Suit S) (traiterMessage cfg h nomLibelle libelle libelleTraite dossierLibelle fil
      message) := by
  unfold traiterMessage
  refine garde_lier_acces S h _ _ _ _ (hS1 _) ?_
  dsimp only
  refine garde_lier S _ _ (garde_getProperty S h _ hS2) (fun _ => ?_)
  split
  · exact garde_pur S _
  · intro w
    have h1 := garde_appel S h (Op.message AccesMessage.isUnread message.id) (hS1 _) w
    simp only [estLu, hcfg, if_true, accesMessage, bind_apply, pure_apply, hlu]
    cases hw : appel h (Op.message AccesMessage.isUnread message.id) w with
    | ok a w1 =>
      rw [hw] at h1
      simpa using h1
    | err e w1 =>
      rw [hw] at h1
      exact h1

theorem cleMessageDe_inj (nomLibelle id1 id2 : JsString)
    (h : cleMessageDe nomLibelle id1 = cleMessageDe nomLibelle id2) : id1 = id2 := by
  unfold cleMessageDe at h
  exact List.append_cancel_left h

theorem traiterLibelle_suit (S : Op → Prop) (cfg : Config) (h : Hote)
    (nomLibelle : JsString) (w : Monde)
    (hrech : ∀ w1 w2 requete, w1.fils = w2.fils → h.recherche w1 requete = h.recherche w2 requete)
    (hpre : ∀ op, opsPrelude op = true → S op)
    (hfil : ∀ requete, ∀ f ∈ h.recherche w requete, S (Op.getMessages f.id) ∧
      ∀ m ∈ f.messages, ∀ libelle libelleTraite dossierLibelle,
        Garde (Suit S) (traiterMessage cfg h nomLibelle libelle libelleTraite dossierLibelle
          f m)) :
    Suit S w (traiterLibelle_ cfg h nomLibelle w).monde := by
  rcases traiterLibelle_forme cfg h nomLibelle w with hp | ⟨w0, w1, requete, libelle,
    libelleTraite, d, g0, g1, heq⟩
  · exact suit_mono _ S hpre _ _ hp
  · rw [heq]
    have hw0 : h.recherche w0 requete = h.recherche w requete :=
      hrech w0 w requete (suit_prelude_fils w w0 g0)
    rw [hw0]
    refine suit_trans S _ _ _ (suit_mono _ S hpre _ _ (suit_trans _ _ _ _ g0 g1)) ?_
    refine garde_pourChaque S _ _ (fun f hf => ?_) w1
    intro w2
    have hg := garde_appel S h (Op.getMessages f.id) (hfil requete f hf).1 w2
    simp only [traiterFil, getMessages, bind_apply, pure_apply]
    cases hw : appel h (Op.getMessages f.id) w2 with
    | ok a w3 =>
      rw [hw] at hg
      exact suit_trans S _ _ _ hg
        (garde_pourChaque S _ _ (fun m hm =>
          (hfil requete f hf).2 m hm libelle libelleTraite d) w3)
    | err e w3 =>
      rw [hw] at hg
      exact hg

/-- C10 (amended): in unread-only mode, for every message that is read wherever the
search returns it, a run of `traiterLibelle_` does not render it, does not write a
ProcessedRecord for it and leaves its entry of the property store as it was; and a
conversation all of whose messages are read is neither archived nor relabelled. (A
read message in a conversation that also has an unread message is archived with that
conversation.) The search is taken to depend on the conversations of the mailbox only. -/
theorem traiterLibelle_message_lu (cfg : Config) (h : Hote) (nomLibelle idMessage : JsString)
    (idFil : Nat) (w : Monde) (hcfg : cfg.seulementNonLus = true)
    (hrech : ∀ w1 w2 requete, w1.fils = w2.fils → h.recherche w1 requete = h.recherche w2 requete)
    (hlu : ∀ requete, ∀ f ∈ h.recherche w requete, ∀ m ∈ f.messages,
      m.id = idMessage → m.nonLu = false) :
    ∃ tr, (traiterLibelle_ cfg h nomLibelle w).monde.journal = w.journal ++ tr ∧
      Op.rendrePdf idMessage ∉ tr ∧
      (∀ v, Op.setProperty (cleMessageDe nomLibelle idMessage) v ∉ tr) ∧
      (traiterLibelle_ cfg h nomLibelle w).monde.proprietes.lookup
          (cleMessageDe nomLibelle idMessage) =
        w.proprietes.lookup (cleMessageDe nomLibelle idMessage) ∧
      ((∀ requete, ∀ f ∈ h.recherche w requete, f.id = idFil →
          ∀ m ∈ f.messages, m.nonLu = false) →
        Op.moveToArchive idFil ∉ tr ∧
        (∀ l, Op.addLabel idFil l ∉ tr ∧ Op.removeLabel idFil l ∉ tr) ∧
        (traiterLibelle_ cfg h nomLibelle w).monde.fils.filter (fun f => f.id = idFil) =
          w.fils.filter (fun f => f.id = idFil)) := by
  have hcle : ∀ (m : Message), m.id ≠ idMessage →
      cleMessageDe nomLibelle m.id ≠ cleMessageDe nomLibelle idMessage :=
    fun m hm e => hm (cleMessageDe_inj nomLibelle _ _ e)
  -- first pass: nothing is rendered or recorded for the message
  have p1 := traiterLibelle_suit
    (fun op => op ≠ Op.rendrePdf idMessage ∧
      ∀ v, op ≠ Op.setProperty (cleMessageDe nomLibelle idMessage) v)
    cfg h nomLibelle w hrech
    (by intro op hop; cases op <;> simp [opsPrelude] at hop <;> simp)
    (by
      intro requete f hf
      refine ⟨by simp, fun m hm libelle libelleTraite d => ?_⟩
      by_cases hid : m.id = idMessage
      · exact garde_traiterMessage_lu _ cfg h nomLibelle libelle libelleTraite d f m hcfg
          (hlu requete f hf m hm hid) (by simp) (by simp)
      · refine garde_traiterMessage _ cfg h nomLibelle libelle libelleTraite d f m ?_
        intro op hop
        cases op <;> simp [opsMessage] at hop <;> simp
        · rw [hop]; exact hid
        · intro e; rw [hop.1] at e; exact hcle m hid e)
  obtain ⟨tr, hj, hs, he⟩ := p1
  refine ⟨tr, hj, fun hmem => (hs _ hmem).1 rfl, fun v hmem => (hs _ hmem).2 v rfl, ?_, ?_⟩
  · rw [he.2.2.2.2.1]
    exact rejouer_lookup tr _ w (fun op hop => (hs op hop).2)
  · intro harch
    have p2 := traiterLibelle_suit (fun op => op.surFil idFil = false)
      cfg h nomLibelle w hrech
      (by intro op hop; cases op <;> simp [opsPrelude] at hop <;> simp [Op.surFil])
      (by
        intro requete f hf
        refine ⟨by simp [Op.surFil], fun m hm libelle libelleTraite d => ?_⟩
        by_cases hid : f.id = idFil
        · exact garde_traiterMessage_lu _ cfg h nomLibelle libelle libelleTraite d f m hcfg
            (harch requete f hf hid m hm) (by simp [Op.surFil]) (by simp [Op.surFil])
        · refine garde_traiterMessage _ cfg h nomLibelle libelle libelleTraite d f m ?_
          intro op hop
          cases op <;> simp [opsMessage] at hop <;> simp [Op.surFil]
          all_goals (rw [hop]; exact hid))
    obtain ⟨tr2, hj2, hs2, he2⟩ := p2
    have htr : tr2 = tr := List.append_cancel_left (hj2.symm.trans hj)
    subst htr
    refine ⟨fun hmem => ?_, fun l => ⟨fun hmem => ?_, fun hmem => ?_⟩, ?_⟩
    · simpa [Op.surFil] using hs2 _ hmem
    · simpa [Op.surFil] using hs2 _ hmem
    · simpa [Op.surFil] using hs2 _ hmem
    · rw [he2.2.1]
      exact rejouer_fils tr2 idFil w hs2

/-- C10, witness: the read message of the second conversation of `mondeDeux`. -/
theorem traiterLibelle_message_lu_witness :
    ∃ tr, (traiterLibelle_ configNonLus hoteSimple (js "PDF") mondeDeux).monde.journal =
        mondeDeux.journal ++ tr ∧
      Op.rendrePdf messageLu.id ∉ tr ∧
      (∀ v, Op.setProperty (cleMessageDe (js "PDF") messageLu.id) v ∉ tr) ∧
      (traiterLibelle_ configNonLus hoteSimple (js "PDF") mondeDeux).monde.proprietes.lookup
          (cleMessageDe (js "PDF") messageLu.id) =
        mondeDeux.proprietes.lookup (cleMessageDe (js "PDF") messageLu.id) ∧
      ((∀ requete, ∀ f ∈ hoteSimple.recherche mondeDeux requete, f.id = 2 →
          ∀ m ∈ f.messages, m.nonLu = false) →
        Op.moveToArchive 2 ∉ tr ∧
        (∀ l, Op.addLabel 2 l ∉ tr ∧ Op.removeLabel 2 l ∉ tr) ∧
        (traiterLibelle_ configNonLus hoteSimple (js "PDF") mondeDeux).monde.fils.filter
            (fun f => f.id = 2) =
          mondeDeux.fils.filter (fun f => f.id = 2)) :=
  traiterLibelle_message_lu configNonLus hoteSimple (js "PDF") messageLu.id 2 mondeDeux
    (by decide)
    (by
      intro w1 w2 requete hw
      simp only [hoteSimple, hw])
    (by
      intro requete f hf m hm hid
      have hf2 : f ∈ mondeDeux.fils := (List.mem_filter.mp hf).1
      simp only [mondeDeux, List.mem_cons, List.mem_singleton, List.not_mem_nil, or_false] at hf2
      rcases hf2 with rfl | rfl
      · simp only [List.mem_singleton] at hm
        subst hm
        exact absurd hid (by decide)
      · simp only [List.mem_singleton] at hm
        subst hm
        rfl)

theorem lier_ok {α β : Type} (m : M α) (f : α → M β) (w w' : Monde) (b : β) :
    (m >>= f) w = Res.ok b w' ↔ ∃ a w1, m w = Res.ok a w1 ∧ f a w1 = Res.ok b w' := by
  simp only [bind_apply]
  cases m w with
  | ok a w1 =>
    constructor
    · intro hf; exact ⟨a, w1, rfl, hf⟩
    · rintro ⟨a', w1', heq, hf⟩
      simp only [Res.ok.injEq] at heq
      rw [heq.1, heq.2]; exact hf
  | err e w1 => simp

theorem appel_ok_iff (h : Hote) (op : Op) (w w' : Monde) (u : Unit) :
    appel h op w = Res.ok u w' ↔
      h.panne w op = false ∧ w' = op.effet { w with journal := w.journal ++ [op] } := by
  unfold appel
  by_cases hp : h.panne w op = true
  · simp [hp]
  · simp only [hp, Bool.false_eq_true, if_false, Res.ok.injEq, true_and]
    simp only [Bool.not_eq_true] at hp
    simp [hp, eq_comm]

theorem gardeErreur_lier {α β : Type} (S : Op → Prop) (m : M α) (f : α → M β)
    (hm : Garde (Suit S) m) (hf : ∀ a, GardeErreur (Suit S) (f a)) :
    GardeErreur (Suit S) (m >>= f) := by
  intro w e w' herr
  have h1 := hm w
  simp only [bind_apply] at herr
  cases hmw : m w with
  | ok a w1 =>
    rw [hmw] at h1 herr
    exact suit_trans S _ _ _ h1 (hf a w1 e w' herr)
  | err e1 w1 =>
    rw [hmw] at h1 herr
    simp only [Res.err.injEq] at herr
    rw [← herr.2]
    exact h1

theorem garde_sauvegarderEtMarquer (S : Op → Prop) (cfg : Config) (h : Hote)
    (nomLibelle libelle : JsString) (libelleTraite : Option JsString) (dossierLibelle : Nat)
    (fil : Fil) (message : Message) (idMessage nomBase : JsString) (pdf : Blob)
    (hS : ∀ op, op.sansEcriture = true → S op) :
    Garde (Suit S) (sauvegarderEtMarquer cfg h nomLibelle libelle libelleTraite dossierLibelle
      fil message idMessage nomBase pdf) := by
  unfold sauvegarderEtMarquer
  refine garde_lier S _ _ (garde_createFile S h _ _ (hS _ rfl)) (fun _ => ?_)
  refine garde_lier S _ _ (garde_appel S h _ (hS _ rfl)) (fun _ => ?_)
  refine garde_lier S _ _ ?_ (fun _ => ?_)
  · split
    · exact garde_enregistrerPiecesJointes_ S h message _ _ (fun _ => hS _ rfl)
        (fun _ _ => hS _ rfl) (fun _ _ => hS _ rfl) (fun _ => hS _ rfl) (fun _ _ _ => hS _ rfl)
    · exact garde_pur S _
  refine garde_lier S _ _ (garde_marquer S h _ _ fil (fun _ => hS _ rfl) (fun _ => hS _ rfl))
    (fun _ => ?_)
  split
  · exact garde_appel S h _ (hS _ rfl)
  · exact garde_pur S _

theorem gardeErreur_exporterMessage (cfg : Config) (h : Hote)
    (nomLibelle libelle : JsString) (libelleTraite : Option JsString) (dossierLibelle : Nat)
    (fil : Fil) (message : Message) (idMessage cleMessage : JsString) :
    GardeErreur (Suit (fun op => op.sansEcriture = true))
      (exporterMessage cfg h nomLibelle libelle libelleTraite dossierLibelle fil message
        idMessage cleMessage) := by
  have hS : ∀ op : Op, op.sansEcriture = true → (fun op : Op => op.sansEcriture = true) op :=
    fun _ h => h
  unfold exporterMessage
  refine gardeErreur_lier _ _ _ (garde_convertirEmailEnPdf_ _ h message (fun _ => rfl)
    (fun _ => rfl) rfl) (fun pdf => ?_)
  refine gardeErreur_lier _ _ _ (garde_accesMessage _ h _ _ _ rfl) (fun _ => ?_)
  refine gardeErreur_lier _ _ _ (garde_accesMessage _ h _ _ _ rfl) (fun _ => ?_)
  refine gardeErreur_lier _ _ _ (garde_appel _ h _ rfl) (fun _ => ?_)
  dsimp only
  split
  · unfold enregistrerExport
    refine gardeErreur_lier _ _ _ (garde_sauvegarderEtMarquer _ cfg h nomLibelle libelle
      libelleTraite dossierLibelle fil message idMessage _ pdf hS) (fun _ => ?_)
    intro w e w' herr
    simp only [setProperty, ecrire, bind_apply, appel] at herr
    by_cases hp : h.panne w (Op.setProperty cleMessage (js "1")) = true
    · simp only [hp, if_true, Res.err.injEq] at herr
      rw [← herr.2]
      exact suit_refl _ w
    · simp [hp] at herr
  · intro w e w' herr
    simp [ecrire] at herr

theorem rejouer_proprietes (tr : List Op) (w : Monde)
    (h : ∀ op ∈ tr, op.sansEcriture = true) : (rejouer tr w).proprietes = w.proprietes := by
  induction tr generalizing w with
  | nil => rfl
  | cons op t ih =>
    simp only [rejouer, List.foldl_cons]
    have := ih (op.effet w) (fun o ho => h o (List.mem_cons_of_mem _ ho))
    simp only [rejouer] at this
    rw [this]
    have hop := h op (List.mem_cons_self _ _)
    cases op <;> simp [Op.sansEcriture] at hop <;> simp [Op.effet, modifierFil]

theorem suit_sansEcriture (w w' : Monde) (h : Suit (fun op => op.sansEcriture = true) w w') :
    w'.proprietes = w.proprietes ∧
      ∃ tr, w'.journal = w.journal ++ tr ∧ ∀ op ∈ tr, ∀ k v, op ≠ Op.setProperty k v := by
  obtain ⟨tr, hj, hs, he⟩ := h
  refine ⟨by rw [he.2.2.2.2.1]; exact rejouer_proprietes tr w hs, tr, hj, ?_⟩
  intro op hop k v heq
  have := hs op hop
  rw [heq] at this
  simp [Op.sansEcriture] at this

theorem effet_proprietes (op : Op) (w : Monde) (h : op.sansEcriture = true) :
    (op.effet w).proprietes = w.proprietes := by
  cases op <;> simp [Op.sansEcriture] at h <;> simp [Op.effet, modifierFil]

theorem marquer_ok (h : Hote) (libelle : JsString) (libelleTraite : Option JsString)
    (fil : Fil) (w w' : Monde) (hok : marquer h libelle libelleTraite fil w = Res.ok () w') :
    w'.journal = w.journal ++ journalMarquer libelle libelleTraite fil ∧
      w'.proprietes = w.proprietes := by
  cases libelleTraite with
  | none =>
    simp only [marquer, pure_apply, Res.ok.injEq, true_and] at hok
    subst hok
    simp [journalMarquer]
  | some marque =>
    simp only [marquer, addLabel, removeLabel, lier_ok, appel_ok_iff] at hok
    obtain ⟨_, w1, ⟨-, h1⟩, -, h2⟩ := hok
    subst h1 h2
    simp [journalMarquer, effet_journal, effet_proprietes, Op.sansEcriture]

theorem archiver_ok (cfg : Config) (h : Hote) (fil : Fil) (w w' : Monde)
    (hok : (if cfg.archiverConversation then moveToArchive h fil else pure ()) w =
      Res.ok () w') :
    w'.journal = w.journal ++ journalArchiver cfg fil ∧ w'.proprietes = w.proprietes := by
  by_cases hc : cfg.archiverConversation = true
  · simp only [hc, if_true, moveToArchive, appel_ok_iff] at hok
    rw [hok.2]
    simp [journalArchiver, hc, effet_journal, effet_proprietes, Op.sansEcriture]
  · simp only [hc, if_false, pure_apply, Res.ok.injEq, true_and, Bool.false_eq_true] at hok
    subst hok
    simp [journalArchiver, hc]

theorem sauvegarderEtMarquer_ok (cfg : Config) (h : Hote) (nomLibelle libelle : JsString)
    (libelleTraite : Option JsString) (dossierLibelle : Nat) (fil : Fil) (message : Message)
    (idMessage nomBase : JsString) (pdf : Blob) (w w' : Monde)
    (hok : sauvegarderEtMarquer cfg h nomLibelle libelle libelleTraite dossierLibelle fil
      message idMessage nomBase pdf w = Res.ok () w') :
    ∃ fichier trPieces,
      w'.journal = w.journal ++
        [Op.createFile dossierLibelle (nomBase ++ js ".pdf") pdf.octets,
          Op.setDescription fichier
            (descriptionDe nomLibelle idMessage)] ++
        trPieces ++ journalMarquer libelle libelleTraite fil ++ journalArchiver cfg fil ∧
      (∀ op ∈ trPieces, op.dePieces = true) ∧
      (if cfg.sauvegarderPiecesJointes then
        ∃ wa wb, enregistrerPiecesJointes_ h message dossierLibelle nomBase wa = Res.ok () wb ∧
          wa.journal = w.journal ++
            [Op.createFile dossierLibelle (nomBase ++ js ".pdf") pdf.octets,
              Op.setDescription fichier
                (descriptionDe nomLibelle idMessage)] ∧
          wb.journal = wa.journal ++ trPieces
       else trPieces = []) ∧
      w'.proprietes = w.proprietes ∧ fichier = w.prochainId := by
  simp only [sauvegarderEtMarquer, lier_ok, createFile, setDescription, lireMonde, pure_apply,
    Res.ok.injEq, appel_ok_iff] at hok
  obtain ⟨fichier, w2, ⟨_, _, ⟨rfl, rfl⟩, _, w1, ⟨-, hw1⟩, hf, rfl⟩, _, w3, ⟨-, hw3⟩,
    _, w4, hpj, _, w5, hm, ha⟩ := hok
  obtain ⟨hmj, hmp⟩ := marquer_ok h libelle libelleTraite fil w4 w5 hm
  obtain ⟨haj, hap⟩ := archiver_ok cfg h fil w5 w' ha
  have hw3j : w3.journal = w.journal ++
      [Op.createFile dossierLibelle (nomBase ++ js ".pdf") pdf.octets,
        Op.setDescription fichier
          (descriptionDe nomLibelle idMessage)] := by
    rw [hw3, hw1]; simp [effet_journal]
  have hw3p : w3.proprietes = w.proprietes := by
    rw [hw3, hw1]; simp [effet_proprietes, Op.sansEcriture]
  by_cases hc : cfg.sauvegarderPiecesJointes = true
  · simp only [hc, if_true] at hpj ⊢
    have hg := garde_enregistrerPiecesJointes_ (fun op => op.dePieces = true) h message
      dossierLibelle nomBase (fun _ => rfl) (fun _ _ => rfl) (fun _ _ => rfl) (fun _ => rfl)
      (fun _ _ _ => rfl) w3
    rw [hpj] at hg
    have hg2 := suit_mono _ (fun op => op.sansEcriture = true)
      (fun op hop => by cases op <;> simp [Op.dePieces] at hop <;> rfl) _ _ hg
    obtain ⟨hp4, -⟩ := suit_sansEcriture _ _ hg2
    obtain ⟨tr, hj4, hs4⟩ := suit_journal _ _ _ hg
    simp only [Res.monde] at hp4 hj4
    refine ⟨fichier, tr, ?_, hs4, ⟨w3, w4, hpj, hw3j, hj4⟩, ?_, hf.symm⟩
    · rw [haj, hmj, hj4, hw3j]
    · rw [hap, hmp, hp4, hw3p]
  · simp only [hc, if_false, pure_apply, Res.ok.injEq, true_and, Bool.false_eq_true] at hpj ⊢
    subst hpj
    refine ⟨fichier, [], ?_, by simp, rfl, ?_, hf.symm⟩
    · rw [haj, hmj, hw3j]; simp
    · rw [hap, hmp, hw3p]

theorem exporterMessage_forme (cfg : Config) (h : Hote) (nomLibelle libelle : JsString)
    (libelleTraite : Option JsString) (dossierLibelle : Nat) (fil : Fil) (message : Message)
    (idMessage cleMessage : JsString) (w0 w1 : Monde) (hsim : cfg.modeSimulation = false)
    (hok : exporterMessage cfg h nomLibelle libelle libelleTraite dossierLibelle fil message
        idMessage cleMessage w0 = Res.ok () w1) :
    ∃ nomBase octets fichier trLecture trPieces,
      w1.journal = w0.journal ++ trLecture ++
        [Op.createFile dossierLibelle (nomBase ++ js ".pdf") octets,
          Op.setDescription fichier (descriptionDe nomLibelle idMessage)] ++
        trPieces ++ journalMarquer libelle libelleTraite fil ++ journalArchiver cfg fil ++
        [Op.setProperty cleMessage (js "1")] ∧
      (∀ op ∈ trLecture, op.mutante = false) ∧
      (∀ op ∈ trPieces, op.dePieces = true) ∧
      (if cfg.sauvegarderPiecesJointes then
        ∃ wa wb, enregistrerPiecesJointes_ h message dossierLibelle nomBase wa =
            Res.ok () wb ∧
          wa.journal = w0.journal ++ trLecture ++
            [Op.createFile dossierLibelle (nomBase ++ js ".pdf") octets,
              Op.setDescription fichier (descriptionDe nomLibelle idMessage)] ∧
          wb.journal = wa.journal ++ trPieces
       else trPieces = []) ∧
      w1.proprietes =
        (cleMessage, js "1") :: w0.proprietes.filter (fun e => e.1 ≠ cleMessage) ∧
      fichier = w0.prochainId := by
  simp only [exporterMessage, enregistrerExport, hsim, Bool.not_false, if_true, lier_ok,
    accesMessage, setProperty, appel_ok_iff, pure_apply, Res.ok.injEq, ecrire] at hok
  obtain ⟨pdf, wc, hconv, sujetLu, w2, ⟨_, _, ⟨-, rfl⟩, rfl, rfl⟩, dateMessage, w3,
    ⟨_, _, ⟨-, rfl⟩, rfl, rfl⟩, _, w4, ⟨-, hw4⟩, _, w5, hsauve, _, w6, ⟨-, hw6⟩, -, hw1⟩ :=
    hok
  have hg := garde_convertirEmailEnPdf_ (fun op => op.mutante = false) h message
    (fun _ => rfl) (fun _ => rfl) rfl w0
  rw [hconv] at hg
  obtain ⟨trc, hjc, hsc, hec⟩ := hg
  simp only [Res.monde] at hjc hec
  have hpc : wc.proprietes = w0.proprietes := by
    rw [hec.2.2.2.2.1]
    exact rejouer_proprietes trc w0 (fun op hop => by
      have := hsc op hop
      cases op <;> simp [Op.mutante] at this <;> rfl)
  obtain ⟨fichier, trPieces, hj5, hs5, hpj, hp5, hfich⟩ := sauvegarderEtMarquer_ok cfg h
    nomLibelle libelle libelleTraite dossierLibelle fil message idMessage _ pdf w4 w5 hsauve
  have hn4 : w4.prochainId = w0.prochainId := by
    rw [hw4]
    simp only [Op.effet]
    rw [hec.2.2.2.2.2, rejouer_lecture trc w0 hsc]
  have hj4 : w4.journal = w0.journal ++ (trc ++
      [Op.message AccesMessage.getSubject message.id,
        Op.message AccesMessage.getDate message.id,
        Op.formatDate (js "yyyy-MM-dd_HH-mm")]) := by
    rw [hw4]; simp [Op.effet, hjc]
  have hp4 : w4.proprietes = w0.proprietes := by
    rw [hw4]; simp [Op.effet, hpc]
  refine ⟨h.formatDate message.date (js "yyyy-MM-dd_HH-mm") ++ js " - " ++
      nettoyerNomFichier_ (if estVrai message.sujet then message.sujet else js "Sans sujet") ++
      js " - " ++ substring0 8 idMessage, pdf.octets, fichier, trc ++
      [Op.message AccesMessage.getSubject message.id,
        Op.message AccesMessage.getDate message.id,
        Op.formatDate (js "yyyy-MM-dd_HH-mm")], trPieces, ?_, ?_, hs5, ?_, ?_,
      hfich.trans hn4⟩
  · rw [← hw1, hw6]
    simp only [Op.effet]
    rw [hj5, hj4]
  · intro op hop
    rcases List.mem_append.mp hop with hmem | hmem
    · exact hsc op hmem
    · simp only [List.mem_cons, List.mem_singleton, List.not_mem_nil, or_false] at hmem
      rcases hmem with rfl | rfl | rfl <;> rfl
  · by_cases hc : cfg.sauvegarderPiecesJointes = true
    · simp only [hc, if_true] at hpj ⊢
      obtain ⟨wa, wb, hpj1, hja, hjb⟩ := hpj
      exact ⟨wa, wb, hpj1, by rw [hja, hj4], hjb⟩
    · simp only [hc, if_false, Bool.false_eq_true] at hpj ⊢
      exact hpj
  · rw [← hw1, hw6]
    simp only [Op.effet]
    rw [hp5, hp4]

/-- C5: in the `try` block of `traiterLibelle_` with simulation mode off, when a step
throws, no ProcessedRecord has been written and the property store is as it was; when
the block returns, the journal of the run shows, in this order, calls that write
nothing, the PDF file created and described, the calls of the attachment save (which
returned, when it is enabled), the marker label added and the label removed (when
there is a marker label), the archive call (when enabled) and, as the last host call,
the write of the ProcessedRecord. -/
theorem exporterMessage_ordre (cfg : Config) (h : Hote) (nomLibelle libelle : JsString)
    (libelleTraite : Option JsString) (dossierLibelle : Nat) (fil : Fil) (message : Message)
    (idMessage cleMessage : JsString) (w0 : Monde) (hsim : cfg.modeSimulation = false) :
    (∀ e w1, exporterMessage cfg h nomLibelle libelle libelleTraite dossierLibelle fil message
        idMessage cleMessage w0 = Res.err e w1 →
      w1.proprietes = w0.proprietes ∧
        ∃ tr, w1.journal = w0.journal ++ tr ∧ ∀ op ∈ tr, ∀ k v, op ≠ Op.setProperty k v) ∧
    (∀ w1, exporterMessage cfg h nomLibelle libelle libelleTraite dossierLibelle fil message
        idMessage cleMessage w0 = Res.ok () w1 →
      ∃ nomBase octets fichier trLecture trPieces,
        w1.journal = w0.journal ++ trLecture ++
          [Op.createFile dossierLibelle (nomBase ++ js ".pdf") octets,
            Op.setDescription fichier
              (descriptionDe nomLibelle idMessage)] ++
          trPieces ++ journalMarquer libelle libelleTraite fil ++ journalArchiver cfg fil ++
          [Op.setProperty cleMessage (js "1")] ∧
        (∀ op ∈ trLecture, op.mutante = false) ∧
        (∀ op ∈ trPieces, ∀ k v, op ≠ Op.setProperty k v) ∧
        (if cfg.sauvegarderPiecesJointes then
          ∃ wa wb, enregistrerPiecesJointes_ h message dossierLibelle nomBase wa =
              Res.ok () wb ∧
            wa.journal = w0.journal ++ trLecture ++
              [Op.createFile dossierLibelle (nomBase ++ js ".pdf") octets,
                Op.setDescription fichier
                  (descriptionDe nomLibelle idMessage)] ∧
            wb.journal = wa.journal ++ trPieces
         else trPieces = []) ∧
        w1.proprietes =
          (cleMessage, js "1") :: w0.proprietes.filter (fun e => e.1 ≠ cleMessage)) := by
  refine ⟨?_, ?_⟩
  · intro e w1 herr
    exact suit_sansEcriture _ _
      (gardeErreur_exporterMessage cfg h nomLibelle libelle libelleTraite dossierLibelle fil
        message idMessage cleMessage w0 e w1 herr)
  · intro w1 hok
    obtain ⟨nomBase, octets, fichier, trLecture, trPieces, hj, hl, hp, hpj, hpr, -⟩ :=
      exporterMessage_forme cfg h nomLibelle libelle libelleTraite dossierLibelle fil message
        idMessage cleMessage w0 w1 hsim hok
    refine ⟨nomBase, octets, fichier, trLecture, trPieces, hj, hl, ?_, hpj, hpr⟩
    intro op hop k v heq
    have := hp op hop
    rw [heq] at this
    simp [Op.dePieces] at this

/-- C5, witness: the unread message of `mondePdf`, with the configuration of the source. -/
theorem exporterMessage_ordre_witness :
    (∀ e w1, exporterMessage configSource hoteSimple (js "PDF") (js "PDF")
        (some (js "PDF/Traité")) 1 ⟨1, [js "PDF"], false, [messageNonLu, messageLu]⟩
        messageNonLu messageNonLu.id (cleMessageDe (js "PDF") messageNonLu.id) mondePdf =
          Res.err e w1 →
      w1.proprietes = mondePdf.proprietes ∧
        ∃ tr, w1.journal = mondePdf.journal ++ tr ∧
          ∀ op ∈ tr, ∀ k v, op ≠ Op.setProperty k v) ∧
    (∀ w1, exporterMessage configSource hoteSimple (js "PDF") (js "PDF")
        (some (js "PDF/Traité")) 1 ⟨1, [js "PDF"], false, [messageNonLu, messageLu]⟩
        messageNonLu messageNonLu.id (cleMessageDe (js "PDF") messageNonLu.id) mondePdf =
          Res.ok () w1 →
      ∃ nomBase octets fichier trLecture trPieces,
        w1.journal = mondePdf.journal ++ trLecture ++
          [Op.createFile 1 (nomBase ++ js ".pdf") octets,
            Op.setDescription fichier
              (descriptionDe (js "PDF") messageNonLu.id)] ++
          trPieces ++
          journalMarquer (js "PDF") (some (js "PDF/Traité"))
            ⟨1, [js "PDF"], false, [messageNonLu, messageLu]⟩ ++
          journalArchiver configSource ⟨1, [js "PDF"], false, [messageNonLu, messageLu]⟩ ++
          [Op.setProperty (cleMessageDe (js "PDF") messageNonLu.id) (js "1")] ∧
        (∀ op ∈ trLecture, op.mutante = false) ∧
        (∀ op ∈ trPieces, ∀ k v, op ≠ Op.setProperty k v) ∧
        (if configSource.sauvegarderPiecesJointes then
          ∃ wa wb, enregistrerPiecesJointes_ hoteSimple messageNonLu 1 nomBase wa =
              Res.ok () wb ∧
            wa.journal = mondePdf.journal ++ trLecture ++
              [Op.createFile 1 (nomBase ++ js ".pdf") octets,
                Op.setDescription fichier
                  (descriptionDe (js "PDF") messageNonLu.id)] ∧
            wb.journal = wa.journal ++ trPieces
         else trPieces = []) ∧
        w1.proprietes =
          (cleMessageDe (js "PDF") messageNonLu.id, js "1") ::
            mondePdf.proprietes.filter
              (fun e => e.1 ≠ cleMessageDe (js "PDF") messageNonLu.id)) :=
  exporterMessage_ordre configSource hoteSimple (js "PDF") (js "PDF") (some (js "PDF/Traité")) 1
    ⟨1, [js "PDF"], false, [messageNonLu, messageLu]⟩ messageNonLu messageNonLu.id
    (cleMessageDe (js "PDF") messageNonLu.id) mondePdf (by decide)

/-- C3, counterexample: with the labels `PDF/Traité` and `PDF` configured in this order
and the sub-label `Traité`, the first run exports the message under `PDF` and moves its
conversation to `PDF/Traité`; the second run finds it there and exports it again: after
two runs there are two PDF files and two ProcessedRecords for the one message, and the
second run has created a folder and a file. -/
theorem executer_contre_exemple_marque :
    configMarque.modeSimulation = false ∧
    (∀ w op, hoteSimple.panne w op = false) ∧
    ((executer configMarque hoteSimple mondeUn).monde.fichiers.map Fichier.description =
      [descriptionDe (js "PDF") messageNonLu.id]) ∧
    ((executer configMarque hoteSimple
        (executer configMarque hoteSimple mondeUn).monde).monde.fichiers.map
        Fichier.description =
      [descriptionDe (js "PDF") messageNonLu.id,
        descriptionDe (js "PDF/Traité") messageNonLu.id]) ∧
    ((executer configMarque hoteSimple
        (executer configMarque hoteSimple mondeUn).monde).monde.proprietes.map Prod.fst =
      [cleMessageDe (js "PDF/Traité") messageNonLu.id,
        cleMessageDe (js "PDF") messageNonLu.id]) ∧
    Op.createFolder 0 (js "PDF/Traité") ∈
      ((executer configMarque hoteSimple
        (executer configMarque hoteSimple mondeUn).monde).monde.journal.drop
        (executer configMarque hoteSimple mondeUn).monde.journal.length) := by
  refine ⟨by decide, fun _ _ => rfl, by decide!, by decide!, by decide!, by decide!⟩

theorem effet_libelles (op : Op) (w : Monde) (l : JsString) (h : l ∈ w.libelles) :
    l ∈ (op.effet w).libelles := by
  cases op <;> simp [Op.effet, modifierFil, h]

theorem rejouer_libelles (tr : List Op) (w : Monde) (l : JsString) (h : l ∈ w.libelles) :
    l ∈ (rejouer tr w).libelles := by
  induction tr generalizing w with
  | nil => exact h
  | cons op t ih => exact ih (op.effet w) (effet_libelles op w l h)

theorem effet_dossiers (op : Op) (w : Monde) (d : Dossier) (h : d ∈ w.dossiers) :
    d ∈ (op.effet w).dossiers := by
  cases op <;> simp [Op.effet, modifierFil, h]

theorem rejouer_dossiers (tr : List Op) (w : Monde) (d : Dossier) (h : d ∈ w.dossiers) :
    d ∈ (rejouer tr w).dossiers := by
  induction tr generalizing w with
  | nil => exact h
  | cons op t ih => exact ih (op.effet w) (effet_dossiers op w d h)

theorem effet_messages (op : Op) (w : Monde) :
    (op.effet w).fils.map Fil.messages = w.fils.map Fil.messages := by
  cases op <;> simp [Op.effet, modifierFil, List.map_map] <;>
    (intro f _; split <;> rfl)

theorem rejouer_messages (tr : List Op) (w : Monde) :
    (rejouer tr w).fils.map Fil.messages = w.fils.map Fil.messages := by
  induction tr generalizing w with
  | nil => rfl
  | cons op t ih =>
    have := ih (op.effet w)
    simp only [rejouer, List.foldl_cons] at this ⊢
    rw [this, effet_messages]

theorem suit_libelles (S : Op → Prop) (w w' : Monde) (h : Suit S w w') (l : JsString)
    (hl : l ∈ w.libelles) : l ∈ w'.libelles := by
  obtain ⟨tr, -, -, he⟩ := h
  rw [he.1]; exact rejouer_libelles tr w l hl

theorem suit_dossiers (S : Op → Prop) (w w' : Monde) (h : Suit S w w') (d : Dossier)
    (hd : d ∈ w.dossiers) : d ∈ w'.dossiers := by
  obtain ⟨tr, -, -, he⟩ := h
  rw [he.2.2.1]; exact rejouer_dossiers tr w d hd

theorem suit_messages (S : Op → Prop) (w w' : Monde) (h : Suit S w w') :
    w'.fils.map Fil.messages = w.fils.map Fil.messages := by
  obtain ⟨tr, -, -, he⟩ := h
  rw [he.2.1]; exact rejouer_messages tr w

theorem mem_modifierFil (id : Nat) (g : Fil → Fil) (w : Monde) (f' : Fil) :
    f' ∈ (modifierFil id g w).fils ↔
      ∃ f ∈ w.fils, f' = if f.id = id then g f else f := by
  simp only [modifierFil, List.mem_map]
  constructor
  · rintro ⟨f, hf, rfl⟩; exact ⟨f, hf, rfl⟩
  · rintro ⟨f, hf, rfl⟩; exact ⟨f, hf, rfl⟩

theorem effet_apres (op : Op) (w : Monde) (l : JsString)
    (h : ∀ id, op ≠ Op.removeLabel id l) (f : Fil) (hf : f ∈ w.fils) (hl : l ∈ f.libelles) :
    ∃ f' ∈ (op.effet w).fils, f'.messages = f.messages ∧ l ∈ f'.libelles := by
  cases op with
  | addLabel id lab =>
    simp only [Op.effet]
    refine ⟨_, (mem_modifierFil _ _ _ _).mpr ⟨f, hf, rfl⟩, ?_, ?_⟩
    · split <;> rfl
    · split
      · dsimp only; split
        · exact hl
        · exact List.mem_append_left _ hl
      · exact hl
  | removeLabel id lab =>
    have hne : l ≠ lab := fun e => h id (by rw [e])
    simp only [Op.effet]
    refine ⟨_, (mem_modifierFil _ _ _ _).mpr ⟨f, hf, rfl⟩, ?_, ?_⟩
    · split <;> rfl
    · split
      · simp only [List.mem_filter, decide_eq_true_eq]
        exact ⟨hl, hne⟩
      · exact hl
  | moveToArchive id =>
    simp only [Op.effet]
    refine ⟨_, (mem_modifierFil _ _ _ _).mpr ⟨f, hf, rfl⟩, ?_, ?_⟩
    · split <;> rfl
    · split
      · exact hl
      · exact hl
  | _ => exact ⟨f, by simpa [Op.effet] using hf, rfl, hl⟩

theorem rejouer_apres (tr : List Op) (w : Monde) (l : JsString)
    (h : ∀ op ∈ tr, ∀ id, op ≠ Op.removeLabel id l) (f : Fil) (hf : f ∈ w.fils)
    (hl : l ∈ f.libelles) :
    ∃ f' ∈ (rejouer tr w).fils, f'.messages = f.messages ∧ l ∈ f'.libelles := by
  induction tr generalizing w f with
  | nil => exact ⟨f, hf, rfl, hl⟩
  | cons op t ih =>
    obtain ⟨f1, hf1, hm1, hl1⟩ := effet_apres op w l (h op (List.mem_cons_self _ _)) f hf hl
    obtain ⟨f2, hf2, hm2, hl2⟩ := ih (op.effet w)
      (fun o ho => h o (List.mem_cons_of_mem _ ho)) f1 hf1 hl1
    exact ⟨f2, hf2, hm2.trans hm1, hl2⟩

theorem effet_avant (op : Op) (w : Monde) (l : JsString)
    (h : ∀ id, op ≠ Op.addLabel id l) (f' : Fil) (hf : f' ∈ (op.effet w).fils)
    (hl : l ∈ f'.libelles) :
    ∃ f ∈ w.fils, f.messages = f'.messages ∧ l ∈ f.libelles := by
  cases op with
  | addLabel id lab =>
    have hne : l ≠ lab := fun e => h id (by rw [e])
    simp only [Op.effet] at hf
    obtain ⟨f, hf0, rfl⟩ := (mem_modifierFil _ _ _ _).mp hf
    refine ⟨f, hf0, ?_, ?_⟩
    · split <;> rfl
    · split at hl
      · dsimp only at hl
        split at hl
        · exact hl
        · rcases List.mem_append.mp hl with h1 | h1
          · exact h1
          · simp only [List.mem_singleton] at h1
            exact absurd h1 hne
      · exact hl
  | removeLabel id lab =>
    simp only [Op.effet] at hf
    obtain ⟨f, hf0, rfl⟩ := (mem_modifierFil _ _ _ _).mp hf
    refine ⟨f, hf0, ?_, ?_⟩
    · split <;> rfl
    · split at hl
      · exact (List.mem_filter.mp hl).1
      · exact hl
  | moveToArchive id =>
    simp only [Op.effet] at hf
    obtain ⟨f, hf0, rfl⟩ := (mem_modifierFil _ _ _ _).mp hf
    refine ⟨f, hf0, ?_, ?_⟩
    · split <;> rfl
    · split at hl
      · exact hl
      · exact hl
  | _ => exact ⟨f', by simpa [Op.effet] using hf, rfl, hl⟩

theorem rejouer_avant (tr : List Op) (w : Monde) (l : JsString)
    (h : ∀ op ∈ tr, ∀ id, op ≠ Op.addLabel id l) (f' : Fil) (hf : f' ∈ (rejouer tr w).fils)
    (hl : l ∈ f'.libelles) :
    ∃ f ∈ w.fils, f.messages = f'.messages ∧ l ∈ f.libelles := by
  induction tr generalizing w with
  | nil => exact ⟨f', hf, rfl, hl⟩
  | cons op t ih =>
    obtain ⟨f1, hf1, hm1, hl1⟩ := ih (op.effet w)
      (fun o ho => h o (List.mem_cons_of_mem _ ho)) hf
    obtain ⟨f0, hf0, hm0, hl0⟩ := effet_avant op w l (h op (List.mem_cons_self _ _)) f1 hf1 hl1
    exact ⟨f0, hf0, hm0.trans hm1, hl0⟩

theorem effet_enregistre (op : Op) (w : Monde) (k : JsString)
    (h : ∀ k' v, op = Op.setProperty k' v → v = js "1") (hk : enregistre w k = true) :
    enregistre (op.effet w) k = true := by
  by_cases hop : ∃ v, op = Op.setProperty k v
  · obtain ⟨v, rfl⟩ := hop
    have hv := h k v rfl
    subst hv
    simp [enregistre, Op.effet, List.lookup_cons, estVrai, js]
  · unfold enregistre at hk ⊢
    rw [effet_lookup op k w (fun v e => hop ⟨v, e⟩)]
    exact hk

theorem rejouer_enregistre (tr : List Op) (w : Monde) (k : JsString)
    (h : ∀ op ∈ tr, ∀ k' v, op = Op.setProperty k' v → v = js "1")
    (hk : enregistre w k = true) : enregistre (rejouer tr w) k = true := by
  induction tr generalizing w with
  | nil => exact hk
  | cons op t ih =>
    exact ih (op.effet w) (fun o ho => h o (List.mem_cons_of_mem _ ho))
      (effet_enregistre op w k (h op (List.mem_cons_self _ _)) hk)

theorem ecritCle_iff (op : Op) (k : JsString) :
    op.ecritCle k = true ↔ ∃ v, op = Op.setProperty k v := by
  cases op <;> simp [Op.ecritCle]

theorem rejouer_sans_ecritCle (tr : List Op) (w : Monde) (k : JsString)
    (h : tr.countP (Op.ecritCle k) = 0) :
    (rejouer tr w).proprietes.lookup k = w.proprietes.lookup k := by
  apply rejouer_lookup
  intro op hop v heq
  have := List.countP_eq_zero.mp h op hop
  rw [heq] at this
  simp [Op.ecritCle] at this

theorem filter_cle_filter_ne (k k' : JsString) (l : List (JsString × JsString))
    (hk : k' ≠ k) :
    (l.filter (fun e => e.1 ≠ k')).filter (fun e => e.1 = k) = l.filter (fun e => e.1 = k) := by
  rw [List.filter_filter]
  apply List.filter_congr
  intro e _
  by_cases he : e.1 = k
  · have : e.1 ≠ k' := fun e2 => hk (e2.symm.trans he)
    have h2 : ¬ k = k' := fun e2 => hk e2.symm
    simp [he, h2]
  · simp [he]

theorem effet_filtre_cle (op : Op) (w : Monde) (k : JsString)
    (h : op.ecritCle k = false) :
    (op.effet w).proprietes.filter (fun e => e.1 = k) =
      w.proprietes.filter (fun e => e.1 = k) := by
  cases op <;> try (simp [Op.effet, modifierFil]; done)
  rename_i k' v
  simp only [Op.ecritCle, decide_eq_false_iff_not] at h
  simp only [Op.effet, List.filter_cons, h, decide_False, Bool.false_eq_true, if_false]
  exact filter_cle_filter_ne k k' _ h

theorem rejouer_filtre_cle (tr : List Op) (w : Monde) (k : JsString)
    (h : ∀ op ∈ tr, op.ecritCle k = false) :
    (rejouer tr w).proprietes.filter (fun e => e.1 = k) =
      w.proprietes.filter (fun e => e.1 = k) := by
  induction tr generalizing w with
  | nil => rfl
  | cons op t ih =>
    have := ih (op.effet w) (fun o ho => h o (List.mem_cons_of_mem _ ho))
    simp only [rejouer, List.foldl_cons] at this ⊢
    rw [this]
    exact effet_filtre_cle op w k (h op (List.mem_cons_self _ _))

theorem rejouer_ecrit (tr : List Op) (w : Monde) (k : JsString)
    (h : ∀ op ∈ tr, ∀ k' v, op = Op.setProperty k' v → v = js "1")
    (hc : 0 < tr.countP (Op.ecritCle k)) :
    (rejouer tr w).proprietes.filter (fun e => e.1 = k) = [(k, js "1")] := by
  induction tr generalizing w with
  | nil => simp at hc
  | cons op t ih =>
    by_cases ht : 0 < t.countP (Op.ecritCle k)
    · exact ih (op.effet w) (fun o ho => h o (List.mem_cons_of_mem _ ho)) ht
    · have ht0 : ∀ o ∈ t, o.ecritCle k = false := by
        intro o ho
        have := List.countP_eq_zero.mp (by omega : t.countP (Op.ecritCle k) = 0) o ho
        simpa using this
      have hop : op.ecritCle k = true := by
        by_contra hne
        rw [List.countP_cons_of_neg _ _ hne] at hc
        exact ht hc
      obtain ⟨v, rfl⟩ := (ecritCle_iff op k).mp hop
      have hv := h _ (List.mem_cons_self _ _) k v rfl
      subst hv
      have := rejouer_filtre_cle t ((Op.setProperty k (js "1")).effet w) k ht0
      simp only [rejouer, List.foldl_cons] at this ⊢
      rw [this]
      simp [Op.effet, List.filter_cons, List.filter_filter]

theorem opsCours_valeur (cfg : Config) (ls : List JsString) (tr : List Op)
    (h : ∀ op ∈ tr, opsCours cfg ls op) :
    ∀ op ∈ tr, ∀ k' v, op = Op.setProperty k' v → v = js "1" := by
  intro op hop k' v heq
  have := h op hop
  rw [heq] at this
  exact this

theorem rejouer_ecrit_enregistre (tr : List Op) (w : Monde) (k : JsString)
    (h : ∀ op ∈ tr, ∀ k' v, op = Op.setProperty k' v → v = js "1")
    (hc : 0 < tr.countP (Op.ecritCle k)) : enregistre (rejouer tr w) k = true := by
  induction tr generalizing w with
  | nil => simp at hc
  | cons op t ih =>
    by_cases hop : op.ecritCle k = true
    · obtain ⟨v, rfl⟩ := (ecritCle_iff op k).mp hop
      have hv := h _ (List.mem_cons_self _ _) k v rfl
      subst hv
      apply rejouer_enregistre t _ k (fun o ho => h o (List.mem_cons_of_mem _ ho))
      simp [enregistre, Op.effet, List.lookup_cons, estVrai, js]
    · rw [List.countP_cons_of_neg _ _ hop] at hc
      exact ih (op.effet w) (fun o ho => h o (List.mem_cons_of_mem _ ho)) hc

theorem memeEtat_enregistre (w w' : Monde) (h : memeEtat w w') (k : JsString) :
    enregistre w' k = enregistre w k := by
  unfold enregistre
  rw [h.2.2.2.2.1]

theorem sansDescription_decrit (op : Op) (d : JsString) (h : op.sansDescription = true) :
    op.decrit d = false := by
  cases op <;> simp [Op.sansDescription] at h <;> rfl

theorem effet_range (op : Op) (w : Monde) (h : Range w) : Range (op.effet w) := by
  cases op <;> try exact h
  · intro x hx
    have := h x hx
    simp only [Op.effet]; omega
  · intro x hx
    simp only [Op.effet, List.mem_append, List.mem_singleton] at hx ⊢
    rcases hx with hx | rfl
    · have := h x hx; omega
    · simp
  · intro x hx
    simp only [Op.effet, List.mem_map] at hx ⊢
    obtain ⟨y, hy, rfl⟩ := hx
    have := h y hy
    split <;> exact this

theorem effet_nombre (op : Op) (w : Monde) (d : JsString) (hd : d ≠ [])
    (h : op.sansDescription = true) : nombreDe d (op.effet w) = nombreDe d w := by
  cases op <;> simp [Op.sansDescription] at h <;> try rfl
  simp only [nombreDe, Op.effet, List.countP_append, List.countP_cons, List.countP_nil]
  have : ¬ ([] : JsString) = d := fun e => hd e.symm
  simp [this]

theorem rejouer_nombre (tr : List Op) (w : Monde) (d : JsString) (hd : d ≠ [])
    (h : ∀ op ∈ tr, op.sansDescription = true) (hr : Range w) :
    Range (rejouer tr w) ∧ nombreDe d (rejouer tr w) = nombreDe d w := by
  induction tr generalizing w with
  | nil => exact ⟨hr, rfl⟩
  | cons op t ih =>
    obtain ⟨h1, h2⟩ := ih (op.effet w) (fun o ho => h o (List.mem_cons_of_mem _ ho))
      (effet_range op w hr)
    refine ⟨h1, ?_⟩
    simp only [rejouer, List.foldl_cons] at h2 ⊢
    rw [h2]
    exact effet_nombre op w d hd (h op (List.mem_cons_self _ _))

theorem countP_map_neuf (l : List Fichier) (n : Nat) (t d : JsString)
    (h : ∀ x ∈ l, x.id < n) :
    (l.map (fun f => if f.id = n then { f with description := t } else f)).countP
      (fun x => x.description = d) = l.countP (fun x => x.description = d) := by
  have : l.map (fun f => if f.id = n then { f with description := t } else f) = l := by
    conv_rhs => rw [← List.map_id l]
    apply List.map_congr_left
    intro x hx
    have := h x hx
    have hne : ¬ x.id = n := by omega
    simp [hne]
  rw [this]

theorem effet_paire (w : Monde) (dossier : Nat) (nom : JsString) (octets : List Nat)
    (t d : JsString) (hr : Range w) :
    Range (rejouer [Op.createFile dossier nom octets, Op.setDescription w.prochainId t] w) ∧
      nombreDe d (rejouer [Op.createFile dossier nom octets,
        Op.setDescription w.prochainId t] w) =
        nombreDe d w + [Op.createFile dossier nom octets,
          Op.setDescription w.prochainId t].countP (Op.decrit d) := by
  refine ⟨effet_range (Op.setDescription w.prochainId t) _
    (effet_range (Op.createFile dossier nom octets) _ hr), ?_⟩
  simp only [rejouer, List.foldl_cons, List.foldl_nil, Op.effet, nombreDe, List.map_append,
    List.countP_append, List.map_cons, List.map_nil, if_true, List.countP_cons,
    List.countP_nil, Op.decrit]
  rw [countP_map_neuf w.fichiers w.prochainId t d hr]
  simp

theorem memeEtat_range (a b : Monde) (h : memeEtat a b) (hr : Range a) : Range b := by
  unfold Range at hr ⊢
  rw [h.2.2.2.1, h.2.2.2.2.2]
  exact hr

theorem memeEtat_nombre (a b : Monde) (h : memeEtat a b) (d : JsString) :
    nombreDe d b = nombreDe d a := by
  unfold nombreDe
  rw [h.2.2.2.1]

theorem cours_refl (cfg : Config) (ls : List JsString) (k d : JsString) (w : Monde) :
    Cours cfg ls k d w w :=
  ⟨[], by simp, memeEtat_refl w, by simp, by simp, by simp, by simp,
    fun _ hr => ⟨hr, by simp⟩⟩

theorem cours_trans (cfg : Config) (ls : List JsString) (k d : JsString) (a b c : Monde)
    (h1 : Cours cfg ls k d a b) (h2 : Cours cfg ls k d b c) : Cours cfg ls k d a c := by
  obtain ⟨t1, hj1, he1, hs1, hd1, hr1, hn1, hf1⟩ := h1
  obtain ⟨t2, hj2, he2, hs2, hd2, hr2, hn2, hf2⟩ := h2
  have hb : 0 < t1.countP (Op.ecritCle k) → t2.countP (Op.ecritCle k) = 0 := by
    intro hpos
    apply hr2
    rw [memeEtat_enregistre _ _ he1]
    exact rejouer_ecrit_enregistre t1 a k (opsCours_valeur cfg ls t1 hs1) hpos
  refine ⟨t1 ++ t2, by rw [hj2, hj1, List.append_assoc], ?_, ?_, ?_, ?_, ?_, ?_⟩
  · rw [rejouer_append]
    exact memeEtat_trans _ _ _ (rejouer_memeEtat t2 _ _ he1) he2
  · intro op hop
    rcases List.mem_append.mp hop with h | h
    · exact hs1 op h
    · exact hs2 op h
  · rw [List.countP_append, List.countP_append, hd1, hd2]
  · intro ha
    have h1 := hr1 ha
    have hb' : enregistre b k = true := by
      rw [memeEtat_enregistre _ _ he1]
      exact rejouer_enregistre t1 a k (opsCours_valeur cfg ls t1 hs1) ha
    rw [List.countP_append, h1, hr2 hb']
  · rw [List.countP_append]
    by_cases hpos : 0 < t1.countP (Op.ecritCle k)
    · rw [hb hpos]; omega
    · omega
  · intro hd hr
    obtain ⟨hrb, hnb⟩ := hf1 hd hr
    obtain ⟨hrc, hnc⟩ := hf2 hd hrb
    exact ⟨hrc, by rw [hnc, hnb, List.countP_append]; omega⟩

theorem opsCours_mono (cfg : Config) (ls ls' : List JsString) (h : ∀ l ∈ ls, l ∈ ls')
    (op : Op) (hop : opsCours cfg ls op) : opsCours cfg ls' op := by
  cases op <;> simp only [opsCours] at hop ⊢
  · obtain ⟨nom, hn, hm⟩ := hop
    exact ⟨nom, h nom hn, hm⟩
  · exact h _ hop
  · exact hop

theorem cours_mono (cfg : Config) (ls ls' : List JsString) (h : ∀ l ∈ ls, l ∈ ls')
    (k d : JsString) (a b : Monde) (hc : Cours cfg ls k d a b) : Cours cfg ls' k d a b := by
  obtain ⟨t, hj, he, hs, hd, hr, hn, hf⟩ := hc
  exact ⟨t, hj, he, fun op hop => opsCours_mono cfg ls ls' h op (hs op hop), hd, hr, hn, hf⟩

theorem suit_cours (cfg : Config) (ls : List JsString) (k d : JsString) (S : Op → Prop)
    (hS : ∀ op, S op → opsCours cfg ls op ∧ op.ecritCle k = false ∧
      op.sansDescription = true)
    (a b : Monde) (h : Suit S a b) : Cours cfg ls k d a b := by
  obtain ⟨t, hj, hs, he⟩ := h
  have hk : t.countP (Op.ecritCle k) = 0 :=
    List.countP_eq_zero.mpr (fun op hop => by simp [(hS op (hs op hop)).2.1])
  have hd : t.countP (Op.decrit d) = 0 :=
    List.countP_eq_zero.mpr (fun op hop => by
      simp [sansDescription_decrit op d (hS op (hs op hop)).2.2])
  refine ⟨t, hj, he, fun op hop => (hS op (hs op hop)).1, by rw [hk, hd], fun _ => hk,
    by omega, fun hne hr => ?_⟩
  obtain ⟨h1, h2⟩ := rejouer_nombre t a d hne (fun op hop => (hS op (hs op hop)).2.2) hr
  exact ⟨memeEtat_range _ _ he h1, by rw [memeEtat_nombre _ _ he, h2, hd]; rfl⟩

theorem cours_suit (cfg : Config) (ls : List JsString) (k d : JsString) (a b : Monde)
    (h : Cours cfg ls k d a b) : Suit (opsCours cfg ls) a b := by
  obtain ⟨t, hj, he, hs, -⟩ := h
  exact ⟨t, hj, hs, he⟩

theorem total_pur {α : Type} (a : α) : Total (pure a : M α) := fun w => ⟨a, w, rfl⟩

theorem total_lier {α β : Type} (m : M α) (f : α → M β) (hm : Total m)
    (hf : ∀ a, Total (f a)) : Total (m >>= f) := by
  intro w
  obtain ⟨a, w1, h1⟩ := hm w
  obtain ⟨b, w2, h2⟩ := hf a w1
  exact ⟨b, w2, by simp only [bind_apply, h1, h2]⟩

theorem total_appel (h : Hote) (hp : ∀ w op, h.panne w op = false) (op : Op) :
    Total (appel h op) := fun w => ⟨(), _, appel_ok h op w (hp w op)⟩

theorem total_lireMonde : Total lireMonde := fun w => ⟨w, w, rfl⟩

theorem total_ecrire (l : Ligne) : Total (ecrire l) := fun _ => ⟨(), _, rfl⟩

theorem total_pourChaque {α : Type} (f : α → M Unit) (l : List α)
    (hf : ∀ a ∈ l, Total (f a)) : Total (pourChaque f l) := by
  induction l with
  | nil => exact total_pur ()
  | cons a t ih =>
    unfold pourChaque
    exact total_lier _ _ (hf a (List.mem_cons_self _ _))
      (fun _ => ih (fun b hb => hf b (List.mem_cons_of_mem _ hb)))

theorem total_accesMessage {α : Type} (h : Hote) (hp : ∀ w op, h.panne w op = false)
    (acces : AccesMessage) (message : Message) (valeur : α) :
    Total (accesMessage h acces message valeur) :=
  total_lier _ _ (total_appel h hp _) (fun _ => total_pur _)

theorem total_lier_acces {α β : Type} (h : Hote) (hp : ∀ w op, h.panne w op = false)
    (acces : AccesMessage) (message : Message) (valeur : α) (f : α → M β)
    (hf : Total (f valeur)) : Total (accesMessage h acces message valeur >>= f) := by
  intro w
  obtain ⟨b, w2, h2⟩ := hf ((Op.message acces message.id).effet
    { w with journal := w.journal ++ [Op.message acces message.id] })
  exact ⟨b, w2, by
    simp only [accesMessage, bind_apply, pure_apply, appel_ok h _ _ (hp _ _)]
    exact h2⟩

theorem total_createFile (h : Hote) (hp : ∀ w op, h.panne w op = false) (dossier : Nat)
    (blob : Blob) : Total (createFile h dossier blob) :=
  total_lier _ _ total_lireMonde
    (fun _ => total_lier _ _ (total_appel h hp _) (fun _ => total_pur _))

theorem total_obtenirOuCreerSousDossier_ (h : Hote) (hp : ∀ w op, h.panne w op = false)
    (parent : Nat) (nom : JsString) : Total (obtenirOuCreerSousDossier_ h parent nom) := by
  unfold obtenirOuCreerSousDossier_ getFoldersByName createFolder
  refine total_lier _ _ (total_lier _ _ (total_appel h hp _)
    (fun _ => total_lier _ _ total_lireMonde (fun _ => total_pur _))) (fun l => ?_)
  cases l with
  | nil =>
    exact total_lier _ _ total_lireMonde
      (fun _ => total_lier _ _ (total_appel h hp _) (fun _ => total_pur _))
  | cons d t => exact total_pur _

theorem total_enregistrerPiecesJointes_ (h : Hote) (hp : ∀ w op, h.panne w op = false)
    (message : Message) (dossierLibelle : Nat) (nomBase : JsString) :
    Total (enregistrerPiecesJointes_ h message dossierLibelle nomBase) := by
  unfold enregistrerPiecesJointes_
  refine total_lier _ _ (total_accesMessage h hp _ _ _) (fun pieces => ?_)
  split
  · exact total_pur _
  · refine total_lier _ _ (total_obtenirOuCreerSousDossier_ h hp _ _) (fun _ => ?_)
    refine total_lier _ _ (total_obtenirOuCreerSousDossier_ h hp _ _) (fun d => ?_)
    refine total_pourChaque _ _ (fun piece _ => ?_)
    unfold enregistrerPiece
    refine total_lier _ _ (total_appel h hp _) (fun _ => ?_)
    dsimp only
    split
    · exact total_lier _ _ (total_createFile h hp _ _) (fun _ => total_pur _)
    · exact total_pur _

theorem total_convertirEmailEnPdf_ (h : Hote) (hp : ∀ w op, h.panne w op = false)
    (message : Message)
    (hcid : ∃ html, insererImagesCid_ h.proprieteHote message.corps
      (message.pieces.filter (fun p => p.enLigne)) = Except.ok html) :
    Total (convertirEmailEnPdf_ h message) := by
  unfold convertirEmailEnPdf_
  refine total_lier_acces h hp _ _ _ _ ?_
  refine total_lier _ _ (total_accesMessage h hp _ _ _) (fun _ => ?_)
  refine total_lier _ _ (total_accesMessage h hp _ _ _) (fun _ => ?_)
  refine total_lier _ _ (total_accesMessage h hp _ _ _) (fun _ => ?_)
  refine total_lier _ _ (total_accesMessage h hp _ _ _) (fun _ => ?_)
  refine total_lier _ _ (total_accesMessage h hp _ _ _) (fun _ => ?_)
  refine total_lier _ _ (total_appel h hp _) (fun _ => ?_)
  refine total_lier_acces h hp _ _ _ _ ?_
  obtain ⟨html, hhtml⟩ := hcid
  refine total_lier _ _ ?_ (fun _ => total_lier _ _ (total_appel h hp _) (fun _ => total_pur _))
  rw [hhtml]
  exact total_pur _

theorem total_exporterMessage (cfg : Config) (h : Hote) (hp : ∀ w op, h.panne w op = false)
    (nomLibelle libelle : JsString) (libelleTraite : Option JsString) (dossierLibelle : Nat)
    (fil : Fil) (message : Message) (idMessage cleMessage : JsString)
    (hcid : ∃ html, insererImagesCid_ h.proprieteHote message.corps
      (message.pieces.filter (fun p => p.enLigne)) = Except.ok html) :
    Total (exporterMessage cfg h nomLibelle libelle libelleTraite dossierLibelle fil message
      idMessage cleMessage) := by
  unfold exporterMessage
  refine total_lier _ _ (total_convertirEmailEnPdf_ h hp message hcid) (fun pdf => ?_)
  refine total_lier _ _ (total_accesMessage h hp _ _ _) (fun _ => ?_)
  refine total_lier _ _ (total_accesMessage h hp _ _ _) (fun _ => ?_)
  refine total_lier _ _ (total_appel h hp _) (fun _ => ?_)
  dsimp only
  split
  · unfold enregistrerExport sauvegarderEtMarquer
    refine total_lier _ _ ?_ (fun _ => total_lier _ _ (total_appel h hp _)
      (fun _ => total_ecrire _))
    refine total_lier _ _ (total_createFile h hp _ _) (fun _ => ?_)
    refine total_lier _ _ (total_appel h hp _) (fun _ => ?_)
    refine total_lier _ _ ?_ (fun _ => ?_)
    · split
      · exact total_enregistrerPiecesJointes_ h hp _ _ _
      · exact total_pur _
    refine total_lier _ _ ?_ (fun _ => ?_)
    · unfold marquer
      split
      · exact total_lier _ _ (total_appel h hp _) (fun _ => total_appel h hp _)
      · exact total_pur _
    split
    · exact total_appel h hp _
    · exact total_pur _
  · exact total_ecrire _

theorem nonMutante_cours (cfg : Config) (ls : List JsString) (k : JsString) (op : Op)
    (h : op.mutante = false) :
    opsCours cfg ls op ∧ op.ecritCle k = false ∧ op.sansDescription = true := by
  cases op <;> simp [Op.mutante] at h <;> simp [opsCours, Op.ecritCle, Op.sansDescription]

theorem dePieces_cours (cfg : Config) (ls : List JsString) (k : JsString) (op : Op)
    (h : op.dePieces = true) :
    opsCours cfg ls op ∧ op.ecritCle k = false ∧ op.sansDescription = true := by
  cases op <;> simp [Op.dePieces] at h <;> simp [opsCours, Op.ecritCle, Op.sansDescription]

theorem journalMarquer_cours (cfg : Config) (nomLibelle k : JsString) (fil : Fil) (op : Op)
    (h : op ∈ journalMarquer nomLibelle (marqueDe cfg nomLibelle) fil) :
    opsCours cfg [nomLibelle] op ∧ op.ecritCle k = false ∧ op.sansDescription = true := by
  unfold journalMarquer at h
  cases hm : marqueDe cfg nomLibelle with
  | none => rw [hm] at h; simp at h
  | some marque =>
    rw [hm] at h
    simp only [List.mem_cons, List.mem_singleton, List.not_mem_nil, or_false] at h
    rcases h with rfl | rfl
    · exact ⟨⟨nomLibelle, by simp, hm⟩, rfl, rfl⟩
    · exact ⟨by simp [opsCours], rfl, rfl⟩

theorem journalArchiver_cours (cfg : Config) (ls : List JsString) (k : JsString) (fil : Fil)
    (op : Op) (h : op ∈ journalArchiver cfg fil) :
    opsCours cfg ls op ∧ op.ecritCle k = false ∧ op.sansDescription = true := by
  unfold journalArchiver at h
  split at h
  · simp only [List.mem_singleton] at h
    subst h
    exact ⟨trivial, rfl, rfl⟩
  · simp at h

theorem countP_zero_de {p : Op → Bool} (l : List Op) (h : ∀ op ∈ l, p op = false) :
    l.countP p = 0 :=
  List.countP_eq_zero.mpr (fun op hop => by simp [h op hop])

theorem exporter_sansPanne (cfg : Config) (h : Hote)
    (hsim : cfg.modeSimulation = false) (hp : ∀ w op, h.panne w op = false)
    (nomLibelle : JsString) (dossierLibelle : Nat) (fil : Fil) (message : Message)
    (hsain : Sain h message) (k d : JsString)
    (hcible : cleMessageDe nomLibelle message.id = k ↔
      descriptionDe nomLibelle message.id = d) (w : Monde)
    (hrec : ¬ enregistre w (cleMessageDe nomLibelle message.id) = true) :
    ∃ w', essayer (exporterMessage cfg h nomLibelle nomLibelle (marqueDe cfg nomLibelle)
          dossierLibelle fil message message.id (cleMessageDe nomLibelle message.id))
        (fun erreur => ecrire (Ligne.erreurMessage message.id erreur)) w = Res.ok () w' ∧
      Cours cfg [nomLibelle] k d w w' ∧
      enregistre w' (cleMessageDe nomLibelle message.id) = true := by
  obtain ⟨_, w', hok⟩ := total_exporterMessage cfg h hp nomLibelle nomLibelle
    (marqueDe cfg nomLibelle) dossierLibelle fil message message.id
    (cleMessageDe nomLibelle message.id) hsain.1 w
  have hg := garde_exporterMessage (fun _ => True) cfg h nomLibelle nomLibelle
    (marqueDe cfg nomLibelle) dossierLibelle fil message (fun _ _ => trivial) w
  rw [hok] at hg
  obtain ⟨T, hjT, -, heT⟩ := hg
  simp only [Res.monde] at hjT heT
  obtain ⟨nomBase, octets, fichier, trLecture, trPieces, hj, hl, hpi, -, hpr, hfich⟩ :=
    exporterMessage_forme cfg h nomLibelle nomLibelle (marqueDe cfg nomLibelle)
      dossierLibelle fil message message.id (cleMessageDe nomLibelle message.id) w w' hsim hok
  subst hfich
  have hT : T = trLecture ++
      [Op.createFile dossierLibelle (nomBase ++ js ".pdf") octets,
        Op.setDescription w.prochainId (descriptionDe nomLibelle message.id)] ++
      trPieces ++ journalMarquer nomLibelle (marqueDe cfg nomLibelle) fil ++
      journalArchiver cfg fil ++
      [Op.setProperty (cleMessageDe nomLibelle message.id) (js "1")] := by
    refine List.append_cancel_left (?_ : w.journal ++ T = w.journal ++ _)
    rw [← hjT, hj]
    simp only [List.append_assoc]
  have c1 := fun op hop => nonMutante_cours cfg [nomLibelle] k op (hl op hop)
  have c2 := fun op hop => dePieces_cours cfg [nomLibelle] k op (hpi op hop)
  have c3 := fun op hop => journalMarquer_cours cfg nomLibelle k fil op hop
  have c4 := fun op hop => journalArchiver_cours cfg [nomLibelle] k fil op hop
  have z1 := countP_zero_de _ (fun op hop => sansDescription_decrit op d (c1 op hop).2.2)
  have z2 := countP_zero_de _ (fun op hop => sansDescription_decrit op d (c2 op hop).2.2)
  have z3 := countP_zero_de _ (fun op hop => sansDescription_decrit op d (c3 op hop).2.2)
  have z4 := countP_zero_de _ (fun op hop => sansDescription_decrit op d (c4 op hop).2.2)
  refine ⟨w', by simp only [essayer, hok], ⟨T, hjT, heT, ?_, ?_, ?_, ?_, ?_⟩, ?_⟩
  · intro op hop
    rw [hT] at hop
    simp only [List.mem_append, List.mem_cons, List.mem_singleton, List.not_mem_nil,
      or_false] at hop
    rcases hop with ((((hop | hop | hop) | hop) | hop) | hop) | hop
    · exact (c1 op hop).1
    · subst hop; trivial
    · subst hop; trivial
    · exact (c2 op hop).1
    · exact (c3 op hop).1
    · exact (c4 op hop).1
    · subst hop; rfl
  · rw [hT]
    simp only [List.countP_append, countP_zero_de _ (fun op hop => (c1 op hop).2.1), z1,
      countP_zero_de _ (fun op hop => (c2 op hop).2.1), z2,
      countP_zero_de _ (fun op hop => (c3 op hop).2.1), z3,
      countP_zero_de _ (fun op hop => (c4 op hop).2.1), z4]
    by_cases hk : cleMessageDe nomLibelle message.id = k
    · have hd := hcible.mp hk
      simp [List.countP_cons, Op.ecritCle, Op.decrit, hk, hd]
    · have hd : ¬ descriptionDe nomLibelle message.id = d := fun e => hk (hcible.mpr e)
      simp [List.countP_cons, Op.ecritCle, Op.decrit, hk, hd]
  · intro hwk
    rw [hT]
    simp only [List.countP_append,
      countP_zero_de _ (fun op hop => (c1 op hop).2.1),
      countP_zero_de _ (fun op hop => (c2 op hop).2.1),
      countP_zero_de _ (fun op hop => (c3 op hop).2.1),
      countP_zero_de _ (fun op hop => (c4 op hop).2.1)]
    have hk : ¬ cleMessageDe nomLibelle message.id = k := fun e => hrec (by rw [e]; exact hwk)
    simp [List.countP_cons, Op.ecritCle, hk]
  · rw [hT]
    simp only [List.countP_append,
      countP_zero_de _ (fun op hop => (c1 op hop).2.1),
      countP_zero_de _ (fun op hop => (c2 op hop).2.1),
      countP_zero_de _ (fun op hop => (c3 op hop).2.1),
      countP_zero_de _ (fun op hop => (c4 op hop).2.1)]
    by_cases hk : cleMessageDe nomLibelle message.id = k
    · simp [List.countP_cons, Op.ecritCle, hk]
    · simp [List.countP_cons, Op.ecritCle, hk]
  · intro hd hr
    have hpaire := effet_paire w dossierLibelle (nomBase ++ js ".pdf") octets
      (descriptionDe nomLibelle message.id) d hr
    obtain ⟨r2, n2⟩ := rejouer_nombre trPieces _ d hd (fun op hop => (c2 op hop).2.2) hpaire.1
    obtain ⟨r3, n3⟩ := rejouer_nombre _ _ d hd (fun op hop => (c3 op hop).2.2) r2
    obtain ⟨r4, n4⟩ := rejouer_nombre _ _ d hd (fun op hop => (c4 op hop).2.2) r3
    obtain ⟨r5, n5⟩ := rejouer_nombre
      [Op.setProperty (cleMessageDe nomLibelle message.id) (js "1")] _ d hd
      (fun op hop => by rw [List.mem_singleton.mp hop]; rfl) r4
    have hrej : rejouer T w = rejouer
        [Op.setProperty (cleMessageDe nomLibelle message.id) (js "1")]
        (rejouer (journalArchiver cfg fil)
          (rejouer (journalMarquer nomLibelle (marqueDe cfg nomLibelle) fil)
            (rejouer trPieces
              (rejouer [Op.createFile dossierLibelle (nomBase ++ js ".pdf") octets,
                Op.setDescription w.prochainId (descriptionDe nomLibelle message.id)]
                w)))) := by
      rw [hT]
      simp only [rejouer_append, rejouer_lecture trLecture w hl]
    have hcount : T.countP (Op.decrit d) =
        [Op.createFile dossierLibelle (nomBase ++ js ".pdf") octets,
          Op.setDescription w.prochainId
            (descriptionDe nomLibelle message.id)].countP (Op.decrit d) := by
      rw [hT]
      simp only [List.countP_append, z1, z2, z3, z4]
      simp [List.countP_cons, Op.decrit]
    refine ⟨memeEtat_range _ _ heT (hrej ▸ r5), ?_⟩
    rw [memeEtat_nombre _ _ heT, hrej, n5, n4, n3, n2, hpaire.2, hcount]
  · simp [enregistre, hpr, List.lookup_cons, estVrai, js]

theorem suit_lecture (w : Monde) (ops : List Op) (h : ∀ op ∈ ops, op.mutante = false)
    (c : List Ligne) :
    Suit (fun op => op.mutante = false) w
      { w with journal := w.journal ++ ops, console := c } := by
  refine ⟨ops, rfl, h, ?_⟩
  have : ∀ (l : List Op) (w0 : Monde), (∀ op ∈ l, op.mutante = false) → rejouer l w0 = w0 := by
    intro l
    induction l with
    | nil => intro w0 _; rfl
    | cons op t ih =>
      intro w0 hl
      simp only [rejouer, List.foldl_cons]
      have hop := hl op (List.mem_cons_self _ _)
      have : op.effet w0 = w0 := by
        cases op <;> simp [Op.mutante] at hop <;> rfl
      rw [this]
      exact ih w0 (fun o ho => hl o (List.mem_cons_of_mem _ ho))
  rw [this ops w h]
  exact ⟨rfl, rfl, rfl, rfl, rfl, rfl⟩

theorem traiterMessage_sansPanne (cfg : Config) (h : Hote)
    (hsim : cfg.modeSimulation = false) (hp : ∀ w op, h.panne w op = false)
    (nomLibelle : JsString) (dossierLibelle : Nat) (fil : Fil) (message : Message)
    (hsain : Sain h message) (k d : JsString)
    (hcible : cleMessageDe nomLibelle message.id = k ↔
      descriptionDe nomLibelle message.id = d) (w : Monde) :
    ∃ w', traiterMessage cfg h nomLibelle nomLibelle (marqueDe cfg nomLibelle) dossierLibelle
        fil message w = Res.ok () w' ∧
      Cours cfg [nomLibelle] k d w w' ∧ Fini cfg w' nomLibelle message ∧
      (Fini cfg w nomLibelle message → Suit (fun op => op.mutante = false) w w') := by
  simp only [traiterMessage, accesMessage, getProperty, lireMonde, bind_apply, pure_apply,
    appel_ok h _ _ (hp _ _), Op.effet]
  by_cases hrec : enregistre w (cleMessageDe nomLibelle message.id) = true
  · have hrec' : estVrai ((List.lookup (cleMessageDe nomLibelle message.id)
        w.proprietes).getD []) = true := hrec
    simp only [hrec', if_true]
    have hsuit := suit_lecture w [Op.message AccesMessage.getId message.id,
        Op.getProperty (cleMessageDe nomLibelle message.id)] (by simp [Op.mutante]) w.console
    simp only [List.append_assoc, List.singleton_append] at hsuit ⊢
    exact ⟨_, rfl, suit_cours cfg _ k d _ (nonMutante_cours cfg _ k) _ _ hsuit,
      Or.inl hrec, fun _ => hsuit⟩
  · have hrec' : ¬ estVrai ((List.lookup (cleMessageDe nomLibelle message.id)
        w.proprietes).getD []) = true := hrec
    simp only [hrec', Bool.false_eq_true, if_false]
    by_cases hnl : cfg.seulementNonLus = true
    · simp only [estLu, hnl, if_true, accesMessage, bind_apply, pure_apply,
        appel_ok h _ _ (hp _ _), Op.effet]
      have hsuit := suit_lecture w [Op.message AccesMessage.getId message.id,
        Op.getProperty (cleMessageDe nomLibelle message.id),
        Op.message AccesMessage.isUnread message.id] (by simp [Op.mutante]) w.console
      simp only [List.append_assoc, List.singleton_append] at hsuit ⊢
      by_cases hlu : message.nonLu = true
      · simp only [hlu, Bool.not_true, Bool.false_eq_true, if_false]
        obtain ⟨w', hok, hc, hr⟩ := exporter_sansPanne cfg h hsim hp nomLibelle dossierLibelle
          fil message hsain k d hcible
          { w with journal := w.journal ++ Op.message AccesMessage.getId message.id ::
            Op.getProperty (cleMessageDe nomLibelle message.id) ::
            [Op.message AccesMessage.isUnread message.id] } hrec
        refine ⟨w', hok, cours_trans cfg _ k d _ _ _
          (suit_cours cfg _ k d _ (nonMutante_cours cfg _ k) _ _ hsuit) hc, Or.inl hr, ?_⟩
        rintro (hf | ⟨-, hf⟩)
        · exact absurd hf hrec
        · rw [hlu] at hf; exact absurd hf (by simp)
      · have hlu' : message.nonLu = false := by simpa using hlu
        simp only [hlu', Bool.not_false, if_true]
        exact ⟨_, rfl, suit_cours cfg _ k d _ (nonMutante_cours cfg _ k) _ _ hsuit,
          Or.inr ⟨hnl, hlu'⟩, fun _ => hsuit⟩
    · simp only [estLu, hnl, if_false, bind_apply, pure_apply, Bool.false_eq_true]
      have hsuit := suit_lecture w [Op.message AccesMessage.getId message.id,
        Op.getProperty (cleMessageDe nomLibelle message.id)] (by simp [Op.mutante]) w.console
      simp only [List.append_assoc, List.singleton_append] at hsuit ⊢
      obtain ⟨w', hok, hc, hr⟩ := exporter_sansPanne cfg h hsim hp nomLibelle dossierLibelle
        fil message hsain k d hcible
        { w with journal := w.journal ++ Op.message AccesMessage.getId message.id ::
          [Op.getProperty (cleMessageDe nomLibelle message.id)] } hrec
      refine ⟨w', hok, cours_trans cfg _ k d _ _ _
        (suit_cours cfg _ k d _ (nonMutante_cours cfg _ k) _ _ hsuit) hc, Or.inl hr, ?_⟩
      rintro (hf | ⟨hf, -⟩)
      · exact absurd hf hrec
      · exact absurd hf hnl

theorem dernier_segment (c : CodeUnit) (a b x y : JsString) (hx : c ∉ x) (hy : c ∉ y)
    (h : a ++ c :: x = b ++ c :: y) : a = b ∧ x = y := by
  induction a generalizing b with
  | nil =>
    cases b with
    | nil => simp only [List.nil_append, List.cons.injEq, true_and] at h; exact ⟨rfl, h⟩
    | cons b0 b' =>
      simp only [List.nil_append, List.cons_append, List.cons.injEq] at h
      exact absurd (h.2 ▸ List.mem_append_right _ (List.mem_cons_self _ _)) hx
  | cons a0 a' ih =>
    cases b with
    | nil =>
      simp only [List.nil_append, List.cons_append, List.cons.injEq] at h
      exact absurd (h.2 ▸ List.mem_append_right _ (List.mem_cons_self _ _)) hy
    | cons b0 b' =>
      simp only [List.cons_append, List.cons.injEq] at h
      obtain ⟨h1, h2⟩ := ih b' h.2
      exact ⟨by rw [h.1, h1], h2⟩

theorem cleMessageDe_eq (l1 l2 id1 id2 : JsString) (h1 : 58 ∉ id1) (h2 : 58 ∉ id2) :
    cleMessageDe l1 id1 = cleMessageDe l2 id2 ↔ l1 = l2 ∧ id1 = id2 := by
  constructor
  · intro h
    have hj : js ":" = [58] := by decide
    simp only [cleMessageDe, hj, List.append_assoc, List.singleton_append] at h
    rw [← List.append_assoc, ← List.append_assoc] at h
    obtain ⟨ha, hb⟩ := dernier_segment 58 _ _ _ _ h1 h2 h
    exact ⟨List.append_cancel_left ha, hb⟩
  · rintro ⟨rfl, rfl⟩; rfl

theorem descriptionDe_eq (l1 l2 id1 id2 : JsString) (h1 : 32 ∉ id1) (h2 : 32 ∉ id2) :
    descriptionDe l1 id1 = descriptionDe l2 id2 ↔ l1 = l2 ∧ id1 = id2 := by
  constructor
  · intro h
    have hj : js ") | ID: " = [41, 32, 124, 32, 73, 68, 58] ++ [32] := by decide
    simp only [descriptionDe, hj] at h
    simp only [← List.append_assoc] at h
    simp only [List.append_assoc _ [32], List.singleton_append] at h
    obtain ⟨ha, hb⟩ := dernier_segment 32 _ _ _ _ h1 h2 h
    have ha2 := List.append_cancel_right ha
    exact ⟨List.append_cancel_left ha2, hb⟩
  · rintro ⟨rfl, rfl⟩; rfl

theorem cible_iff (h : Hote) (l1 l2 : JsString) (m1 m2 : Message) (h1 : Sain h m1)
    (h2 : Sain h m2) :
    cleMessageDe l1 m1.id = cleMessageDe l2 m2.id ↔
      descriptionDe l1 m1.id = descriptionDe l2 m2.id := by
  rw [cleMessageDe_eq _ _ _ _ h1.2.1 h2.2.1, descriptionDe_eq _ _ _ _ h1.2.2 h2.2.2]

theorem cible_vide (l : JsString) (id : JsString) :
    cleMessageDe l id = [] ↔ descriptionDe l id = [] := by
  constructor
  · intro h
    have := congrArg List.length h
    simp [cleMessageDe, js] at this
  · intro h
    have := congrArg List.length h
    simp [descriptionDe, js] at this

theorem cours_enregistre (cfg : Config) (ls : List JsString) (k d : JsString) (w w' : Monde)
    (hc : Cours cfg ls k d w w') (k' : JsString) (hk : enregistre w k' = true) :
    enregistre w' k' = true := by
  obtain ⟨tr, -, he, hs, -⟩ := hc
  rw [memeEtat_enregistre _ _ he]
  exact rejouer_enregistre tr w k' (opsCours_valeur cfg ls tr hs) hk

theorem cours_fini (cfg : Config) (ls : List JsString) (k d : JsString) (w w' : Monde)
    (hc : Cours cfg ls k d w w') (nomLibelle : JsString) (message : Message)
    (hf : Fini cfg w nomLibelle message) : Fini cfg w' nomLibelle message := by
  rcases hf with hf | hf
  · exact Or.inl (cours_enregistre cfg ls k d w w' hc _ hf)
  · exact Or.inr hf

theorem pourChaque_cours {α : Type} (cfg : Config) (ls : List JsString) (k d : JsString)
    (f : α → M Unit) (l : List α) (I : Monde → Prop) (P : Monde → α → Prop)
    (hmono : ∀ a ∈ l, ∀ w w', Cours cfg ls k d w w' → P w a → P w' a)
    (hf : ∀ a ∈ l, ∀ w, I w → ∃ w', f a w = Res.ok () w' ∧ Cours cfg ls k d w w' ∧ I w' ∧
      P w' a ∧ (P w a → Suit (fun op => op.mutante = false) w w')) :
    ∀ w, I w → ∃ w', pourChaque f l w = Res.ok () w' ∧ Cours cfg ls k d w w' ∧ I w' ∧
      (∀ a ∈ l, P w' a) ∧ ((∀ a ∈ l, P w a) → Suit (fun op => op.mutante = false) w w') := by
  induction l with
  | nil =>
    intro w hI
    exact ⟨w, rfl, cours_refl cfg ls k d w, hI, by simp, fun _ => suit_refl _ w⟩
  | cons a t ih =>
    intro w hI
    obtain ⟨w1, h1, hc1, hI1, hP1, hN1⟩ := hf a (List.mem_cons_self _ _) w hI
    obtain ⟨w2, h2, hc2, hI2, hP2, hN2⟩ :=
      ih (fun b hb => hmono b (List.mem_cons_of_mem _ hb))
        (fun b hb => hf b (List.mem_cons_of_mem _ hb)) w1 hI1
    refine ⟨w2, ?_, cours_trans cfg ls k d _ _ _ hc1 hc2, hI2, ?_, ?_⟩
    · simp only [pourChaque, bind_apply, h1, h2]
    · intro b hb
      rcases List.mem_cons.mp hb with rfl | hb
      · exact hmono _ (List.mem_cons_self _ _) _ _ hc2 hP1
      · exact hP2 b hb
    · intro hall
      refine suit_trans _ _ _ _ (hN1 (hall a (List.mem_cons_self _ _))) (hN2 ?_)
      intro b hb
      exact hmono _ (List.mem_cons_of_mem _ hb) _ _ hc1 (hall b (List.mem_cons_of_mem _ hb))

theorem traiterFil_sansPanne (cfg : Config) (h : Hote)
    (hsim : cfg.modeSimulation = false) (hp : ∀ w op, h.panne w op = false)
    (nomLibelle : JsString) (dossierLibelle : Nat) (k d : JsString) (fil : Fil)
    (hsain : ∀ m ∈ fil.messages, Sain h m)
    (hcible : ∀ m ∈ fil.messages, cleMessageDe nomLibelle m.id = k ↔
      descriptionDe nomLibelle m.id = d) (w : Monde) :
    ∃ w', traiterFil cfg h nomLibelle nomLibelle (marqueDe cfg nomLibelle) dossierLibelle
        fil w = Res.ok () w' ∧
      Cours cfg [nomLibelle] k d w w' ∧ (∀ m ∈ fil.messages, Fini cfg w' nomLibelle m) ∧
      ((∀ m ∈ fil.messages, Fini cfg w nomLibelle m) →
        Suit (fun op => op.mutante = false) w w') := by
  have hs := suit_lecture w [Op.getMessages fil.id] (by simp [Op.mutante]) w.console
  obtain ⟨w', h1, hc, -, hP, hN⟩ := pourChaque_cours cfg [nomLibelle] k d
    (traiterMessage cfg h nomLibelle nomLibelle (marqueDe cfg nomLibelle) dossierLibelle fil)
    fil.messages (fun _ => True) (fun w m => Fini cfg w nomLibelle m)
    (fun m _ w w' hc hf => cours_fini cfg _ k d w w' hc nomLibelle m hf)
    (fun m hm w _ => by
      obtain ⟨w', h1, h2, h3, h4⟩ := traiterMessage_sansPanne cfg h hsim hp nomLibelle
        dossierLibelle fil m (hsain m hm) k d (hcible m hm) w
      exact ⟨w', h1, h2, trivial, h3, h4⟩)
    { w with journal := w.journal ++ [Op.getMessages fil.id] } trivial
  have hc0 := suit_cours cfg [nomLibelle] k d _ (nonMutante_cours cfg _ k) _ _ hs
  refine ⟨w', ?_, cours_trans cfg _ k d _ _ _ hc0 hc, hP, ?_⟩
  · simp only [traiterFil, getMessages, bind_apply, pure_apply, appel_ok h _ _ (hp _ _),
      Op.effet]
    exact h1
  · intro hall
    refine suit_trans _ _ _ _ hs (hN ?_)
    intro m hm
    exact cours_fini cfg _ k d _ _ hc0 nomLibelle m (hall m hm)

theorem pret_suit (S : Op → Prop) (cfg : Config) (h : Hote) (w w' : Monde)
    (hs : Suit S w w') (hp : Pret cfg h w) : Pret cfg h w' := by
  refine ⟨fun id hid => ?_, fun f hf m hm => ?_⟩
  · rcases hp.1 id hid with h0 | h1
    · exact Or.inl h0
    · obtain ⟨dd, hdd, rfl⟩ := List.mem_map.mp h1
      exact Or.inr (List.mem_map.mpr ⟨dd, suit_dossiers S w w' hs dd hdd, rfl⟩)
  · have hmem : f.messages ∈ w'.fils.map Fil.messages := List.mem_map.mpr ⟨f, hf, rfl⟩
    rw [suit_messages S w w' hs] at hmem
    obtain ⟨f0, hf0, he⟩ := List.mem_map.mp hmem
    exact hp.2 f0 hf0 m (he ▸ hm)

theorem appel_suit (S : Op → Prop) (h : Hote) (hp : ∀ w op, h.panne w op = false) (op : Op)
    (hS : S op) (w : Monde) :
    ∃ w', appel h op w = Res.ok () w' ∧ Suit S w w' ∧
      w' = op.effet { w with journal := w.journal ++ [op] } := by
  have hg := garde_appel S h op hS w
  rw [appel_ok h op w (hp w op)] at hg ⊢
  exact ⟨_, rfl, hg, rfl⟩

theorem ecrire_suit (S : Op → Prop) (l : Ligne) (w : Monde) :
    ∃ w', ecrire l w = Res.ok () w' ∧ Suit S w w' :=
  ⟨_, rfl, garde_ecrire S l w⟩

theorem libelleOuCreation_sansPanne (h : Hote) (hp : ∀ w op, h.panne w op = false)
    (nom : JsString) (C : Prop) (w : Monde) (hC : C → nom ∈ w.libelles) :
    ∃ w', libelleOuCreation h nom w = Res.ok nom w' ∧ Suit (opsCalme C) w w' ∧
      nom ∈ w'.libelles := by
  obtain ⟨w1, e1, s1, r1⟩ := appel_suit (opsCalme C) h hp (Op.getUserLabelByName nom)
    ⟨rfl, fun _ => rfl⟩ w
  by_cases hl : nom ∈ w.libelles
  · have hl1 : nom ∈ w1.libelles := suit_libelles _ _ _ s1 nom hl
    refine ⟨w1, ?_, s1, hl1⟩
    simp only [libelleOuCreation, getUserLabelByName, bind_apply, pure_apply, lireMonde, e1,
      hl1, if_true]
  · have hl1 : nom ∉ w1.libelles := by rw [r1]; exact hl
    obtain ⟨w2, e2, s2, r2⟩ := appel_suit (opsCalme C) h hp (Op.createLabel nom)
      ⟨rfl, fun c => absurd (hC c) hl⟩ w1
    refine ⟨w2, ?_, suit_trans _ _ _ _ s1 s2, ?_⟩
    · simp only [libelleOuCreation, getUserLabelByName, createLabel, bind_apply, pure_apply,
        lireMonde, e1, hl1, if_false, e2]
    · rw [r2]; simp [Op.effet]

theorem libelleTraiteDe_sansPanne (cfg : Config) (h : Hote)
    (hp : ∀ w op, h.panne w op = false) (nomLibelle : JsString) (C : Prop) (w : Monde)
    (hC : C → ∀ l, marqueDe cfg nomLibelle = some l → l ∈ w.libelles) :
    ∃ w', libelleTraiteDe cfg h nomLibelle w = Res.ok (marqueDe cfg nomLibelle) w' ∧
      Suit (opsCalme C) w w' ∧ ∀ l, marqueDe cfg nomLibelle = some l → l ∈ w'.libelles := by
  unfold libelleTraiteDe marqueDe at *
  cases hs : cfg.sousLibelleTraite with
  | none => exact ⟨w, rfl, suit_refl _ w, by simp⟩
  | some sous =>
    simp only [hs] at hC ⊢
    by_cases hv : estVrai (trim sous) = true
    · simp only [hv, if_true] at hC ⊢
      obtain ⟨w1, e1, s1, l1⟩ := libelleOuCreation_sansPanne h hp (nomLibelle ++ js "/" ++ sous)
        C w (fun c => hC c _ rfl)
      refine ⟨w1, ?_, s1, ?_⟩
      · simp only [bind_apply, pure_apply, e1]
      · intro l hl
        simp only [Option.some.injEq] at hl
        rw [← hl]; exact l1
    · simp only [hv, if_false] at hC ⊢
      exact ⟨w, rfl, suit_refl _ w, by simp⟩

theorem sousDossier_sansPanne (h : Hote) (hp : ∀ w op, h.panne w op = false) (parent : Nat)
    (nom : JsString) (C : Prop) (w : Monde)
    (hC : C → ∃ dd ∈ w.dossiers, dd.parent = parent ∧ dd.nom = nom) :
    ∃ id w', obtenirOuCreerSousDossier_ h parent nom w = Res.ok id w' ∧
      Suit (opsCalme C) w w' ∧ ∃ dd ∈ w'.dossiers, dd.parent = parent ∧ dd.nom = nom := by
  obtain ⟨w1, e1, s1, r1⟩ := appel_suit (opsCalme C) h hp (Op.getFoldersByName parent nom)
    ⟨rfl, fun _ => rfl⟩ w
  have hd1 : w1.dossiers = w.dossiers := by rw [r1]; rfl
  cases hf : w1.dossiers.filter (fun d => d.parent = parent ∧ d.nom = nom) with
  | cons d0 t =>
    have hd0 : d0 ∈ w1.dossiers.filter (fun d => d.parent = parent ∧ d.nom = nom) := by
      rw [hf]; exact List.mem_cons_self _ _
    have hd0' := List.mem_filter.mp hd0
    refine ⟨d0.id, w1, ?_, s1, d0, hd0'.1, by simpa using hd0'.2⟩
    simp only [obtenirOuCreerSousDossier_, getFoldersByName, bind_apply, pure_apply, lireMonde,
      e1, hf]
  | nil =>
    have hnon : ¬ C := by
      intro c
      obtain ⟨dd, hdd, hpn⟩ := hC c
      have : dd ∈ w1.dossiers.filter (fun d => d.parent = parent ∧ d.nom = nom) :=
        List.mem_filter.mpr ⟨hd1 ▸ hdd, by simpa using hpn⟩
      rw [hf] at this
      exact absurd this (List.not_mem_nil _)
    obtain ⟨w2, e2, s2, r2⟩ := appel_suit (opsCalme C) h hp (Op.createFolder parent nom)
      ⟨rfl, fun c => absurd c hnon⟩ w1
    refine ⟨w1.prochainId, w2, ?_, suit_trans _ _ _ _ s1 s2, ⟨w1.prochainId, parent, nom⟩, ?_,
      rfl, rfl⟩
    · simp only [obtenirOuCreerSousDossier_, getFoldersByName, createFolder, bind_apply,
        pure_apply, lireMonde, e1, hf, e2]
    · rw [r2]; simp [Op.effet]

theorem dossierRacineDe_sansPanne (cfg : Config) (h : Hote)
    (hp : ∀ w op, h.panne w op = false) (C : Prop) (w : Monde)
    (hr : ∀ id, cfg.idDossierRacine = some id → id = 0 ∨ id ∈ w.dossiers.map Dossier.id) :
    ∃ w', dossierRacineDe cfg h w = Res.ok (racineDe cfg) w' ∧ Suit (opsCalme C) w w' := by
  unfold dossierRacineDe racineDe
  cases hi : cfg.idDossierRacine with
  | none =>
    obtain ⟨w1, e1, s1, -⟩ := appel_suit (opsCalme C) h hp Op.getRootFolder
      ⟨rfl, fun _ => rfl⟩ w
    refine ⟨w1, ?_, s1⟩
    simp only [getRootFolder, bind_apply, pure_apply, e1, Option.getD_none]
  | some id =>
    obtain ⟨w1, e1, s1, -⟩ := appel_suit (opsCalme C) h hp (Op.getFolderById id)
      ⟨rfl, fun _ => rfl⟩ w
    refine ⟨w1, ?_, s1⟩
    have := hr id hi
    simp only [getFolderById, bind_apply, pure_apply, lireMonde, this, if_true, e1,
      Option.getD_some]

theorem opsCalme_cours (cfg : Config) (ls : List JsString) (k : JsString) (C : Prop)
    (op : Op) (h : opsCalme C op) :
    opsCours cfg ls op ∧ op.ecritCle k = false ∧ op.sansDescription = true := by
  have h1 := h.1
  cases op <;> simp [opsPrelude] at h1 <;> simp [opsCours, Op.ecritCle, Op.sansDescription]

theorem opsCalme_prelude (C : Prop) (w w' : Monde) (h : Suit (opsCalme C) w w') :
    Suit (fun op => opsPrelude op = true) w w' :=
  suit_mono _ _ (fun _ ho => ho.1) w w' h

theorem filsDe_fils (critere : List Message → Bool) (w w' : Monde) (nomLibelle : JsString)
    (h : w'.fils = w.fils) : filsDe critere w' nomLibelle = filsDe critere w nomLibelle := by
  unfold filsDe; rw [h]

theorem traiterLibelle_sansPanne (cfg : Config) (h : Hote)
    (hsim : cfg.modeSimulation = false) (hp : ∀ w op, h.panne w op = false)
    (critere : List Message → Bool) (nomLibelle : JsString)
    (hrech : ∀ w', h.recherche w' (requeteDe cfg nomLibelle
      (h.formatDate (ajouterJours_ h h.maintenant (-cfg.joursDeRecherche)) (js "yyyy/MM/dd"))) =
        filsDe critere w' nomLibelle)
    (k d : JsString)
    (hcible : ∀ m, Sain h m → (cleMessageDe nomLibelle m.id = k ↔
      descriptionDe nomLibelle m.id = d))
    (w : Monde) (hpret : Pret cfg h w) :
    ∃ w', traiterLibelle_ cfg h nomLibelle w = Res.ok () w' ∧
      Cours cfg [nomLibelle] k d w w' ∧ nomLibelle ∈ w'.libelles ∧
      (∀ l, marqueDe cfg nomLibelle = some l → l ∈ w'.libelles) ∧
      (filsDe critere w nomLibelle ≠ [] →
        ∃ dd ∈ w'.dossiers, dd.parent = racineDe cfg ∧ dd.nom = nomLibelle) ∧
      (∀ f ∈ filsDe critere w nomLibelle, ∀ m ∈ f.messages, Fini cfg w' nomLibelle m) ∧
      (Acheve cfg critere w nomLibelle → Suit (fun op => op.mutante = false) w w') := by
  have hT := suit_trans (opsCalme (Acheve cfg critere w nomLibelle))
  obtain ⟨w1, e1, s1, l1⟩ := libelleOuCreation_sansPanne h hp nomLibelle
    (Acheve cfg critere w nomLibelle) w (fun c => c.1)
  obtain ⟨w2, e2, s2, l2⟩ := libelleTraiteDe_sansPanne cfg h hp nomLibelle
    (Acheve cfg critere w nomLibelle) w1
    (fun c l hl => suit_libelles _ _ _ s1 l (c.2.1 l hl))
  obtain ⟨w3, e3, s3, -⟩ := appel_suit (opsCalme (Acheve cfg critere w nomLibelle)) h hp
    Op.getUserProperties ⟨rfl, fun _ => rfl⟩ w2
  obtain ⟨w4, e4, s4, -⟩ := appel_suit (opsCalme (Acheve cfg critere w nomLibelle)) h hp
    (Op.formatDate (js "yyyy/MM/dd")) ⟨rfl, fun _ => rfl⟩ w3
  obtain ⟨w5, e5, s5⟩ := ecrire_suit (opsCalme (Acheve cfg critere w nomLibelle))
    (Ligne.recherche nomLibelle (requeteDe cfg nomLibelle
      (h.formatDate (ajouterJours_ h h.maintenant (-cfg.joursDeRecherche)) (js "yyyy/MM/dd"))))
    w4
  obtain ⟨w6, e6, s6, -⟩ := appel_suit (opsCalme (Acheve cfg critere w nomLibelle)) h hp
    (Op.search (requeteDe cfg nomLibelle
      (h.formatDate (ajouterJours_ h h.maintenant (-cfg.joursDeRecherche)) (js "yyyy/MM/dd"))))
    ⟨rfl, fun _ => rfl⟩ w5
  have s06 := hT _ _ _ (hT _ _ _ (hT _ _ _ (hT _ _ _ (hT _ _ _ s1 s2) s3) s4) s5) s6
  have hfils : filsDe critere w6 nomLibelle = filsDe critere w nomLibelle :=
    filsDe_fils critere w w6 nomLibelle (suit_prelude_fils w w6 (opsCalme_prelude _ _ _ s06))
  have s16 := hT _ _ _ (hT _ _ _ (hT _ _ _ (hT _ _ _ s2 s3) s4) s5) s6
  have s26 := hT _ _ _ (hT _ _ _ (hT _ _ _ s3 s4) s5) s6
  have hsuite : ∀ w7, Suit (opsCalme (Acheve cfg critere w nomLibelle)) w6 w7 →
      Cours cfg [nomLibelle] k d w w7 ∧ nomLibelle ∈ w7.libelles ∧
      (∀ l, marqueDe cfg nomLibelle = some l → l ∈ w7.libelles) ∧
      (Acheve cfg critere w nomLibelle → Suit (fun op => op.mutante = false) w w7) := by
    intro w7 s67
    have s07 := hT _ _ _ s06 s67
    refine ⟨suit_cours cfg _ k d _ (opsCalme_cours cfg _ k _) _ _ s07,
      suit_libelles _ _ _ (hT _ _ _ s16 s67) _ l1,
      fun l hl => suit_libelles _ _ _ (hT _ _ _ s26 s67) _ (l2 l hl), ?_⟩
    intro c
    exact suit_mono _ _ (fun _ ho => ho.2 c) _ _ s07
  have hprog : ∀ w', (if (filsDe critere w nomLibelle).length = 0 then ecrire Ligne.aucune
      else do
        let dossierRacine ← dossierRacineDe cfg h
        let dossierLibelle ← obtenirOuCreerSousDossier_ h dossierRacine nomLibelle
        pourChaque (traiterFil cfg h nomLibelle nomLibelle (marqueDe cfg nomLibelle)
          dossierLibelle) (filsDe critere w nomLibelle)) w6 = Res.ok () w' →
      traiterLibelle_ cfg h nomLibelle w = Res.ok () w' := by
    intro w' hw'
    simp only [traiterLibelle_, formaterDate_, search, lireMonde, bind_apply, pure_apply, e1,
      e2, e3, e4, e5, e6, hrech, hfils]
    exact hw'
  by_cases hvide : (filsDe critere w nomLibelle).length = 0
  · obtain ⟨w7, e7, s7⟩ := ecrire_suit (opsCalme (Acheve cfg critere w nomLibelle))
      Ligne.aucune w6
    obtain ⟨c7, a7, b7, n7⟩ := hsuite w7 s7
    have hnil : filsDe critere w nomLibelle = [] := List.length_eq_zero.mp hvide
    refine ⟨w7, hprog w7 (by simp only [hvide, if_true]; exact e7), c7, a7, b7, ?_, ?_, n7⟩
    · intro hne; exact absurd hnil hne
    · intro f hf; rw [hnil] at hf; exact absurd hf (List.not_mem_nil _)
  · have hne : filsDe critere w nomLibelle ≠ [] := fun e => hvide (by rw [e]; rfl)
    have hpret6 := pret_suit _ cfg h w w6 s06 hpret
    obtain ⟨w7, e7, s7⟩ := dossierRacineDe_sansPanne cfg h hp
      (Acheve cfg critere w nomLibelle) w6 hpret6.1
    obtain ⟨id, w8, e8, s8, dd, hdd, hdp, hdn⟩ := sousDossier_sansPanne h hp (racineDe cfg)
      nomLibelle (Acheve cfg critere w nomLibelle) w7 (fun c => by
        obtain ⟨dd, hdd, hpn⟩ := c.2.2.1 hne
        exact ⟨dd, suit_dossiers _ _ _ (hT _ _ _ s06 s7) dd hdd, hpn⟩)
    obtain ⟨c8, a8, b8, n8⟩ := hsuite w8 (hT _ _ _ s7 s8)
    obtain ⟨w9, e9, c9, -, p9, n9⟩ := pourChaque_cours cfg [nomLibelle] k d
      (traiterFil cfg h nomLibelle nomLibelle (marqueDe cfg nomLibelle) id)
      (filsDe critere w nomLibelle) (fun _ => True)
      (fun w f => ∀ m ∈ f.messages, Fini cfg w nomLibelle m)
      (fun f _ w w' hc hf m hm => cours_fini cfg _ k d w w' hc nomLibelle m (hf m hm))
      (fun f hf w0 _ => by
        have hfw : f ∈ w.fils := (List.mem_filter.mp hf).1
        obtain ⟨w', r1, r2, r3, r4⟩ := traiterFil_sansPanne cfg h hsim hp nomLibelle id k d f
          (fun m hm => hpret.2 f hfw m hm)
          (fun m hm => hcible m (hpret.2 f hfw m hm)) w0
        exact ⟨w', r1, r2, trivial, r3, r4⟩) w8 trivial
    have s89 := cours_suit cfg _ k d _ _ c9
    refine ⟨w9, hprog w9 ?_, cours_trans cfg _ k d _ _ _ c8 c9,
      suit_libelles _ _ _ s89 _ a8, fun l hl => suit_libelles _ _ _ s89 _ (b8 l hl),
      fun _ => ⟨dd, suit_dossiers _ _ _ s89 dd hdd, hdp, hdn⟩, p9, ?_⟩
    · simp only [hvide, if_false, bind_apply, e7, e8]
      exact e9
    · intro c
      refine suit_trans _ _ _ _ (n8 c) (n9 ?_)
      intro f hf m hm
      exact cours_fini cfg _ k d _ _ c8 nomLibelle m (c.2.2.2 f hf m hm)

theorem mem_filsDe (critere : List Message → Bool) (w : Monde) (nomLibelle : JsString)
    (f : Fil) :
    f ∈ filsDe critere w nomLibelle ↔
      f ∈ w.fils ∧ nomLibelle ∈ f.libelles ∧ critere f.messages = true := by
  simp [filsDe, List.mem_filter]

theorem avant_filsDe (cfg : Config) (ls : List JsString) (critere : List Message → Bool)
    (w w' : Monde) (nomLibelle : JsString) (hs : Suit (opsCours cfg ls) w w')
    (hm : ∀ l ∈ ls, marqueDe cfg l ≠ some nomLibelle) :
    ∀ f' ∈ filsDe critere w' nomLibelle, ∃ f ∈ filsDe critere w nomLibelle,
      f.messages = f'.messages := by
  intro f' hf'
  obtain ⟨tr, -, hops, he⟩ := hs
  obtain ⟨h1, h2, h3⟩ := (mem_filsDe _ _ _ _).mp hf'
  rw [he.2.1] at h1
  obtain ⟨f, hf, hmes, hl⟩ := rejouer_avant tr w nomLibelle (by
    intro op hop id heq
    have := hops op hop
    rw [heq] at this
    obtain ⟨nom, hn, hq⟩ := this
    exact hm nom hn hq) f' h1 h2
  exact ⟨f, (mem_filsDe _ _ _ _).mpr ⟨hf, hl, by rw [hmes]; exact h3⟩, hmes⟩

theorem apres_filsDe (cfg : Config) (ls : List JsString) (critere : List Message → Bool)
    (w w' : Monde) (nomLibelle : JsString) (hs : Suit (opsCours cfg ls) w w')
    (hm : nomLibelle ∉ ls) :
    ∀ f ∈ filsDe critere w nomLibelle, ∃ f' ∈ filsDe critere w' nomLibelle,
      f'.messages = f.messages := by
  intro f hf
  obtain ⟨tr, -, hops, he⟩ := hs
  obtain ⟨h1, h2, h3⟩ := (mem_filsDe _ _ _ _).mp hf
  obtain ⟨f', hf', hmes, hl⟩ := rejouer_apres tr w nomLibelle (by
    intro op hop id heq
    have := hops op hop
    rw [heq] at this
    exact hm this) f h1 h2
  rw [← he.2.1] at hf'
  exact ⟨f', (mem_filsDe _ _ _ _).mpr ⟨hf', hl, by rw [hmes]; exact h3⟩, hmes⟩

theorem acheve_cours (cfg : Config) (ls : List JsString) (critere : List Message → Bool)
    (k d : JsString) (w w' : Monde) (nomLibelle : JsString) (hc : Cours cfg ls k d w w')
    (hm : ∀ l ∈ ls, marqueDe cfg l ≠ some nomLibelle)
    (ha : Acheve cfg critere w nomLibelle) : Acheve cfg critere w' nomLibelle := by
  have hs := cours_suit cfg ls k d w w' hc
  have hav := avant_filsDe cfg ls critere w w' nomLibelle hs hm
  refine ⟨suit_libelles _ _ _ hs _ ha.1, fun l hl => suit_libelles _ _ _ hs _ (ha.2.1 l hl),
    ?_, ?_⟩
  · intro hne
    obtain ⟨f', hf'⟩ := List.exists_mem_of_ne_nil _ hne
    obtain ⟨f, hf, -⟩ := hav f' hf'
    obtain ⟨dd, hdd, hpn⟩ := ha.2.2.1 (List.ne_nil_of_mem hf)
    exact ⟨dd, suit_dossiers _ _ _ hs dd hdd, hpn⟩
  · intro f' hf' m hm'
    obtain ⟨f, hf, hmes⟩ := hav f' hf'
    exact cours_fini cfg ls k d w w' hc nomLibelle m (ha.2.2.2 f hf m (hmes ▸ hm'))

theorem abouti_cours (cfg : Config) (ls : List JsString) (critere : List Message → Bool)
    (k d : JsString) (w0 w w' : Monde) (nomLibelle : JsString) (hc : Cours cfg ls k d w w')
    (ha : Abouti cfg critere w0 w nomLibelle) : Abouti cfg critere w0 w' nomLibelle :=
  fun f0 hf0 m hm => cours_fini cfg ls k d w w' hc nomLibelle m (ha f0 hf0 m hm)

theorem traiterLibelle_invariant (cfg : Config) (h : Hote)
    (hsim : cfg.modeSimulation = false) (hp : ∀ w op, h.panne w op = false)
    (critere : List Message → Bool) (w0 : Monde)
    (hrech : ∀ l ∈ cfg.libellesATraiter, ∀ w', h.recherche w' (requeteDe cfg l
      (h.formatDate (ajouterJours_ h h.maintenant (-cfg.joursDeRecherche)) (js "yyyy/MM/dd"))) =
        filsDe critere w' l)
    (hmarque : ∀ l ∈ cfg.libellesATraiter, ∀ l' ∈ cfg.libellesATraiter,
      marqueDe cfg l' ≠ some l)
    (k d : JsString)
    (hcible : ∀ l ∈ cfg.libellesATraiter, ∀ m, Sain h m →
      (cleMessageDe l m.id = k ↔ descriptionDe l m.id = d))
    (nomLibelle : JsString) (hl : nomLibelle ∈ cfg.libellesATraiter) (w : Monde)
    (hI : Invariant cfg h critere w0 w) :
    ∃ w', traiterLibelle_ cfg h nomLibelle w = Res.ok () w' ∧
      Cours cfg cfg.libellesATraiter k d w w' ∧ Invariant cfg h critere w0 w' ∧
      (Acheve cfg critere w' nomLibelle ∧ Abouti cfg critere w0 w' nomLibelle) ∧
      (Acheve cfg critere w nomLibelle ∧ Abouti cfg critere w0 w nomLibelle →
        Suit (fun op => op.mutante = false) w w') := by
  obtain ⟨w', e, c, a, b, fo, fi, n⟩ := traiterLibelle_sansPanne cfg h hsim hp critere
    nomLibelle (hrech nomLibelle hl) k d (hcible nomLibelle hl) w hI.1
  have hs := cours_suit cfg _ k d w w' c
  have hav := avant_filsDe cfg [nomLibelle] critere w w' nomLibelle hs (by
    intro l hl'
    rw [List.mem_singleton] at hl'
    subst hl'
    exact hmarque l hl l hl)
  have hab : Abouti cfg critere w0 w' nomLibelle := by
    rcases hI.2 nomLibelle hl with hi | ha
    · intro f0 hf0 m hm
      obtain ⟨f, hf, hmes⟩ := hi f0 hf0
      exact fi f hf m (hmes ▸ hm)
    · exact abouti_cours cfg _ critere k d w0 w w' nomLibelle c ha
  refine ⟨w', e, cours_mono cfg _ _ (by simpa using hl) k d w w' c,
    ⟨pret_suit _ cfg h w w' hs hI.1, ?_⟩, ⟨⟨a, b, ?_, ?_⟩, hab⟩, fun hP => n hP.1⟩
  · intro l2 hl2
    by_cases heq : l2 = nomLibelle
    · subst heq; exact Or.inr hab
    · rcases hI.2 l2 hl2 with hi | ha
      · left
        intro f0 hf0
        obtain ⟨f, hf, hmes⟩ := hi f0 hf0
        obtain ⟨f', hf', hmes'⟩ := apres_filsDe cfg [nomLibelle] critere w w' l2 hs
          (by simpa using heq) f hf
        exact ⟨f', hf', hmes'.trans hmes⟩
      · exact Or.inr (abouti_cours cfg _ critere k d w0 w w' l2 c ha)
  · intro hne
    obtain ⟨f', hf'⟩ := List.exists_mem_of_ne_nil _ hne
    obtain ⟨f, hf, -⟩ := hav f' hf'
    exact fo (List.ne_nil_of_mem hf)
  · intro f' hf' m hm
    obtain ⟨f, hf, hmes⟩ := hav f' hf'
    exact fi f hf m (hmes ▸ hm)

theorem executer_sansPanne (cfg : Config) (h : Hote)
    (hsim : cfg.modeSimulation = false) (hp : ∀ w op, h.panne w op = false)
    (critere : List Message → Bool) (w0 : Monde)
    (hrech : ∀ l ∈ cfg.libellesATraiter, ∀ w', h.recherche w' (requeteDe cfg l
      (h.formatDate (ajouterJours_ h h.maintenant (-cfg.joursDeRecherche)) (js "yyyy/MM/dd"))) =
        filsDe critere w' l)
    (hmarque : ∀ l ∈ cfg.libellesATraiter, ∀ l' ∈ cfg.libellesATraiter,
      marqueDe cfg l' ≠ some l)
    (k d : JsString)
    (hcible : ∀ l ∈ cfg.libellesATraiter, ∀ m, Sain h m →
      (cleMessageDe l m.id = k ↔ descriptionDe l m.id = d))
    (w : Monde) (hI : Invariant cfg h critere w0 w) :
    ∃ w', executer cfg h w = Res.ok () w' ∧
      Cours cfg cfg.libellesATraiter k d w w' ∧ Invariant cfg h critere w0 w' ∧
      (∀ l ∈ cfg.libellesATraiter,
        Acheve cfg critere w' l ∧ Abouti cfg critere w0 w' l) ∧
      ((∀ l ∈ cfg.libellesATraiter, Acheve cfg critere w l ∧ Abouti cfg critere w0 w l) →
        Suit (fun op => op.mutante = false) w w') := by
  obtain ⟨w', e, c, hI', hP, hN⟩ := pourChaque_cours cfg cfg.libellesATraiter k d
    (traiterLibelle_ cfg h) cfg.libellesATraiter (Invariant cfg h critere w0)
    (fun w l => Acheve cfg critere w l ∧ Abouti cfg critere w0 w l)
    (fun l hl w w' hc hP => ⟨acheve_cours cfg _ critere k d w w' l hc
        (fun l' hl' => hmarque l hl l' hl') hP.1,
      abouti_cours cfg _ critere k d w0 w w' l hc hP.2⟩)
    (fun l hl w hI => traiterLibelle_invariant cfg h hsim hp critere w0 hrech hmarque k d
      hcible l hl w hI) w hI
  refine ⟨w', ?_, c, hI', hP, hN⟩
  simp only [executer, essayer, e]

theorem descriptionDe_ne_nil (l id : JsString) : descriptionDe l id ≠ [] := by
  intro h
  have := congrArg List.length h
  simp [descriptionDe, js] at this

/-- C3, amended: with simulation mode off, when no host call fails, the configured root
folder exists, every message of the mailbox can be exported (its inline images resolve,
its identifier has neither a colon nor a space), the search for a configured label returns
the conversations that carry the label and meet a criterion on their messages, and no
configured label is the marker label of a configured label, two runs of `executer` in
succession both return; the second run makes no mutating call and leaves the mailbox, the
file store and the property store as the first run left them; and for every message of a
conversation that matched a configured label at the start, that had no ProcessedRecord
and is unread in unread-only mode, after the two runs exactly one property has the key
`traite:<label>:<id>`, with the value `1`, exactly one call of the two runs has set the
description of the PDF of the message on a file, and the file store, when its identifiers
are below the next free one, has one more file of that description than at the start. -/
theorem executer_deux_fois (cfg : Config) (h : Hote) (critere : List Message → Bool)
    (w : Monde) (hsim : cfg.modeSimulation = false)
    (hp : ∀ w' op, h.panne w' op = false) (hpret : Pret cfg h w)
    (hrech : ∀ l ∈ cfg.libellesATraiter, ∀ w', h.recherche w' (requeteDe cfg l
      (h.formatDate (ajouterJours_ h h.maintenant (-cfg.joursDeRecherche)) (js "yyyy/MM/dd"))) =
        filsDe critere w' l)
    (hmarque : ∀ l ∈ cfg.libellesATraiter, ∀ l' ∈ cfg.libellesATraiter,
      marqueDe cfg l' ≠ some l) :
    ∃ w1 w2 tr1 tr2, executer cfg h w = Res.ok () w1 ∧ executer cfg h w1 = Res.ok () w2 ∧
      w1.journal = w.journal ++ tr1 ∧ w2.journal = w1.journal ++ tr2 ∧
      (∀ op ∈ tr2, op.mutante = false) ∧ memeEtat w1 w2 ∧
      ∀ l ∈ cfg.libellesATraiter, ∀ f ∈ filsDe critere w l, ∀ m ∈ f.messages,
        (cfg.seulementNonLus = true → m.nonLu = true) →
        enregistre w (cleMessageDe l m.id) = false →
        w2.proprietes.filter (fun e => e.1 = cleMessageDe l m.id) =
          [(cleMessageDe l m.id, js "1")] ∧
        (tr1 ++ tr2).countP (Op.decrit (descriptionDe l m.id)) = 1 ∧
        (Range w → nombreDe (descriptionDe l m.id) w2 =
          nombreDe (descriptionDe l m.id) w + 1) := by
  have hI : Invariant cfg h critere w w := ⟨hpret, fun l _ => Or.inl (fun f0 hf0 => ⟨f0, hf0, rfl⟩)⟩
  have hvide : ∀ l ∈ cfg.libellesATraiter, ∀ m, Sain h m →
      (cleMessageDe l m.id = [] ↔ descriptionDe l m.id = []) := fun l _ m _ => cible_vide l m.id
  obtain ⟨w1, e1, c1, hI1, hP1, -⟩ := executer_sansPanne cfg h hsim hp critere w hrech hmarque
    [] [] hvide w hI
  obtain ⟨w2, e2, c2, hI2, hP2, hN2⟩ := executer_sansPanne cfg h hsim hp critere w hrech
    hmarque [] [] hvide w1 hI1
  obtain ⟨tr1, hj1, -⟩ := c1
  obtain ⟨tr2, hj2, hm2, he2⟩ := hN2 hP1
  rw [rejouer_lecture tr2 w1 hm2] at he2
  refine ⟨w1, w2, tr1, tr2, e1, e2, hj1, hj2, hm2, he2, ?_⟩
  intro l hl f hf m hm hnl hrec
  have hsain : Sain h m := hpret.2 f ((mem_filsDe _ _ _ _).mp hf).1 m hm
  have hcible : ∀ l' ∈ cfg.libellesATraiter, ∀ m', Sain h m' →
      (cleMessageDe l' m'.id = cleMessageDe l m.id ↔
        descriptionDe l' m'.id = descriptionDe l m.id) :=
    fun l' _ m' hs' => cible_iff h l' l m' m hs' hsain
  obtain ⟨w1', e1', c1', hI1', -, -⟩ := executer_sansPanne cfg h hsim hp critere w hrech
    hmarque _ _ hcible w hI
  have hw1 : w1' = w1 := by
    rw [e1] at e1'; simp only [Res.ok.injEq, true_and] at e1'; exact e1'.symm
  subst hw1
  obtain ⟨w2', e2', c2', -, -, -⟩ := executer_sansPanne cfg h hsim hp critere w hrech
    hmarque _ _ hcible w1' hI1'
  have hw2 : w2' = w2 := by
    rw [e2] at e2'; simp only [Res.ok.injEq, true_and] at e2'; exact e2'.symm
  subst hw2
  obtain ⟨tr, hj, he, hs, hd, hr, hn, hnb⟩ := cours_trans cfg _ _ _ _ _ _ c1' c2'
  have htr : tr = tr1 ++ tr2 := by
    rw [hj2, hj1, List.append_assoc] at hj
    exact (List.append_cancel_left hj).symm
  have hfin : enregistre w2' (cleMessageDe l m.id) = true := by
    rcases (hP2 l hl).2 f hf m hm with hf' | ⟨h1, h2⟩
    · exact hf'
    · rw [hnl h1] at h2; exact absurd h2 (by simp)
  have hpos : 0 < tr.countP (Op.ecritCle (cleMessageDe l m.id)) := by
    by_contra hz
    have hz' : tr.countP (Op.ecritCle (cleMessageDe l m.id)) = 0 := by omega
    have := rejouer_sans_ecritCle tr w _ hz'
    rw [memeEtat_enregistre _ _ he] at hfin
    unfold enregistre at hfin hrec
    rw [this, hrec] at hfin
    exact absurd hfin (by simp)
  refine ⟨?_, ?_, ?_⟩
  · rw [he.2.2.2.2.1]
    exact rejouer_ecrit tr w _ (opsCours_valeur cfg _ tr hs) hpos
  · rw [← htr, hd]; omega
  · intro hrange
    rw [(hnb (descriptionDe_ne_nil l m.id) hrange).2, hd]; omega

/-- C3, witness: the configuration of the source on a mailbox with one conversation
labelled `PDF`, of one unread message. -/
theorem executer_deux_fois_witness :
    Pret configSource hotePdf mondeUn ∧
    ∃ w1 w2 tr1 tr2, executer configSource hotePdf mondeUn = Res.ok () w1 ∧
      executer configSource hotePdf w1 = Res.ok () w2 ∧
      w1.journal = mondeUn.journal ++ tr1 ∧ w2.journal = w1.journal ++ tr2 ∧
      (∀ op ∈ tr2, op.mutante = false) ∧ memeEtat w1 w2 ∧
      w2.proprietes.filter (fun e => e.1 = cleMessageDe (js "PDF") messageNonLu.id) =
        [(cleMessageDe (js "PDF") messageNonLu.id, js "1")] ∧
      (tr1 ++ tr2).countP (Op.decrit (descriptionDe (js "PDF") messageNonLu.id)) = 1 ∧
      nombreDe (descriptionDe (js "PDF") messageNonLu.id) w2 = 1 := by
  have hpret : Pret configSource hotePdf mondeUn := by
    refine ⟨fun id hid => by simp [configSource] at hid, ?_⟩
    intro f hf m hm
    simp only [mondeUn, List.mem_singleton] at hf
    subst hf
    simp only [List.mem_singleton] at hm
    subst hm
    exact ⟨⟨js "<p>Hello</p>", rfl⟩, by decide, by decide⟩
  obtain ⟨w1, w2, tr1, tr2, e1, e2, j1, j2, hm, he, hall⟩ :=
    executer_deux_fois configSource hotePdf (fun _ => true) mondeUn rfl (fun _ _ => rfl) hpret
      (by
        intro l hl w'
        simp only [configSource, List.mem_singleton] at hl
        subst hl
        show (if requeteDe configSource (js "PDF") (js "2024-03-01") =
            requeteDe configSource (js "PDF") (js "2024-03-01") then
          filsDe (fun _ => true) w' (js "PDF") else []) = filsDe (fun _ => true) w' (js "PDF")
        exact if_pos rfl)
      (by
        intro l hl l' hl'
        simp only [configSource, List.mem_singleton] at hl hl'
        subst hl hl'
        decide)
  obtain ⟨h1, h2, h3⟩ := hall (js "PDF") (by simp [configSource])
    ⟨1, [js "PDF"], false, [messageNonLu]⟩ (by decide) messageNonLu (by simp)
    (fun _ => rfl) (by decide)
  exact ⟨hpret, w1, w2, tr1, tr2, e1, e2, j1, j2, hm, he, h1, h2,
    h3 (fun x hx => by simp [mondeUn] at hx)⟩

theorem croit_refl (w : Monde) : Croit w w := ⟨suit_refl _ w, List.prefix_refl _⟩

theorem croit_trans (a b c : Monde) (h1 : Croit a b) (h2 : Croit b c) : Croit a c :=
  ⟨suit_trans _ _ _ _ h1.1 h2.1, h1.2.trans h2.2⟩

theorem croit_pur {α : Type} (a : α) : Garde Croit (pure a : M α) := fun w => croit_refl w

theorem croit_lier {α β : Type} (m : M α) (f : α → M β) (hm : Garde Croit m)
    (hf : ∀ a, Garde Croit (f a)) : Garde Croit (m >>= f) := by
  intro w
  have h1 := hm w
  simp only [bind_apply]
  cases hmw : m w with
  | ok a w1 =>
    rw [hmw] at h1
    exact croit_trans _ _ _ h1 (hf a w1)
  | err e w1 =>
    rw [hmw] at h1
    exact h1

theorem croit_pourChaque {α : Type} (f : α → M Unit) (l : List α)
    (hf : ∀ a, Garde Croit (f a)) : Garde Croit (pourChaque f l) := by
  induction l with
  | nil => exact croit_pur ()
  | cons a t ih => exact croit_lier _ _ (hf a) (fun _ => ih)

theorem croit_lever {α : Type} (e : Erreur) : Garde Croit (lever e : M α) :=
  fun w => croit_refl w

theorem croit_lireMonde : Garde Croit lireMonde := fun w => croit_refl w

theorem croit_ecrire (l : Ligne) : Garde Croit (ecrire l) :=
  fun w => ⟨garde_ecrire _ l w, List.prefix_append _ _⟩

theorem croit_appel (h : Hote) (op : Op) : Garde Croit (appel h op) := by
  intro w
  refine ⟨garde_appel _ h op trivial w, ?_⟩
  unfold appel
  split
  · exact List.prefix_refl _
  · simp only [Res.monde, effet_console]; exact List.prefix_refl _

theorem croit_deResultat {α : Type} (r : Except Erreur α) : Garde Croit (deResultat r) := by
  cases r with
  | ok a => exact croit_pur a
  | error e => exact croit_lever e

theorem croit_exporterMessage (cfg : Config) (h : Hote) (nomLibelle libelle : JsString)
    (libelleTraite : Option JsString) (dossierLibelle : Nat) (fil : Fil) (message : Message)
    (idMessage cleMessage : JsString) :
    Garde Croit (exporterMessage cfg h nomLibelle libelle libelleTraite dossierLibelle fil
      message idMessage cleMessage) := by
  unfold exporterMessage enregistrerExport sauvegarderEtMarquer convertirEmailEnPdf_
    enregistrerPiecesJointes_ obtenirOuCreerSousDossier_ marquer
  simp only [enregistrerPiece, accesMessage, createFile, setDescription, setProperty,
    moveToArchive, addLabel, removeLabel, getFoldersByName, createFolder]
  repeat' first
    | exact croit_pur _
    | exact croit_appel _ _
    | exact croit_ecrire _
    | exact croit_lireMonde
    | exact croit_deResultat _
    | refine croit_lier _ _ ?_ (fun _ => ?_)
    | refine croit_pourChaque _ _ (fun _ => ?_)
    | split
    | dsimp only

theorem croit_controle (w : Monde) (ops : List Op) (h : ∀ op ∈ ops, op.mutante = false) :
    Croit w { w with journal := w.journal ++ ops } :=
  ⟨suit_mono _ _ (fun _ _ => trivial) _ _ (suit_lecture w ops h w.console),
    List.prefix_refl _⟩

theorem traiterMessage_tour (cfg : Config) (h : Hote) (nomLibelle libelle : JsString)
    (libelleTraite : Option JsString) (dossierLibelle : Nat) (fil : Fil) (message : Message)
    (hab : ∀ w', h.panne w' (Op.message AccesMessage.getId message.id) = false ∧
      h.panne w' (Op.getProperty (cleMessageDe nomLibelle message.id)) = false ∧
      h.panne w' (Op.message AccesMessage.isUnread message.id) = false)
    (w : Monde) :
    ∃ wc wb, traiterMessage cfg h nomLibelle libelle libelleTraite dossierLibelle fil message
        w = Res.ok () wb ∧ Croit w wc ∧ Croit wc wb ∧
      (Fini cfg wc nomLibelle message → wb = wc) ∧
      (¬ Fini cfg wc nomLibelle message →
        exporterMessage cfg h nomLibelle libelle libelleTraite dossierLibelle fil message
            message.id (cleMessageDe nomLibelle message.id) wc = Res.ok () wb ∨
        ∃ e w1, exporterMessage cfg h nomLibelle libelle libelleTraite dossierLibelle fil
            message message.id (cleMessageDe nomLibelle message.id) wc = Res.err e w1 ∧
          wb = { w1 with console := w1.console ++ [Ligne.erreurMessage message.id e] }) := by
  have hexp : ∀ wc : Monde, ∃ wb,
      essayer (exporterMessage cfg h nomLibelle libelle libelleTraite dossierLibelle fil
          message message.id (cleMessageDe nomLibelle message.id))
        (fun erreur => ecrire (Ligne.erreurMessage message.id erreur)) wc = Res.ok () wb ∧
      Croit wc wb ∧
      (exporterMessage cfg h nomLibelle libelle libelleTraite dossierLibelle fil message
            message.id (cleMessageDe nomLibelle message.id) wc = Res.ok () wb ∨
        ∃ e w1, exporterMessage cfg h nomLibelle libelle libelleTraite dossierLibelle fil
            message message.id (cleMessageDe nomLibelle message.id) wc = Res.err e w1 ∧
          wb = { w1 with console := w1.console ++ [Ligne.erreurMessage message.id e] }) := by
    intro wc
    have hg := croit_exporterMessage cfg h nomLibelle libelle libelleTraite dossierLibelle fil
      message message.id (cleMessageDe nomLibelle message.id) wc
    cases hx : exporterMessage cfg h nomLibelle libelle libelleTraite dossierLibelle fil
        message message.id (cleMessageDe nomLibelle message.id) wc with
    | ok u wb =>
      rw [hx] at hg
      exact ⟨wb, by simp only [essayer, hx], hg, Or.inl rfl⟩
    | err e w1 =>
      rw [hx] at hg
      refine ⟨{ w1 with console := w1.console ++ [Ligne.erreurMessage message.id e] },
        by simp only [essayer, hx, ecrire],
        croit_trans _ _ _ hg (croit_ecrire (Ligne.erreurMessage message.id e) w1),
        Or.inr ⟨e, w1, rfl, rfl⟩⟩
  simp only [traiterMessage, accesMessage, getProperty, lireMonde, bind_apply, pure_apply,
    appel_ok h _ _ (hab _).1, appel_ok h _ _ (hab _).2.1, Op.effet]
  by_cases hrec : estVrai ((List.lookup (cleMessageDe nomLibelle message.id)
      w.proprietes).getD []) = true
  · simp only [hrec, if_true]
    have hc := croit_controle w [Op.message AccesMessage.getId message.id,
      Op.getProperty (cleMessageDe nomLibelle message.id)] (by simp [Op.mutante])
    simp only [List.append_assoc, List.singleton_append] at hc ⊢
    exact ⟨_, _, rfl, hc, croit_refl _, fun _ => rfl, fun hn => absurd (Or.inl hrec) hn⟩
  · simp only [hrec, Bool.false_eq_true, if_false]
    by_cases hnl : cfg.seulementNonLus = true
    · simp only [estLu, hnl, if_true, accesMessage, bind_apply, pure_apply,
        appel_ok h _ _ (hab _).2.2, Op.effet]
      have hc := croit_controle w [Op.message AccesMessage.getId message.id,
        Op.getProperty (cleMessageDe nomLibelle message.id),
        Op.message AccesMessage.isUnread message.id] (by simp [Op.mutante])
      simp only [List.append_assoc, List.singleton_append] at hc ⊢
      by_cases hlu : message.nonLu = true
      · simp only [hlu, Bool.not_true, Bool.false_eq_true, if_false]
        obtain ⟨wb, e1, c1, o1⟩ := hexp { w with journal := w.journal ++
          [Op.message AccesMessage.getId message.id,
            Op.getProperty (cleMessageDe nomLibelle message.id),
            Op.message AccesMessage.isUnread message.id] }
        refine ⟨_, wb, e1, hc, c1, ?_, fun _ => o1⟩
        rintro (hf | ⟨-, hf⟩)
        · exact absurd hf hrec
        · rw [hlu] at hf; exact absurd hf (by simp)
      · have hlu' : message.nonLu = false := by simpa using hlu
        simp only [hlu', Bool.not_false, if_true]
        exact ⟨_, _, rfl, hc, croit_refl _, fun _ => rfl,
          fun hn => absurd (Or.inr ⟨hnl, hlu'⟩) hn⟩
    · simp only [estLu, hnl, if_false, bind_apply, pure_apply, Bool.false_eq_true]
      have hc := croit_controle w [Op.message AccesMessage.getId message.id,
        Op.getProperty (cleMessageDe nomLibelle message.id)] (by simp [Op.mutante])
      simp only [List.append_assoc, List.singleton_append] at hc ⊢
      obtain ⟨wb, e1, c1, o1⟩ := hexp { w with journal := w.journal ++
        [Op.message AccesMessage.getId message.id,
          Op.getProperty (cleMessageDe nomLibelle message.id)] }
      refine ⟨_, wb, e1, hc, c1, ?_, fun _ => o1⟩
      rintro (hf | ⟨hf, -⟩)
      · exact absurd hf hrec
      · exact absurd hf hnl

theorem pourChaque_croit {α : Type} (f : α → M Unit) (Q : α → Monde → Monde → Prop)
    (l : List α)
    (hf : ∀ a ∈ l, ∀ w, ∃ w', f a w = Res.ok () w' ∧ Croit w w' ∧ Q a w w') :
    ∀ w, ∃ w', pourChaque f l w = Res.ok () w' ∧ Croit w w' ∧
      ∀ a ∈ l, ∃ wa wb, Croit w wa ∧ Croit wb w' ∧ Q a wa wb := by
  induction l with
  | nil => intro w; exact ⟨w, rfl, croit_refl w, by simp⟩
  | cons a t ih =>
    intro w
    obtain ⟨w1, h1, c1, q1⟩ := hf a (List.mem_cons_self _ _) w
    obtain ⟨w2, h2, c2, q2⟩ := ih (fun b hb => hf b (List.mem_cons_of_mem _ hb)) w1
    refine ⟨w2, by simp only [pourChaque, bind_apply, h1, h2], croit_trans _ _ _ c1 c2, ?_⟩
    intro b hb
    rcases List.mem_cons.mp hb with rfl | hb
    · exact ⟨w, w1, croit_refl w, c2, q1⟩
    · obtain ⟨wa, wb, ca, cb, q⟩ := q2 b hb
      exact ⟨wa, wb, croit_trans _ _ _ c1 ca, cb, q⟩

theorem traiterFils_recherches (cfg : Config) (h : Hote) (nomLibelle libelle : JsString)
    (libelleTraite : Option JsString) (dossierLibelle : Nat) (fils : List Fil)
    (hfil : ∀ w' f, f ∈ fils → h.panne w' (Op.getMessages f.id) = false)
    (hab : ∀ w' f m, f ∈ fils → m ∈ f.messages →
      h.panne w' (Op.message AccesMessage.getId m.id) = false ∧
      h.panne w' (Op.getProperty (cleMessageDe nomLibelle m.id)) = false ∧
      h.panne w' (Op.message AccesMessage.isUnread m.id) = false) (w : Monde) :
    ∃ w', pourChaque (traiterFil cfg h nomLibelle libelle libelleTraite dossierLibelle)
        fils w = Res.ok () w' ∧
      ∃ tr, w'.journal = w.journal ++ tr ∧
        ∀ f ∈ fils, ∀ m ∈ f.messages,
          Op.getProperty (cleMessageDe nomLibelle m.id) ∈ tr := by
  have := pourChaque_total (traiterFil cfg h nomLibelle libelle libelleTraite dossierLibelle)
    (fun f => f.messages.map (fun m => Op.getProperty (cleMessageDe nomLibelle m.id))) fils
    (by
      intro f hf w0
      simp only [traiterFil, getMessages, bind_apply, pure_apply,
        appel_ok h _ _ (hfil _ f hf), Op.effet]
      obtain ⟨w', hw', tr, hj, ho⟩ := pourChaque_total
        (traiterMessage cfg h nomLibelle libelle libelleTraite dossierLibelle f)
        (fun m => [Op.getProperty (cleMessageDe nomLibelle m.id)]) f.messages
        (by
          intro m hm w1
          obtain ⟨w2, h2, tr2, hj2, ho2⟩ := traiterMessage_ok cfg h nomLibelle libelle
            libelleTraite dossierLibelle f m (fun w' => hab w' f m hf hm) w1
          exact ⟨w2, h2, tr2, hj2, by simpa using ho2⟩)
        { w0 with journal := w0.journal ++ [Op.getMessages f.id] }
      refine ⟨w', hw', [Op.getMessages f.id] ++ tr, by rw [hj]; simp, ?_⟩
      intro op hop
      obtain ⟨m, hm, rfl⟩ := List.mem_map.mp hop
      exact List.mem_append_right _ (ho m hm _ (by simp)))
    w
  obtain ⟨w', hw', tr, hj, ho⟩ := this
  exact ⟨w', hw', tr, hj, fun f hf m hm => ho f hf _ (List.mem_map.mpr ⟨m, hm, rfl⟩)⟩

/-- C4 (amended): in the loop of `traiterLibelle_` over the conversations found and
their messages (lines 90-139), when the calls made outside the `try` block do not fail
(`getMessages`, `getId`, the lookup of the ProcessedRecord, `isUnread`), whatever fails
inside it (rendering, PDF save, attachment save, relabel, archive, record write): the
loop returns without throwing; the ProcessedRecord of every message of every conversation
is looked up; and every message has its turn in the run, in a world `wc` that follows the
start and in which its checks are made: a message with a ProcessedRecord, or read in
unread-only mode, is skipped; for any other message the `try` block runs from `wc`, and
either it returns, in a world `wb` that the end of the run follows, or it throws, and
then the error is caught, its line with the identifier of the message is written to the
console, where it still is at the end of the run, and the run goes on from there. -/
theorem traiterFils_isole (cfg : Config) (h : Hote) (nomLibelle libelle : JsString)
    (libelleTraite : Option JsString) (dossierLibelle : Nat) (fils : List Fil)
    (hfil : ∀ w' f, f ∈ fils → h.panne w' (Op.getMessages f.id) = false)
    (hab : ∀ w' f m, f ∈ fils → m ∈ f.messages →
      h.panne w' (Op.message AccesMessage.getId m.id) = false ∧
      h.panne w' (Op.getProperty (cleMessageDe nomLibelle m.id)) = false ∧
      h.panne w' (Op.message AccesMessage.isUnread m.id) = false) (w : Monde) :
    ∃ w', pourChaque (traiterFil cfg h nomLibelle libelle libelleTraite dossierLibelle)
        fils w = Res.ok () w' ∧
      (∃ tr, w'.journal = w.journal ++ tr ∧
        ∀ f ∈ fils, ∀ m ∈ f.messages,
          Op.getProperty (cleMessageDe nomLibelle m.id) ∈ tr) ∧
      ∀ f ∈ fils, ∀ m ∈ f.messages, ∃ wc wb, Croit w wc ∧ Croit wc wb ∧ Croit wb w' ∧
        (Fini cfg wc nomLibelle m → wb = wc) ∧
        (¬ Fini cfg wc nomLibelle m →
          exporterMessage cfg h nomLibelle libelle libelleTraite dossierLibelle f m m.id
              (cleMessageDe nomLibelle m.id) wc = Res.ok () wb ∨
          ∃ e w1, exporterMessage cfg h nomLibelle libelle libelleTraite dossierLibelle f m
              m.id (cleMessageDe nomLibelle m.id) wc = Res.err e w1 ∧
            wb = { w1 with console := w1.console ++ [Ligne.erreurMessage m.id e] } ∧
            Ligne.erreurMessage m.id e ∈ w'.console) := by
  obtain ⟨w0, e0, htr⟩ := traiterFils_recherches cfg h nomLibelle libelle libelleTraite
    dossierLibelle fils hfil hab w
  obtain ⟨w', e1, -, hq⟩ := pourChaque_croit
    (traiterFil cfg h nomLibelle libelle libelleTraite dossierLibelle)
    (fun f wa wb => ∀ m ∈ f.messages, ∃ wc wd, Croit wa wc ∧ Croit wc wd ∧ Croit wd wb ∧
      (Fini cfg wc nomLibelle m → wd = wc) ∧
      (¬ Fini cfg wc nomLibelle m →
        exporterMessage cfg h nomLibelle libelle libelleTraite dossierLibelle f m m.id
            (cleMessageDe nomLibelle m.id) wc = Res.ok () wd ∨
        ∃ e w1, exporterMessage cfg h nomLibelle libelle libelleTraite dossierLibelle f m
            m.id (cleMessageDe nomLibelle m.id) wc = Res.err e w1 ∧
          wd = { w1 with console := w1.console ++ [Ligne.erreurMessage m.id e] }))
    fils
    (by
      intro f hf wa
      have hc := croit_controle wa [Op.getMessages f.id] (by simp [Op.mutante])
      obtain ⟨wb, e2, c2, q2⟩ := pourChaque_croit
        (traiterMessage cfg h nomLibelle libelle libelleTraite dossierLibelle f)
        (fun m wx wy => ∃ wc, Croit wx wc ∧ Croit wc wy ∧
          (Fini cfg wc nomLibelle m → wy = wc) ∧
          (¬ Fini cfg wc nomLibelle m →
            exporterMessage cfg h nomLibelle libelle libelleTraite dossierLibelle f m m.id
                (cleMessageDe nomLibelle m.id) wc = Res.ok () wy ∨
            ∃ e w1, exporterMessage cfg h nomLibelle libelle libelleTraite dossierLibelle f m
                m.id (cleMessageDe nomLibelle m.id) wc = Res.err e w1 ∧
              wy = { w1 with console := w1.console ++ [Ligne.erreurMessage m.id e] }))
        f.messages
        (by
          intro m hm wx
          obtain ⟨wc, wy, r1, r2, r3, r4, r5⟩ := traiterMessage_tour cfg h nomLibelle libelle
            libelleTraite dossierLibelle f m (fun w' => hab w' f m hf hm) wx
          exact ⟨wy, r1, croit_trans _ _ _ r2 r3, wc, r2, r3, r4, r5⟩)
        { wa with journal := wa.journal ++ [Op.getMessages f.id] }
      refine ⟨wb, ?_, croit_trans _ _ _ hc c2, ?_⟩
      · simp only [traiterFil, getMessages, bind_apply, pure_apply,
          appel_ok h _ _ (hfil _ f hf), Op.effet]
        exact e2
      · intro m hm
        obtain ⟨wx, wy, cx, cy, wc, r2, r3, r4, r5⟩ := q2 m hm
        exact ⟨wc, wy, croit_trans _ _ _ hc (croit_trans _ _ _ cx r2), r3, cy, r4, r5⟩)
    w
  have hw : w0 = w' := by
    rw [e0] at e1; simp only [Res.ok.injEq, true_and] at e1; exact e1
  subst hw
  refine ⟨w0, e0, htr, ?_⟩
  intro f hf m hm
  obtain ⟨wa, wb, ca, cb, hm'⟩ := hq f hf
  obtain ⟨wc, wd, r1, r2, r3, r4, r5⟩ := hm' m hm
  have hfin := croit_trans _ _ _ r3 cb
  refine ⟨wc, wd, croit_trans _ _ _ ca r1, r2, hfin, r4, ?_⟩
  intro hn
  rcases r5 hn with hok | ⟨e, w1, herr, hwd⟩
  · exact Or.inl hok
  · refine Or.inr ⟨e, w1, herr, hwd, ?_⟩
    obtain ⟨t, ht⟩ := hfin.2
    rw [← ht, hwd]
    simp

/-- C4, witness: the conversation of `mondePdf` on a host where every rendering fails;
the errors of both messages are written to the console. -/
theorem traiterFils_isole_witness :
    (∃ w', pourChaque (traiterFil configSource hotePanneRendu (js "PDF") (js "PDF")
        (some (js "PDF/Traité")) 1) mondePdf.fils mondePdf = Res.ok () w' ∧
      (∃ tr, w'.journal = mondePdf.journal ++ tr ∧
        ∀ f ∈ mondePdf.fils, ∀ m ∈ f.messages,
          Op.getProperty (cleMessageDe (js "PDF") m.id) ∈ tr) ∧
      ∀ f ∈ mondePdf.fils, ∀ m ∈ f.messages, ∃ wc wb,
        Croit mondePdf wc ∧ Croit wc wb ∧ Croit wb w' ∧
        (Fini configSource wc (js "PDF") m → wb = wc) ∧
        (¬ Fini configSource wc (js "PDF") m →
          exporterMessage configSource hotePanneRendu (js "PDF") (js "PDF")
              (some (js "PDF/Traité")) 1 f m m.id (cleMessageDe (js "PDF") m.id) wc =
            Res.ok () wb ∨
          ∃ e w1, exporterMessage configSource hotePanneRendu (js "PDF") (js "PDF")
              (some (js "PDF/Traité")) 1 f m m.id (cleMessageDe (js "PDF") m.id) wc =
              Res.err e w1 ∧
            wb = { w1 with console := w1.console ++ [Ligne.erreurMessage m.id e] } ∧
            Ligne.erreurMessage m.id e ∈ w'.console)) ∧
    (pourChaque (traiterFil configSource hotePanneRendu (js "PDF") (js "PDF")
        (some (js "PDF/Traité")) 1) mondePdf.fils mondePdf).monde.console =
      [Ligne.erreurMessage messageNonLu.id (Erreur.panne (Op.rendrePdf messageNonLu.id)),
        Ligne.erreurMessage messageLu.id (Erreur.panne (Op.rendrePdf messageLu.id))] :=
  ⟨traiterFils_isole configSource hotePanneRendu (js "PDF") (js "PDF")
    (some (js "PDF/Traité")) 1 mondePdf.fils (fun _ _ _ => rfl)
    (fun _ _ _ _ _ => ⟨rfl, rfl, rfl⟩) mondePdf, by decide!⟩

end GMailToPDF
